import Mathlib

/-!
Verification of the jaxup streaming JSON codec (C++ headers under
`src/include/`) against its natural-language specification.

The development is a shallow embedding: every definition below is a direct
translation of a function of the C++ source, with machine integers modelled
as `Nat` (with explicit `% 2^64` where the C computation can wrap), IEEE-754
doubles modelled by their 64-bit bit patterns, byte streams as `List Nat`,
and fallible operations returning `Except`/`Option`.  All recursion is
structural (explicit fuel where the source uses loops), so every definition
evaluates by kernel reduction on concrete inputs.

Source files embedded here:
  * `src/include/jaxup_numeric.h`   (ryu float printer, integer printer)
  * `src/include/jaxup_grisu.h`     (raiseToPowTen decimal-to-double)
  * `src/include/jaxup_parser.h`    (tokenizer and number lexer)
  * `src/include/jaxup_generator.h` (streaming generator)
  * `src/include/jaxup_node.h`      (DOM node lookups)

The 128-bit power-of-ten tables live in `jaxup_power_tables.h`, which is not
part of the sources provided; those two tables are modelled from the spec
(section 4.1.2) as the standard Ryu 125-bit tables, which is the only shape
consistent with the bit-count and shift arithmetic of `ryu()` in
`jaxup_numeric.h`.  Definitions that depend on them say so in their doc
comments.
-/

namespace Jaxup

set_option maxRecDepth 16000
set_option exponentiation.threshold 5000

/-- Two to the sixty-fourth, the modulus of `uint64_t` arithmetic. -/
def M64 : Nat := 2 ^ 64

/-- INT64_MAX. -/
def I64MAX : Nat := 2 ^ 63 - 1

/-- Helper for `bitLen`: binary-ladder bit counting (peel `2^f` bits per
level), so that the recursion depth stays logarithmic and concrete
evaluation in the kernel is cheap even for thousand-bit numbers. -/
def bitLenAux : Nat → Nat → Nat → Nat
  | 0, n, acc => acc + (if n = 0 then 0 else 1)
  | f + 1, n, acc =>
    if 1 <<< (1 <<< f) ≤ n then bitLenAux f (n >>> (1 <<< f)) (acc + (1 <<< f))
    else bitLenAux f n acc

/-- Number of binary digits of `n` (0 for 0); correct for `n < 2^4096`. -/
def bitLen (n : Nat) : Nat := bitLenAux 12 n 0

/-! ## Integer to ASCII (`jaxup_numeric.h`, `writeUnsignedIntegerToBuff` /
`writeIntegerToBuff`) -/

/-- The 200-character two-digits-at-a-time table of
`writeUnsignedIntegerToBuff` (`jaxup_numeric.h` line 39), copied verbatim:
the pair at offset `2k` stores the ones digit of `k` first, then the tens
digit. -/
def digitPairTable : List Char :=
  ("00102030405060708090011121314151617181910212223242526272829203132333435363738393041424344454647484940515253545556575859506162636465666768696071727374757677787970818283848586878889809192939495969798999").toList

/-- Byte at offset `i` of the digit-pair table. -/
def tblByte (i : Nat) : Nat := (digitPairTable.getD i ' ').toNat

/-- Loop of `writeUnsignedIntegerToBuff`: peel two digits per iteration via
divide-and-mod by 100, writing back-to-front (modelled by prepending to the
accumulator).  Fuel 12 suffices for any `uint64_t`. -/
def writeUIntLoop : Nat → Nat → List Nat → List Nat
  | 0, _, acc => acc
  | f + 1, value, acc =>
    if 100 ≤ value then
      let offset := (value % 100) * 2
      writeUIntLoop f (value / 100) (tblByte (offset + 1) :: tblByte offset :: acc)
    else if value < 10 then
      (48 + value) :: acc
    else
      tblByte (value * 2 + 1) :: tblByte (value * 2) :: acc

/-- `writeUnsignedIntegerToBuff(value, end)`: the ASCII bytes written. -/
def writeUIntBytes (value : Nat) : List Nat := writeUIntLoop 12 value []

/-- `writeIntegerToBuff(value, end)`.  For negative `value` the C source
computes `(uint64_t)(0 - value)` where `0 - value` is evaluated in signed
64-bit arithmetic: for `value = INT64_MIN` that subtraction overflows
(undefined behaviour in C++; on two-complement hardware it wraps to
`INT64_MIN` and the cast then yields `2^63`).  We model the wrapping
behaviour: the magnitude is `(-value) mod 2^64`, which equals `value.natAbs`
for every `value` in `[-2^63, -1]`, including `INT64_MIN`. -/
def writeIntBytes (value : Int) : List Nat :=
  if 0 ≤ value then writeUIntBytes value.toNat
  else 45 :: writeUIntBytes (((0 - value).emod (2 ^ 64)).toNat)

example : writeIntBytes 1012 = [49, 48, 49, 50] := by decide
example : writeIntBytes (-120) = [45, 49, 50, 48] := by decide
example : writeIntBytes 0 = [48] := by decide
example : writeIntBytes (-(2 ^ 63)) =
    [45, 57, 50, 50, 51, 51, 55, 50, 48, 51, 54, 56, 53, 52, 55, 55, 53, 56, 48, 56] := by
  decide

/-! ## IEEE-754 binary64 model

Doubles are represented by their 64-bit bit patterns.  The two helpers below
give the bit pattern of a correctly rounded (round-to-nearest, ties-to-even)
positive rational, and the exact integer value of `(double)n` for a
`uint64_t` `n`; they model the C++ conversions and the exact
multiply/divide of `raiseToPowTen`'s fast path. -/

/-- Bits of +infinity. -/
def infBits : Nat := 0x7FF0000000000000

/-- Bits of the quiet NaN returned by `std::numeric_limits<double>::quiet_NaN()`. -/
def nanBits : Nat := 0x7FF8000000000000

/-- Compare a positive rational `num/den` against `2^k`: `true` iff
`num/den ≥ 2^k`. -/
def ratGePow2 (num den : Nat) (k : Int) : Bool :=
  if 0 ≤ k then den <<< k.toNat ≤ num else den ≤ num <<< (-k).toNat

/-- Bit pattern of the double nearest to the positive rational `num/den`
(ties to even), with overflow to infinity and gradual underflow to
subnormals and zero.  This is the IEEE-754 `binary64` rounding function
used to model exact C++ double operations. -/
def roundRatBits (num den : Nat) : Nat :=
  if num = 0 ∨ den = 0 then 0 else
  -- e with 2^e ≤ num/den < 2^(e+1)
  let e0 : Int := (bitLen num : Int) - (bitLen den : Int) - 1
  let e : Int := if ratGePow2 num den (e0 + 1) then e0 + 1 else e0
  -- integer significand scale: 2^52 ≤ q < 2^53 for normal range
  let shift : Int := if e < -1022 then 1074 else 52 - e
  let n2 : Nat := if 0 ≤ shift then num <<< shift.toNat else num
  let d2 : Nat := if 0 ≤ shift then den else den <<< (-shift).toNat
  let q0 : Nat := n2 / d2
  let r : Nat := n2 % d2
  let q : Nat := if d2 < 2 * r ∨ (d2 = 2 * r ∧ q0 % 2 = 1) then q0 + 1 else q0
  if e < -1022 then
    -- subnormal encoding; q = 2^52 rolls into the smallest normal bit pattern
    q
  else
    let q2 : Nat := if q = 2 ^ 53 then 2 ^ 52 else q
    let e2 : Int := if q = 2 ^ 53 then e + 1 else e
    if 1023 < e2 then infBits
    else (q2 &&& (2 ^ 52 - 1)) ||| ((e2 + 1023).toNat <<< 52)

/-- Integer value of `(double)n` for `n : uint64_t` (round to nearest,
ties to even).  Used to model the `(double)significand` conversion in
`parsePositiveNumber` and the implicit conversion back to `uint64_t` at the
call of `grisu::raiseToPowTen` (the value is integral, so the conversion
back truncates to exactly this integer). -/
def doubleOfNatVal (n : Nat) : Nat :=
  if n ≤ 2 ^ 53 then n
  else
    let k := bitLen n - 53
    let q0 := n >>> k
    let r := n % (1 <<< k)
    let half := 1 <<< (k - 1)
    let q := if half < r ∨ (r = half ∧ q0 % 2 = 1) then q0 + 1 else q0
    q <<< k

example : roundRatBits 12 10 = 0x3FF3333333333333 := by decide
example : roundRatBits 1 10 = 0x3FB999999999999A := by decide
example : roundRatBits 1 1 = 0x3FF0000000000000 := by decide
example : roundRatBits (10 ^ 400) 1 = infBits := by decide
example : roundRatBits 1 (10 ^ 323) = 0x0000000000000002 := by decide
example : roundRatBits 1 (10 ^ 324) = 0 := by decide
example : roundRatBits 1 (10 ^ 330) = 0 := by decide
example : doubleOfNatVal 17976931348623157 = 17976931348623156 := by decide
example : doubleOfNatVal 922337203685477581 = 922337203685477632 := by decide

/-! ## Exploded floating point (`jaxup_grisu.h` / `jaxup_numeric.h`,
`class ExplodedFloatingPoint`) -/

/-- `ExplodedFloatingPoint`: a 64-bit mantissa with explicit exponent. -/
structure ExFP where
  mantissa : Nat
  exponent : Int
deriving DecidableEq, Repr

/-- Loop of `ExplodedFloatingPoint::normalize(11)`: shift left until bit 63
is set (the `offset = 11` instantiation, the only one `raiseToPowTen` and
`asDouble` use; its `extraBits` correction is `64 - (52 + 1 + 11) = 0`).
Mantissa stays below `2^64`, the shift cannot wrap. -/
def normLoop : Nat → Nat → Int → Nat × Int
  | 0, m, e => (m, e)
  | f + 1, m, e =>
    if m &&& (1 <<< 63) = 0 ∧ 0 < m then normLoop f ((m <<< 1) % M64) (e - 1)
    else (m, e)

/-- `x.normalize(11)`. -/
def normalize11 (x : ExFP) : ExFP :=
  let p := normLoop 64 x.mantissa x.exponent
  ⟨p.1, p.2⟩

/-- `ExplodedFloatingPoint::operator*`: 64x64-bit multiply keeping the top
64 bits, with the `roundUp32 = 2^31` rounding addend of the source. -/
def emul (a b : ExFP) : ExFP :=
  let topL := a.mantissa >>> 32
  let botL := a.mantissa &&& 0xFFFFFFFF
  let topR := b.mantissa >>> 32
  let botR := b.mantissa &&& 0xFFFFFFFF
  let tops := topL * topR
  let mid1 := botL * topR
  let mid2 := topL * botR
  let bots := botL * botR
  let tmp := (bots >>> 32) + (mid1 &&& 0xFFFFFFFF) + (mid2 &&& 0xFFFFFFFF) + (1 <<< 31)
  ⟨(tops + (mid1 >>> 32) + (mid2 >>> 32) + (tmp >>> 32)) % M64,
    a.exponent + b.exponent + 64⟩

/-- `ExplodedFloatingPoint::asDouble()`: renormalize, then pack into an
IEEE-754 bit pattern with round-to-nearest-even, overflow to infinity and a
denormal branch. -/
def asDouble (x : ExFP) : Nat :=
  if x.mantissa = 0 then 0 else
  let t := normalize11 x
  let biased : Int := t.exponent + 1075 + 11
  if 0 < biased then
    let out := t.mantissa >>> 10
    let out := out +
      (if out % 2 = 1 ∧ ((out >>> 1) % 2 = 1 ∨ t.mantissa &&& 0x3FF ≠ 0) then 1 else 0)
    let out2 := if out &&& ((1 <<< 52) <<< 2) ≠ 0 then out >>> 1 else out
    let biased2 := if out &&& ((1 <<< 52) <<< 2) ≠ 0 then biased + 1 else biased
    if 2047 ≤ biased2 then infBits
    else ((out2 >>> 1) &&& (2 ^ 52 - 1)) ||| (biased2.toNat <<< 52)
  else
    if biased ≤ -53 then 0
    else
      let sh := (11 - biased).toNat
      let out := t.mantissa >>> sh
      let out := out +
        (if out % 2 = 1 ∧
            ((out >>> 1) % 2 = 1 ∨
              t.mantissa &&& ((M64 - 1) >>> (53 + biased).toNat) ≠ 0) then 1 else 0)
      out >>> 1

/-- The 87-entry `powerCache` of `jaxup_grisu.h` / `jaxup_numeric.h`
(every 8th power of ten from 1e-348 to 1e340), copied verbatim. -/
def powerCacheRaw : List (Nat × Int) := [
  (0xfa8fd5a0081c0288, -1220), (0xbaaee17fa23ebf76, -1193),
  (0x8b16fb203055ac76, -1166), (0xcf42894a5dce35ea, -1140),
  (0x9a6bb0aa55653b2d, -1113), (0xe61acf033d1a45df, -1087),
  (0xab70fe17c79ac6ca, -1060), (0xff77b1fcbebcdc4f, -1034),
  (0xbe5691ef416bd60c, -1007), (0x8dd01fad907ffc3c, -980),
  (0xd3515c2831559a83, -954), (0x9d71ac8fada6c9b5, -927),
  (0xea9c227723ee8bcb, -901), (0xaecc49914078536d, -874),
  (0x823c12795db6ce57, -847), (0xc21094364dfb5637, -821),
  (0x9096ea6f3848984f, -794), (0xd77485cb25823ac7, -768),
  (0xa086cfcd97bf97f4, -741), (0xef340a98172aace5, -715),
  (0xb23867fb2a35b28e, -688), (0x84c8d4dfd2c63f3b, -661),
  (0xc5dd44271ad3cdba, -635), (0x936b9fcebb25c996, -608),
  (0xdbac6c247d62a584, -582), (0xa3ab66580d5fdaf6, -555),
  (0xf3e2f893dec3f126, -529), (0xb5b5ada8aaff80b8, -502),
  (0x87625f056c7c4a8b, -475), (0xc9bcff6034c13053, -449),
  (0x964e858c91ba2655, -422), (0xdff9772470297ebd, -396),
  (0xa6dfbd9fb8e5b88f, -369), (0xf8a95fcf88747d94, -343),
  (0xb94470938fa89bcf, -316), (0x8a08f0f8bf0f156b, -289),
  (0xcdb02555653131b6, -263), (0x993fe2c6d07b7fac, -236),
  (0xe45c10c42a2b3b06, -210), (0xaa242499697392d3, -183),
  (0xfd87b5f28300ca0e, -157), (0xbce5086492111aeb, -130),
  (0x8cbccc096f5088cc, -103), (0xd1b71758e219652c, -77),
  (0x9c40000000000000, -50), (0xe8d4a51000000000, -24),
  (0xad78ebc5ac620000, 3), (0x813f3978f8940984, 30),
  (0xc097ce7bc90715b3, 56), (0x8f7e32ce7bea5c70, 83),
  (0xd5d238a4abe98068, 109), (0x9f4f2726179a2245, 136),
  (0xed63a231d4c4fb27, 162), (0xb0de65388cc8ada8, 189),
  (0x83c7088e1aab65db, 216), (0xc45d1df942711d9a, 242),
  (0x924d692ca61be758, 269), (0xda01ee641a708dea, 295),
  (0xa26da3999aef774a, 322), (0xf209787bb47d6b85, 348),
  (0xb454e4a179dd1877, 375), (0x865b86925b9bc5c2, 402),
  (0xc83553c5c8965d3d, 428), (0x952ab45cfa97a0b3, 455),
  (0xde469fbd99a05fe3, 481), (0xa59bc234db398c25, 508),
  (0xf6c69a72a3989f5c, 534), (0xb7dcbf5354e9bece, 561),
  (0x88fcf317f22241e2, 588), (0xcc20ce9bd35c78a5, 614),
  (0x98165af37b2153df, 641), (0xe2a0b5dc971f303a, 667),
  (0xa8d9d1535ce3b396, 694), (0xfb9b7cd9a4a7443c, 720),
  (0xbb764c4ca7a44410, 747), (0x8bab8eefb6409c1a, 774),
  (0xd01fef10a657842c, 800), (0x9b10a4e5e9913129, 827),
  (0xe7109bfba19c0c9d, 853), (0xac2820d9623bf429, 880),
  (0x80444b5e7aa7cf85, 907), (0xbf21e44003acdd2d, 933),
  (0x8e679c2f5e44ff8f, 960), (0xd433179d9c8cb841, 986),
  (0x9e19db92b4e31ba9, 1013), (0xeb96bf6ebadf77d9, 1039),
  (0xaf87023b9bf0ee6b, 1066)]

/-- View of `powerCacheRaw` as exploded floats. -/
def powerCache : List ExFP := powerCacheRaw.map (fun p => ⟨p.1, p.2⟩)

/-- `smallPowerCache`: `{1e1, true}, ..., {1e7, true}, {1e8}` of the source.
Entries 0..6 are `ExplodedFloatingPoint(10^k, normalize = true)`: the exact
64-bit mantissa `10^k * 2^(64 - bitlen(10^k))` with matching exponent.
Entry 7 is the plain constructor on `1e8`: the 53-bit double mantissa
`10^8 * 2^26` with exponent `-26`.  All eight represent their powers of ten
exactly (`mantissa * 2^exponent = 10^(k+1)`), checked below. -/
def smallPowerCacheRaw : List (Nat × Int) := [
  (0xa000000000000000, -60), (0xc800000000000000, -57),
  (0xfa00000000000000, -54), (0x9c40000000000000, -50),
  (0xc350000000000000, -47), (0xf424000000000000, -44),
  (0x9896800000000000, -40), (0x0017d78400000000, -26)]

/-- View of `smallPowerCacheRaw` as exploded floats. -/
def smallPowerCache : List ExFP := smallPowerCacheRaw.map (fun p => ⟨p.1, p.2⟩)

example : (smallPowerCache.map (fun x => x.mantissa * 2 ^ (x.exponent + 60).toNat)) =
    (List.range 8).map (fun k => 10 ^ (k + 1) * 2 ^ 60) := by decide

/-- `getIntegerPowTen(e)` (`jaxup_grisu.h` line 270): the table holds
exactly the powers `10^e` for `0 ≤ e < 20`. -/
def getIntegerPowTen (e : Nat) : Nat := 10 ^ e

/-- `grisu::raiseToPowTen(base, powTen)` (`jaxup_grisu.h` lines 280-309;
`numeric::raiseToPowTen` is identical).  Fast path: both operands are exact
doubles and the single multiply/divide rounds once, modelled by
`roundRatBits`.  Slow path: normalize, then one or two `ExplodedFloatingPoint`
multiplies against `powerCache`/`smallPowerCache`, then `asDouble`.  An index
outside the 87-entry cache returns quiet NaN.  `index` and `shortIndex` use
C truncating division/remainder (`Int.tdiv`/`Int.tmod`). -/
def raiseToPowTen (base : Nat) (powTen : Int) : Nat :=
  if powTen.natAbs ≤ 22 ∧ (base ≤ 2 ^ 53 ∨ base &&& 0xFFF = 0) then
    if powTen < 0 then roundRatBits base (10 ^ (-powTen).toNat)
    else roundRatBits (base * 10 ^ powTen.toNat) 1
  else if powTen = 0 then
    roundRatBits base 1
  else
    let p := normalize11 ⟨base, 0⟩
    let biasedPow : Int := powTen + 348
    let index : Int := biasedPow.tdiv 8
    let shortIndex : Int := biasedPow.tmod 8 - 1
    if index < 0 ∨ 87 ≤ index then nanBits
    else
      let entry := List.getD powerCache index.toNat ⟨0, 0⟩
      if shortIndex < 0 then asDouble (emul p entry)
      else
        let mul1 := normalize11 (emul p (List.getD smallPowerCache shortIndex.toNat ⟨0, 0⟩))
        asDouble (emul mul1 entry)

example : raiseToPowTen 1 400 = nanBits := by decide
example : raiseToPowTen 1 310 = infBits := by decide
example : raiseToPowTen 9 (-325) = 0 := by decide
example : raiseToPowTen 1 (-356) = nanBits := by decide
example : raiseToPowTen 1 (-355) = 0 := by decide
example : raiseToPowTen 12 (-1) = 0x3FF3333333333333 := by decide
example : raiseToPowTen 922337203685477632 1 = 0x43E0000000000000 := by decide

/-! ## Ryu float printer (`jaxup_numeric.h`, `ryu` and helpers) -/

/-- `bitCountOf5ToThe(pow)`: fixed-point approximation of the bit length of
`5^pow` (`jaxup_numeric.h` line 348). -/
def pow5bits (pow : Nat) : Nat := (pow * 1217359) >>> 19 + 1

/-- Modelled from the spec: `jaxup_power_tables.h` (the file defining
`positivePowerTable`) is not among the provided sources.  Spec section 4.1.2
describes it as the 128-bit multiplier table for `10^|e|`, positive
exponents; together with the bit-count arithmetic of `ryu()`
(`j = q - bitCountOf5ToThe(i) + 125`) this is the standard Ryu
`DOUBLE_POW5_SPLIT` table with 125-bit entries: `5^i`, shifted so the top
bit sits at position 124 (truncating when `5^i` is longer than 125 bits). -/
def positivePowerEntry (i : Nat) : Nat :=
  let L := pow5bits i
  if L ≤ 125 then 5 ^ i <<< (125 - L) else 5 ^ i >>> (L - 125)

/-- Modelled from the spec: `jaxup_power_tables.h` (the file defining
`negativePowerTable`) is not among the provided sources.  Spec section 4.1.2
describes it as the 128-bit multiplier table for `10^|e|`, negative
exponents; together with the bit-count arithmetic of `ryu()`
(`i = decimalExponent - binaryExponent + bitCountOf5ToThe(decimalExponent)
- 1 + 125`) this is the standard Ryu `DOUBLE_POW5_INV_SPLIT` table:
`floor(2^(bits(5^q) - 1 + 125) / 5^q) + 1`. -/
def negativePowerEntry (q : Nat) : Nat :=
  2 ^ (pow5bits q - 1 + 125) / 5 ^ q + 1

/-- `full64BitMultiply(m1, m2, out)` (`jaxup_numeric.h` line 360): 64x64 to
128-bit multiply from 32-bit halves; returns `(out[0], out[1])` = (high 64
bits, low 64 bits).  The one shift that can wrap in `uint64_t` (`t << 32`)
carries an explicit `% 2^64`. -/
def full64BitMultiply (m1 m2 : Nat) : Nat × Nat :=
  let botL := m1 &&& 0xFFFFFFFF
  let botR := m2 &&& 0xFFFFFFFF
  let t1 := botL * botR
  let w3 := t1 &&& 0xFFFFFFFF
  let k1 := t1 >>> 32
  let hi1 := m1 >>> 32
  let t2 := hi1 * botR + k1
  let k2 := t2 &&& 0xFFFFFFFF
  let w1 := t2 >>> 32
  let hi2 := m2 >>> 32
  let t3 := botL * hi2 + k2
  let k3 := t3 >>> 32
  (hi1 * hi2 + w1 + k3, ((t3 <<< 32) % M64 + w3) % M64)

/-- `full64x128MultiplyAndShift(m1, m2, shift)` (`jaxup_numeric.h` line
381): `m2` is a 128-bit value `(hi, lo)`. -/
def mulShift128 (m1 hi lo shift : Nat) : Nat :=
  let rhigh := full64BitMultiply m1 hi
  let rlow := full64BitMultiply m1 lo
  let sum := (rlow.1 + rhigh.2) % M64
  let rh0 := rhigh.1 + (if sum < rlow.1 then 1 else 0)
  ((sum >>> shift) ||| ((rh0 <<< (64 - shift)) % M64)) % M64

/-- `multiplyAll` applied through a 128-bit table entry `T`
(`std::array<uint64_t, 2>` = `(T >>> 64, T mod 2^64)`). -/
def mulShiftT (m T shift : Nat) : Nat :=
  mulShift128 m (T >>> 64) (T &&& (M64 - 1)) shift

/-- `isDivisibleByPowerOf5(value, power)` (`jaxup_numeric.h` line 401). -/
def div5pow (value : Nat) : Nat → Bool
  | 0 => true
  | p + 1 => if value % 5 ≠ 0 then false else div5pow (value / 5) p

/-- First loop of `computeShortest` (trailing-zeroes branch): state is
`(minus, mid, plus, outExponent, minusTZ, midTZ, lastRemovedDigit)`. -/
def csLoopA : Nat → Nat × Nat × Nat × Int × Bool × Bool × Nat →
    Nat × Nat × Nat × Int × Bool × Bool × Nat
  | 0, st => st
  | f + 1, (minus, mid, plus, oe, mTZ, dTZ, last) =>
    if minus / 10 < plus / 10 then
      csLoopA f (minus / 10, mid / 10, plus / 10, oe + 1,
        mTZ && decide (minus % 10 = 0), dTZ && decide (last = 0), mid % 10)
    else (minus, mid, plus, oe, mTZ, dTZ, last)

/-- Second loop of `computeShortest` (strip zeroes of `minus`). -/
def csLoopB : Nat → Nat × Nat × Nat × Int × Bool × Nat →
    Nat × Nat × Nat × Int × Bool × Nat
  | 0, st => st
  | f + 1, (minus, mid, plus, oe, dTZ, _last) =>
    if minus % 10 = 0 then
      csLoopB f (minus / 10, mid / 10, plus / 10, oe + 1,
        dTZ && decide (mid % 10 = 0), mid % 10)
    else (minus, mid, plus, oe, dTZ, _last)

/-- Loop of the round-up branch of `computeShortest`. -/
def csLoopC : Nat → Nat × Nat × Nat × Int × Bool → Nat × Nat × Nat × Int × Bool
  | 0, st => st
  | f + 1, (minus, mid, plus, oe, ru) =>
    if minus / 10 < plus / 10 then
      csLoopC f (minus / 10, mid / 10, plus / 10, oe + 1, decide (5 ≤ mid % 10))
    else (minus, mid, plus, oe, ru)

/-- `computeShortest(minus, mid, plus, exponent, even, minusTZ, midTZ, out,
outExponent)` (`jaxup_numeric.h` lines 411-458): returns `(out,
outExponent)`. -/
def computeShortest (minus mid plus : Nat) (exponent : Int) (even mTZ dTZ : Bool) :
    Nat × Int :=
  if mTZ || dTZ then
    let a := csLoopA 25 (minus, mid, plus, exponent, mTZ, dTZ, 0)
    let (m1, d1, p1, oe1, mTZ1, dTZ1, last1) := a
    let b :=
      if mTZ1 then csLoopB 25 (m1, d1, p1, oe1, dTZ1, last1)
      else (m1, d1, p1, oe1, dTZ1, last1)
    let (m2, d2, _p2, oe2, dTZ2, last2) := b
    let last3 := if mTZ1 ∧ dTZ2 ∧ last2 = 5 ∧ d2 % 2 = 0 then 4 else last2
    (d2 + (if (d2 = m2 ∧ (even = false ∨ mTZ1 = false)) ∨ 5 ≤ last3 then 1 else 0),
      oe2)
  else
    let first :=
      if minus / 100 < plus / 100 then
        (minus / 100, mid / 100, plus / 100, exponent + 2, decide (50 ≤ mid % 100))
      else (minus, mid, plus, exponent, false)
    let c := csLoopC 25 first
    let (m1, d1, _p1, oe1, ru1) := c
    (d1 + (if d1 = m1 ∨ ru1 then 1 else 0), oe1)

/-- `writeSmallInteger(buffer, integer)` for the magnitude
(`jaxup_numeric.h` line 327, non-negative case). -/
def writeSmallNatBytes (n : Nat) : List Nat :=
  if 100 ≤ n then [48 + n / 100, 48 + n % 100 / 10, 48 + n % 100 % 10]
  else if 10 ≤ n then [48 + n / 10, 48 + n % 10]
  else [48 + n]

/-- `writeSmallInteger(buffer, integer)` including the sign branch. -/
def writeSmallIntBytes (i : Int) : List Nat :=
  if i < 0 then 45 :: writeSmallNatBytes (-i).toNat else writeSmallNatBytes i.toNat

/-- `conformalizeNumberString2(buffer, integer, length, powTen)`
(`jaxup_numeric.h` lines 460-505), as a function from the digit bytes and
decimal exponent to the final number bytes (byte 46 is the point, 101 is
`e`, 48 is `0`). -/
def conformalize2 (digits : List Nat) (powTen : Int) : List Nat :=
  let length : Int := digits.length
  let total : Int := length + powTen
  if total ≤ 19 ∧ 0 ≤ powTen then
    digits ++ List.replicate powTen.toNat 48
  else if total ≤ 19 ∧ 0 < total then
    digits.take total.toNat ++ 46 :: digits.drop total.toNat
  else if total ≤ 19 ∧ -6 < total then
    48 :: 46 :: (List.replicate (-total).toNat 48 ++ digits)
  else
    match digits with
    | [d] => [d, 101] ++ writeSmallIntBytes powTen
    | d :: rest => d :: 46 :: (rest ++ 101 :: writeSmallIntBytes (total - 1))
    | [] => []

/-- `ExplodedFloatingPoint(d)` for a positive finite double given by its
bit pattern: split into significand and biased exponent, add the implied
bit for normal numbers. -/
def explodeBits (bits : Nat) : ExFP :=
  let sig := bits &&& (2 ^ 52 - 1)
  let be := bits >>> 52
  if be ≠ 0 then ⟨sig + 2 ^ 52, (be : Int) - 1075⟩ else ⟨sig, 1 - 1075⟩

/-- Body of `ryu(d, buffer)` (`jaxup_numeric.h` lines 507-581) for a
positive finite non-zero double.  Depends on the spec-modelled power tables
(`positivePowerEntry`/`negativePowerEntry`); everything else is from the
source.  The `uint32_t` expressions for `i` and `j` are computed in `Int`
and then cast: their mathematical values are nonnegative in the reachable
range, so `uint32_t` wraparound does not occur. -/
def ryuPosBytes (bits : Nat) : List Nat :=
  let binary := explodeBits bits
  let even := decide (binary.mantissa % 2 = 0)
  let minusShift : Nat :=
    if binary.mantissa ≠ 1 <<< 52 ∨ binary.exponent ≤ 1 then 1 else 0
  let binaryMid := binary.mantissa <<< 2
  let binaryPlus := binaryMid + 2
  let binaryMinus := binaryMid - 1 - minusShift
  let binaryExponent : Int := binary.exponent - 2
  let r :=
    if 0 ≤ binaryExponent then
      let be := binaryExponent.toNat
      let de := (be * 78913) >>> 18 - (if 3 < be then 1 else 0)
      let i := ((de : Int) - be + pow5bits de - 1 + 125).toNat
      let shift := i - 64
      let T := negativePowerEntry de
      let dm := mulShiftT binaryMinus T shift
      let dmid := mulShiftT binaryMid T shift
      let dp := mulShiftT binaryPlus T shift
      if de ≤ 21 then
        if binaryMinus % 5 = 0 then
          (dm, dmid, dp, (de : Int), false, div5pow binaryMid de)
        else if even then
          (dm, dmid, dp, (de : Int), div5pow binaryMinus de, false)
        else (dm, dmid, dp - 1, (de : Int), false, false)
      else (dm, dmid, dp, (de : Int), false, false)
    else
      let nbe := (-binaryExponent).toNat
      let q := (nbe * 732923) >>> 20 - (if binaryExponent < -1 then 1 else 0)
      let de : Int := (q : Int) + binaryExponent
      let i := (-de).toNat
      let j := ((q : Int) - pow5bits i + 125).toNat
      let shift := j - 64
      let T := positivePowerEntry i
      let dm := mulShiftT binaryMinus T shift
      let dmid := mulShiftT binaryMid T shift
      let dp := mulShiftT binaryPlus T shift
      if q ≤ 1 then
        if even then (dm, dmid, dp, de, decide (minusShift = 1), true)
        else (dm, dmid, dp - 1, de, false, true)
      else if q < 63 then
        (dm, dmid, dp, de, false, decide (binaryMid &&& ((1 <<< (q - 1)) - 1) = 0))
      else (dm, dmid, dp, de, false, false)
  let (dm, dmid, dp, de, minusTZ, midTZ) := r
  let s := computeShortest dm dmid dp de even minusTZ midTZ
  conformalize2 (writeUIntBytes s.1) s.2

/-- `ryu(d, buffer)`: the zero test `d == 0.0` is sign-blind in IEEE
comparison, so both `+0.0` and `-0.0` take the `"0"` branch before the
`signbit` test; otherwise a leading `-` is emitted for negatives and the
positive magnitude is printed. -/
def ryuBytes (bits : Nat) : List Nat :=
  if bits &&& 0x7FFFFFFFFFFFFFFF = 0 then [48]
  else if bits >>> 63 = 1 then 45 :: ryuPosBytes (bits &&& 0x7FFFFFFFFFFFFFFF)
  else ryuPosBytes bits

example : ryuBytes 0x7FEFFFFFFFFFFFFF = [49, 46, 55, 57, 55, 54, 57, 51, 49, 51, 52, 56, 54, 50, 51, 49, 53, 55, 101, 51, 48, 56] := by decide
example : ryuBytes 0x7FEFFFFFFFFFFFFE = [49, 46, 55, 57, 55, 54, 57, 51, 49, 51, 52, 56, 54, 50, 51, 49, 53, 53, 101, 51, 48, 56] := by decide
example : ryuBytes 0x3FF3333333333333 = [49, 46, 50] := by decide
example : ryuBytes 0x44B52D02C7E14AF6 = [49, 101, 50, 51] := by decide
example : ryuBytes 0x408FA00000000000 = [49, 48, 49, 50] := by decide
example : ryuBytes 0x0000000000000001 = [53, 101, 45, 51, 50, 52] := by decide
example : ryuBytes 0xC0506745803CD140 = [45, 54, 53, 46, 54, 49, 51, 54, 49, 54, 57, 57, 57, 57, 57, 57, 57, 56] := by decide
example : ryuBytes 0x8000000000000000 = [48] := by decide

/-! ## Parser (`jaxup_parser.h`)

The parser is modelled at the byte-stream level: the input is a
`List Nat` of bytes, and `loadMore`/`readNextCharacter`/`peekNextCharacter`
buffering becomes list head access (the refilling buffer is transparent to
the character sequence).  Errors are the thrown `JsonException`s, encoded as
an inductive of the distinct throw sites. -/

/-- Token enumeration (`jaxup_common.h`, `enum class JsonToken`). -/
inductive JTok
  | notAvailable | startObject | endObject | startArray | endArray
  | fieldName | valueString | valueNumberInt | valueNumberFloat
  | valueTrue | valueFalse | valueNull
deriving DecidableEq, Repr

/-- Parser error kinds, one per distinct `throw JsonException(...)` site of
`jaxup_parser.h` (plus `outOfFuel`, a model artifact never reached on the
concrete inputs used in this file). -/
inductive PErr
  | expectedColon | expectedComma | expectedQuotedString | invalidTokenStart
  | failedCloseObject | failedCloseArray | trailingCommaArray
  | trailingCommaObject | tagUnderflow | unexpectedEndArray
  | unexpectedEndObject | stringNotTerminated | invalidString | invalidEscape
  | invalidHexDigit | unescapedControl | invalidLiteral | leadingZeroes
  | expectedDigitAfterPoint | invalidExponent | invalidJsonNumber
  | invalidNumber | outOfFuel
deriving DecidableEq, Repr

/-- `isDigit(c)`. -/
def isDigitB (c : Nat) : Bool := 48 ≤ c ∧ c ≤ 57

/-- `isInsignificantWhitespace(c)`: space, tab, carriage return, newline. -/
def isWsB (c : Nat) : Bool := c = 32 ∨ c = 9 ∨ c = 13 ∨ c = 10

/-- `isDelimiter(c)`: comma, colon, close bracket, close brace, or
whitespace. -/
def isDelimB (c : Nat) : Bool := c = 44 ∨ c = 58 ∨ c = 93 ∨ c = 125 ∨ isWsB c

/-- `nextIsDelimiter()`: end of stream also counts. -/
def nextIsDelim (inp : List Nat) : Bool :=
  match inp with
  | [] => true
  | c :: _ => isDelimB c

/-- `bigInt = INT64_MAX / 10` of `parsePositiveNumber`. -/
def bigIntC : Nat := (2 ^ 63 - 1) / 10

/-- Integer-part digit accumulation loop of `parsePositiveNumber` (lines
398-411): returns `(significand, decimalExponent, rounded, rest)`.  On
overflow it marks `rounded`, advances `decimalExponent` once, banker-rounds
the pending digit into the significand and leaves that digit unconsumed
(the following eat-remaining-digits loop discards it). -/
def lexIntLoop : Nat → Nat → List Nat → Nat × Int × Bool × List Nat
  | 0, sig, inp => (sig, 0, false, inp)
  | f + 1, sig, inp =>
    match inp with
    | [] => (sig, 0, false, [])
    | c :: rest =>
      if isDigitB c then
        if bigIntC ≤ sig ∧ (sig ≠ bigIntC ∨ 55 < c) then
          (if 53 < c ∨ (c = 53 ∧ sig % 2 = 1) then sig + 1 else sig, 1, true,
            c :: rest)
        else lexIntLoop f (sig * 10 + (c - 48)) rest
      else (sig, 0, false, c :: rest)

/-- Fraction digit accumulation loop (lines 423-436), entered only when not
yet rounded; decrements `decimalExponent` per consumed digit and does not
advance it when overflow rounding triggers. -/
def lexFracLoop : Nat → Nat → Int → List Nat → Nat × Int × Bool × List Nat
  | 0, sig, de, inp => (sig, de, false, inp)
  | f + 1, sig, de, inp =>
    match inp with
    | [] => (sig, de, false, [])
    | c :: rest =>
      if isDigitB c then
        if bigIntC ≤ sig ∧ (sig ≠ bigIntC ∨ 55 < c) then
          (if 53 < c ∨ (c = 53 ∧ sig % 2 = 1) then sig + 1 else sig, de, true,
            c :: rest)
        else lexFracLoop f (sig * 10 + (c - 48)) (de - 1) rest
      else (sig, de, false, c :: rest)

/-- Exponent digit accumulation (lines 459-462).  The C `tempExponent` is a
plain `int`; inputs in this file keep it far from overflow. -/
def lexExpLoop : Nat → Int → List Nat → Int × List Nat
  | 0, t, inp => (t, inp)
  | f + 1, t, inp =>
    match inp with
    | [] => (t, [])
    | c :: rest =>
      if isDigitB c then lexExpLoop f (t * 10 + ((c : Int) - 48)) rest
      else (t, c :: rest)

/-- Equality of `Except` results is decidable componentwise; this instance
lets concrete runs of the embedded parser be checked by `decide`. -/
instance {e a : Type} [DecidableEq e] [DecidableEq a] : DecidableEq (Except e a) :=
  fun x y =>
    match x, y with
    | .error u, .error v =>
      if h : u = v then isTrue (h ▸ rfl)
      else isFalse (fun he => h (Except.error.inj he))
    | .error _, .ok _ => isFalse (fun he => Except.noConfusion he)
    | .ok _, .error _ => isFalse (fun he => Except.noConfusion he)
    | .ok u, .ok v =>
      if h : u = v then isTrue (h ▸ rfl)
      else isFalse (fun he => h (Except.ok.inj he))

/-- Outcome of the number lexer: token kind, `int64Value`, `doubleValue`
bits, and the unconsumed input.  The C parser keeps both payload fields in
its state and only the one matching the returned token is meaningful; the
model sets the other to 0. -/
abbrev NumOut : Type := JTok × Int × Nat × List Nat

/-- `parsePositiveNumber(c)` (lines 386-494): `c` is the already-consumed
first digit, `inp` the rest of the stream. -/
def parsePositiveNumber (c : Nat) (inp : List Nat) : Except PErr NumOut :=
  if c = 48 ∧ isDigitB (inp.headD 0) then
    .error .leadingZeroes
  else
    let a := lexIntLoop 25 (c - 48) inp
    let (sig1, de1, rounded1, inp1) := a
    let inp2 := inp1.dropWhile (fun d => isDigitB d)
    -- fraction part
    let b : Except PErr (Nat × Int × Bool × List Nat) :=
      match inp2 with
      | 46 :: rest2 =>
        match rest2 with
        | [] => .error .expectedDigitAfterPoint
        | d :: _ =>
          if ¬ isDigitB d then .error .expectedDigitAfterPoint
          else if rounded1 then
            .ok (sig1, de1, rounded1, rest2.dropWhile (fun x => isDigitB x))
          else
            let fr := lexFracLoop 25 sig1 de1 rest2
            .ok (fr.1, fr.2.1, fr.2.2.1, fr.2.2.2.dropWhile (fun x => isDigitB x))
      | _ => .ok (sig1, de1, rounded1, inp2)
    match b with
    | .error e => .error e
    | .ok (sig2, de2, rounded2, inp3) =>
      -- exponent part
      let ex : Except PErr (Int × List Nat) :=
        match inp3 with
        | c3 :: rest3 =>
          if c3 = 101 ∨ c3 = 69 then
            let (neg, rest4) :=
              match rest3 with
              | 43 :: r => (false, r)
              | 45 :: r => (true, r)
              | r => (false, r)
            match rest4 with
            | [] => .error .invalidExponent
            | d :: _ =>
              if ¬ isDigitB d then .error .invalidExponent
              else
                let (t, rest5) := lexExpLoop 25 0 rest4
                .ok (de2 + (if neg then -t else t), rest5)
          else .ok (de2, inp3)
        | [] => .ok (de2, [])
      match ex with
      | .error e => .error e
      | .ok (de3, inp4) =>
        if ¬ nextIsDelim inp4 then .error .invalidJsonNumber
        else if ¬ rounded2 ∧ de3 = 0 ∧ sig2 ≤ I64MAX then
          .ok (.valueNumberInt, (sig2 : Int), 0, inp4)
        else if ¬ rounded2 ∧ 0 < de3 ∧ de3 < 20 ∧
            (let power := getIntegerPowTen de3.toNat
             let mul := (power * sig2) % M64
             mul = 0 ∨ (mul / power = sig2 ∧ mul ≤ I64MAX)) then
          .ok (.valueNumberInt, (((getIntegerPowTen de3.toNat * sig2) % M64 : Nat) : Int),
            0, inp4)
        else
          .ok (.valueNumberFloat, 0, raiseToPowTen (doubleOfNatVal sig2) de3, inp4)

/-- `parseNegativeNumber()` (lines 374-384): a digit must follow the minus
sign; the parsed payloads are negated (`doubleValue *= -1.0` flips the sign
bit, `int64Value *= -1`). -/
def parseNegativeNumber (inp : List Nat) : Except PErr NumOut :=
  match inp with
  | [] => .error .invalidNumber
  | c :: rest =>
    if ¬ isDigitB c then .error .invalidNumber
    else
      match parsePositiveNumber c rest with
      | .error e => .error e
      | .ok (t, iv, db, r) => .ok (t, -iv, db ^^^ (1 <<< 63), r)

example : parsePositiveNumber 49 [48, 49, 50, 101, 48] =
    .ok (.valueNumberInt, 1012, 0, []) := by decide
example : parseNegativeNumber
    [57, 50, 50, 51, 51, 55, 50, 48, 51, 54, 56, 53, 52, 55, 55, 53, 56, 48, 56] =
    .ok (.valueNumberFloat, 0, 0xC3E0000000000000, []) := by decide
example : parseNegativeNumber
    [57, 50, 50, 51, 51, 55, 50, 48, 51, 54, 56, 53, 52, 55, 55, 53, 56, 48, 55] =
    .ok (.valueNumberInt, -(2 ^ 63 - 1), 1 <<< 63, []) := by decide

/-- `parseHexcode()` (lines 328-344): four hex digits; lowercase letters are
mapped up by clearing bit 5 (`c & ~' '`); a missing character reads as the
0 byte, which fails the range check exactly as in the source. -/
def hexLoop : Nat → Nat → List Nat → Except PErr (Nat × List Nat)
  | 0, code, inp => .ok (code, inp)
  | f + 1, code, inp =>
    match inp with
    | [] => .error .invalidHexDigit
    | c :: rest =>
      if isDigitB c then hexLoop f (code * 16 + (c - 48)) rest
      else
        let u := c &&& 0xDF
        if u < 65 ∨ 70 < u then .error .invalidHexDigit
        else hexLoop f (code * 16 + (u - 65) + 10) rest

/-- `parseString(buff)` (lines 249-326), applied to the bytes after the
opening quote; returns the decoded bytes and the input after the closing
quote.  The bulk run copying of the source is equivalent to the per-byte
scan modelled here.  On the closing quote the next byte (if any) must be a
delimiter, else `"Invalid string"`.  A byte below 0x20 is an unescaped
control character (bytes at and above 0x80 pass the scan, as in the signed
comparison of the source); after a backslash the escape dispatch and
`\uXXXX` UTF-8 encoding follow the source case by case (end of stream after
a backslash reads the 0 byte and lands in the invalid-escape default). -/
def parseStringLoop : Nat → List Nat → List Nat → Except PErr (List Nat × List Nat)
  | 0, _, _ => .error .outOfFuel
  | f + 1, acc, inp =>
    match inp with
    | [] => .error .stringNotTerminated
    | c :: rest =>
      if c = 34 then
        if nextIsDelim rest then .ok (acc.reverse, rest) else .error .invalidString
      else if c = 92 then
        match rest with
        | [] => .error .invalidEscape
        | e :: rest2 =>
          if e = 34 ∨ e = 92 ∨ e = 47 then parseStringLoop f (e :: acc) rest2
          else if e = 98 then parseStringLoop f (8 :: acc) rest2
          else if e = 102 then parseStringLoop f (12 :: acc) rest2
          else if e = 110 then parseStringLoop f (10 :: acc) rest2
          else if e = 114 then parseStringLoop f (13 :: acc) rest2
          else if e = 116 then parseStringLoop f (9 :: acc) rest2
          else if e = 117 then
            match hexLoop 4 0 rest2 with
            | .error er => .error er
            | .ok (code, rest3) =>
              if code < 0x80 then parseStringLoop f (code :: acc) rest3
              else if code < 0x800 then
                parseStringLoop f
                  ((0x80 ||| (code &&& 0x3F)) :: (0xC0 ||| (code >>> 6)) :: acc) rest3
              else
                parseStringLoop f
                  ((0x80 ||| (code &&& 0x3F)) :: (0x80 ||| ((code >>> 6) &&& 0x3F)) ::
                    (0xE0 ||| (code >>> 12)) :: acc) rest3
          else .error .invalidEscape
      else if c < 32 then .error .unescapedControl
      else parseStringLoop f (c :: acc) rest

/-- `parseString` with fuel drawn from the input length. -/
def parseString (inp : List Nat) : Except PErr (List Nat × List Nat) :=
  parseStringLoop (inp.length + 1) [] inp

/-- `nextEquals(chars, len)` (lines 570-581): consume and compare, then
require a delimiter. -/
def nextEqualsThenDelim : List Nat → List Nat → Bool × List Nat
  | [], inp => (nextIsDelim inp, inp)
  | _ :: _, [] => (false, [])
  | p :: ps, c :: rest => if c = p then nextEqualsThenDelim ps rest else (false, rest)

/-- Parser state: current token, container stack (list head is the vector
back), remaining input, and the scalar payloads. -/
structure PState where
  token : JTok
  tagStack : List JTok
  input : List Nat
  currentName : List Nat
  currentString : List Nat
  int64Value : Int
  doubleValue : Nat
deriving DecidableEq, Repr

/-- Fresh parser on a byte stream. -/
def initP (inp : List Nat) : PState :=
  ⟨.notAvailable, [], inp, [], [], 0, 0⟩

/-- `getNextSignificantCharacter`: drop insignificant whitespace. -/
def skipWs (inp : List Nat) : List Nat := inp.dropWhile (fun c => isWsB c)

/-- `parseCloseArray(comma)` (lines 346-358). -/
def parseCloseArray (st : PState) (comma : Bool) (inp : List Nat) :
    Except PErr (JTok × PState) :=
  if comma then .error .trailingCommaArray
  else
    match st.tagStack with
    | [] => .error .tagUnderflow
    | t :: ts =>
      if t ≠ .startArray then .error .unexpectedEndArray
      else .ok (.endArray, { st with token := .endArray, tagStack := ts, input := inp })

/-- `parseCloseObject(comma)` (lines 360-372). -/
def parseCloseObject (st : PState) (comma : Bool) (inp : List Nat) :
    Except PErr (JTok × PState) :=
  if comma then .error .trailingCommaObject
  else
    match st.tagStack with
    | [] => .error .tagUnderflow
    | t :: ts =>
      if t ≠ .startObject then .error .unexpectedEndObject
      else .ok (.endObject, { st with token := .endObject, tagStack := ts, input := inp })

/-- Value dispatch of `nextToken()` (lines 189-245): skip whitespace, then
switch on the first byte. -/
def dispatchValue (st : PState) (comma : Bool) (inp : List Nat) :
    Except PErr (JTok × PState) :=
  match skipWs inp with
  | [] =>
    match st.tagStack with
    | [] => .ok (.notAvailable, { st with token := .notAvailable, input := [] })
    | t :: _ =>
      if t = .startObject then .error .failedCloseObject else .error .failedCloseArray
  | c :: rest =>
    if c = 45 then
      match parseNegativeNumber rest with
      | .error e => .error e
      | .ok (t, iv, db, r) =>
        .ok (t, { st with token := t, input := r, int64Value := iv, doubleValue := db })
    else if isDigitB c then
      match parsePositiveNumber c rest with
      | .error e => .error e
      | .ok (t, iv, db, r) =>
        .ok (t, { st with token := t, input := r, int64Value := iv, doubleValue := db })
    else if c = 34 then
      match parseString rest with
      | .error e => .error e
      | .ok (s, r) =>
        .ok (.valueString,
          { st with token := .valueString, input := r, currentString := s })
    else if c = 116 then
      let (ok, r) := nextEqualsThenDelim [114, 117, 101] rest
      if ok then .ok (.valueTrue, { st with token := .valueTrue, input := r })
      else .error .invalidLiteral
    else if c = 102 then
      let (ok, r) := nextEqualsThenDelim [97, 108, 115, 101] rest
      if ok then .ok (.valueFalse, { st with token := .valueFalse, input := r })
      else .error .invalidLiteral
    else if c = 110 then
      let (ok, r) := nextEqualsThenDelim [117, 108, 108] rest
      if ok then .ok (.valueNull, { st with token := .valueNull, input := r })
      else .error .invalidLiteral
    else if c = 123 then
      .ok (.startObject,
        { st with
          token := .startObject
          tagStack := (JTok.startObject :: st.tagStack)
          input := rest })
    else if c = 125 then parseCloseObject st comma rest
    else if c = 91 then
      .ok (.startArray,
        { st with
          token := .startArray
          tagStack := (JTok.startArray :: st.tagStack)
          input := rest })
    else if c = 93 then parseCloseArray st comma rest
    else .error .invalidTokenStart

/-- Field-name phase of `nextToken()` (lines 176-187): inside an object,
when the previous token is neither a field name nor the opening brace with
nothing read, expect `}` or a quoted field name. -/
def fieldNamePhase (st : PState) (comma : Bool) (inp : List Nat) :
    Except PErr (JTok × PState) :=
  match skipWs inp with
  | 125 :: rest => parseCloseObject st comma rest
  | 34 :: rest =>
    match parseString rest with
    | .error e => .error e
    | .ok (s, r) =>
      .ok (.fieldName, { st with token := .fieldName, input := r, currentName := s })
  | _ => .error .expectedQuotedString

/-- `nextToken()` (lines 151-246). -/
def nextToken (st : PState) : Except PErr (JTok × PState) :=
  let phase1 : Except PErr (Sum (JTok × PState) (Bool × List Nat)) :=
    if st.token = .fieldName then
      match skipWs st.input with
      | 58 :: rest => .ok (.inr (false, rest))
      | _ => .error .expectedColon
    else if st.tagStack ≠ [] ∧ st.token ≠ .startArray ∧ st.token ≠ .startObject then
      match skipWs st.input with
      | 93 :: rest =>
        match parseCloseArray st false rest with
        | .error e => .error e
        | .ok r => .ok (.inl r)
      | 125 :: rest =>
        match parseCloseObject st false rest with
        | .error e => .error e
        | .ok r => .ok (.inl r)
      | 44 :: rest => .ok (.inr (true, rest))
      | _ => .error .expectedComma
    else .ok (.inr (false, st.input))
  match phase1 with
  | .error e => .error e
  | .ok (.inl r) => .ok r
  | .ok (.inr (comma, inp)) =>
    if st.token ≠ .fieldName ∧ st.tagStack.headD .notAvailable = .startObject ∧
        st.tagStack ≠ [] then
      fieldNamePhase st comma inp
    else dispatchValue st comma inp

/-- Observable event of a token: the token kind with the payload the caller
would read for it (`getCurrentName`, `getText`, `getIntegerValue`,
`getDoubleValue`). -/
inductive TokEvent
  | startObject | endObject | startArray | endArray
  | fieldName (name : List Nat) | str (s : List Nat)
  | int (v : Int) | float (bits : Nat)
  | tru | fls | nul | notAvailable
deriving DecidableEq, Repr

/-- Event for a freshly returned token. -/
def eventOf (t : JTok) (st : PState) : TokEvent :=
  match t with
  | .startObject => .startObject
  | .endObject => .endObject
  | .startArray => .startArray
  | .endArray => .endArray
  | .fieldName => .fieldName st.currentName
  | .valueString => .str st.currentString
  | .valueNumberInt => .int st.int64Value
  | .valueNumberFloat => .float st.doubleValue
  | .valueTrue => .tru
  | .valueFalse => .fls
  | .valueNull => .nul
  | .notAvailable => .notAvailable

/-- Run `nextToken` until `NOT_AVAILABLE` (inclusive), collecting events. -/
def tokenize : Nat → PState → Except PErr (List TokEvent)
  | 0, _ => .error .outOfFuel
  | f + 1, st =>
    match nextToken st with
    | .error e => .error e
    | .ok (t, st2) =>
      if t = .notAvailable then .ok [.notAvailable]
      else
        match tokenize f st2 with
        | .error e => .error e
        | .ok rest => .ok (eventOf t st2 :: rest)

/-- Tokenize a whole byte stream. -/
def tokenizeBytes (inp : List Nat) : Except PErr (List TokEvent) :=
  tokenize (inp.length + 2) (initP inp)

example : tokenizeBytes
    [91, 49, 48, 49, 50, 101, 48, 44, 32, 123, 34, 104, 101, 121, 34, 58, 32,
      49, 46, 50, 125, 93] =
    .ok [.startArray, .int 1012, .startObject, .fieldName [104, 101, 121],
      .float 0x3FF3333333333333, .endObject, .endArray, .notAvailable] := by decide

example : tokenizeBytes
    [123, 32, 34, 115, 34, 32, 58, 32, 53, 32, 125] =
    .ok [.startObject, .fieldName [115], .int 5, .endObject, .notAvailable] := by decide

/-! ## Generator (`jaxup_generator.h`)

The output buffer with its flushing is transparent to the byte sequence
produced, so the model accumulates output bytes in a list.  Structural
errors are the thrown `JsonException`s of the generator. -/

/-- Generator error kinds, one per throw site of `jaxup_generator.h`. -/
inductive GErr
  | valueWithoutFieldName | fieldNameOutsideObject
  | closeObjectOutsideObject | closeArrayOutsideArray
deriving DecidableEq, Repr

/-- Generator state: output bytes so far, last token, container stack (head
is the vector back), pretty-print indent buffer and mode. -/
structure GState where
  output : List Nat
  token : JTok
  tagStack : List JTok
  prettyBuff : List Nat
  pretty : Bool
deriving DecidableEq, Repr

/-- Fresh generator (`prettyBuff` starts as a single newline). -/
def initG (pretty : Bool) : GState := ⟨[], .notAvailable, [], [10], pretty⟩

/-- `writeBuff`: append bytes to the output. -/
def writeBuffG (st : GState) (bs : List Nat) : GState :=
  { st with output := st.output ++ bs }

/-- `prepareWriteValue()` (`jaxup_generator.h` lines 105-118): inside an
object a value requires a preceding field name; inside an array a comma is
emitted before every value except the first, plus the pretty indent. -/
def prepareWriteValue (st : GState) : Except GErr GState :=
  match st.tagStack.head? with
  | none => .ok st
  | some parent =>
    if parent = .startObject ∧ st.token ≠ .fieldName then
      .error .valueWithoutFieldName
    else
      let st1 :=
        if parent = .startArray ∧ st.token ≠ .startArray then writeBuffG st [44]
        else st
      let st2 :=
        if st.pretty ∧ parent = .startArray then writeBuffG st1 st1.prettyBuff
        else st1
      .ok st2

/-- Escape expansion of one byte of `encodeString` (lines 120-175): bytes
at and above 0x20 (or at and above 0x80, accepted by the signed-char test)
pass through except quote and backslash; the named escapes and the
`\u00XX` fallback cover the rest. -/
def encChar (c : Nat) : List Nat :=
  if (32 ≤ c ∨ 128 ≤ c) ∧ c ≠ 34 ∧ c ≠ 92 then [c]
  else if c = 34 then [92, 34]
  else if c = 92 then [92, 92]
  else if c = 8 then [92, 98]
  else if c = 12 then [92, 102]
  else if c = 10 then [92, 110]
  else if c = 13 then [92, 114]
  else if c = 9 then [92, 116]
  else
    [92, 117, 48, 48, (c >>> 4) + 48,
      if c &&& 0xF < 10 then (c &&& 0xF) + 48 else (c &&& 0xF) - 10 + 65]

/-- `encodeString(value, length)`: quoted and escaped bytes. -/
def encodeStringBytes (v : List Nat) : List Nat :=
  34 :: ((v.map encChar).flatten ++ [34])

/-- `write(double)` (lines 204-214): `writeDoubleToBuff` prints with
`numeric::ryu` (clamped to the 36-byte `doubleBuff`). -/
def writeDoubleG (st : GState) (bits : Nat) : Except GErr GState :=
  match prepareWriteValue st with
  | .error e => .error e
  | .ok st1 =>
    .ok (writeBuffG { st1 with token := .valueNumberFloat } ((ryuBytes bits).take 36))

/-- `write(int64_t)` (lines 216-221). -/
def writeIntG (st : GState) (value : Int) : Except GErr GState :=
  match prepareWriteValue st with
  | .error e => .error e
  | .ok st1 =>
    .ok (writeBuffG { st1 with token := .valueNumberInt } (writeIntBytes value))

/-- `write(bool)` (lines 227-236). -/
def writeBoolG (st : GState) (value : Bool) : Except GErr GState :=
  match prepareWriteValue st with
  | .error e => .error e
  | .ok st1 =>
    if value then .ok (writeBuffG { st1 with token := .valueTrue } [116, 114, 117, 101])
    else .ok (writeBuffG { st1 with token := .valueFalse } [102, 97, 108, 115, 101])

/-- `write(nullptr_t)` (lines 238-242). -/
def writeNullG (st : GState) : Except GErr GState :=
  match prepareWriteValue st with
  | .error e => .error e
  | .ok st1 => .ok (writeBuffG { st1 with token := .valueNull } [110, 117, 108, 108])

/-- `write(const std::string&)` (lines 255-259). -/
def writeStringG (st : GState) (v : List Nat) : Except GErr GState :=
  match prepareWriteValue st with
  | .error e => .error e
  | .ok st1 =>
    .ok (writeBuffG { st1 with token := .valueString } (encodeStringBytes v))

/-- `writeFieldName(field)` (lines 261-278): requires the stack top to be
an object; a comma precedes every field but the first; the separator is
`:` compact, `" : "` pretty. -/
def writeFieldNameG (st : GState) (field : List Nat) : Except GErr GState :=
  if st.tagStack.head? ≠ some .startObject then .error .fieldNameOutsideObject
  else
    let st1 := if st.token ≠ .startObject then writeBuffG st [44] else st
    let st2 := if st.pretty then writeBuffG st1 st1.prettyBuff else st1
    let st3 := writeBuffG { st2 with token := .fieldName } (encodeStringBytes field)
    .ok (writeBuffG st3 (if st.pretty then [32, 58, 32] else [58]))

/-- `startObject()` (lines 280-288). -/
def startObjectG (st : GState) : Except GErr GState :=
  match prepareWriteValue st with
  | .error e => .error e
  | .ok st1 =>
    let st2 := writeBuffG
      { st1 with
        token := .startObject
        tagStack := (JTok.startObject :: st1.tagStack) } [123]
    .ok (if st2.pretty then { st2 with prettyBuff := st2.prettyBuff ++ [9] } else st2)

/-- `endObject()` (lines 295-306). -/
def endObjectG (st : GState) : Except GErr GState :=
  if st.tagStack.head? ≠ some .startObject then .error .closeObjectOutsideObject
  else
    let st1 := { st with token := .endObject, tagStack := st.tagStack.tail }
    let st2 :=
      if st1.pretty then
        writeBuffG { st1 with prettyBuff := st1.prettyBuff.dropLast }
          (st1.prettyBuff.dropLast)
      else st1
    .ok (writeBuffG st2 [125])

/-- `startArray()` (lines 308-316). -/
def startArrayG (st : GState) : Except GErr GState :=
  match prepareWriteValue st with
  | .error e => .error e
  | .ok st1 =>
    let st2 := writeBuffG
      { st1 with
        token := .startArray
        tagStack := (JTok.startArray :: st1.tagStack) } [91]
    .ok (if st2.pretty then { st2 with prettyBuff := st2.prettyBuff ++ [9] } else st2)

/-- `endArray()` (lines 323-334). -/
def endArrayG (st : GState) : Except GErr GState :=
  if st.tagStack.head? ≠ some .startArray then .error .closeArrayOutsideArray
  else
    let st1 := { st with token := .endArray, tagStack := st.tagStack.tail }
    let st2 :=
      if st1.pretty then
        writeBuffG { st1 with prettyBuff := st1.prettyBuff.dropLast }
          (st1.prettyBuff.dropLast)
      else st1
    .ok (writeBuffG st2 [93])

/-- One step of the token-for-token streaming copy of `uglify.cpp`
(`streamingCopy`): replay a parsed token event into a generator. -/
def copyEvent (st : GState) (ev : TokEvent) : Except GErr GState :=
  match ev with
  | .endArray => endArrayG st
  | .endObject => endObjectG st
  | .fieldName n => writeFieldNameG st n
  | .startArray => startArrayG st
  | .startObject => startObjectG st
  | .fls => writeBoolG st false
  | .nul => writeNullG st
  | .float b => writeDoubleG st b
  | .int v => writeIntG st v
  | .str s => writeStringG st s
  | .tru => writeBoolG st true
  | .notAvailable => .ok st

/-- Fold of `copyEvent` over events, returning the output bytes. -/
def runEventsFrom : List TokEvent → GState → Except GErr (List Nat)
  | [], st => .ok st.output
  | ev :: evs, st =>
    match copyEvent st ev with
    | .error e => .error e
    | .ok st2 => runEventsFrom evs st2

/-- Replay a whole event sequence; result is the output byte stream. -/
def runEvents (pretty : Bool) (evs : List TokEvent) : Except GErr (List Nat) :=
  runEventsFrom evs (initG pretty)

example : runEvents false [.startArray, .float 0x7FEFFFFFFFFFFFFF, .endArray] =
    .ok [91, 49, 46, 55, 57, 55, 54, 57, 51, 49, 51, 52, 56, 54, 50, 51, 49, 53,
      55, 101, 51, 48, 56, 93] := by decide

example : runEvents true [.startArray, .float 0x7FEFFFFFFFFFFFFF, .endArray] =
    .ok [91, 10, 9, 49, 46, 55, 57, 55, 54, 57, 51, 49, 51, 52, 56, 54, 50, 51,
      49, 53, 55, 101, 51, 48, 56, 10, 93] := by decide

example : tokenizeBytes [91, 10, 9, 49, 46, 55, 57, 55, 54, 57, 51, 49, 51, 52,
      56, 54, 50, 51, 49, 53, 55, 101, 51, 48, 56, 10, 93] =
    .ok [.startArray, .float 0x7FEFFFFFFFFFFFFE, .endArray, .notAvailable] := by decide

/-! ## DOM node (`jaxup_node.h`) -/

/-- Tagged-variant DOM node (`class JsonNode`). -/
inductive JNode
  | nullNode
  | boolNode (b : Bool)
  | intNode (v : Int)
  | floatNode (bits : Nat)
  | strNode (s : List Nat)
  | arrNode (xs : List JNode)
  | objNode (fields : List (List Nat × JNode))

/-- `JsonNode::operator[](size_t) const` (`jaxup_node.h` lines 385-391):
for a non-array node, or an index strictly greater than the size, the
static null node is returned; otherwise `std::vector::at(n)` is called,
which throws `std::out_of_range` when `n` equals the size (the guard uses
`n > size`, not `n >= size`).  The throw is modelled as `none`. -/
def nodeIndexConst (n : JNode) (i : Nat) : Option JNode :=
  match n with
  | .arrNode xs => if xs.length < i then some .nullNode else xs.get? i
  | _ => some .nullNode

/-- First pair of the object with the given key (linear scan in insertion
order), or the null node. -/
def firstFieldMatch (fields : List (List Nat × JNode)) (key : List Nat) : JNode :=
  match fields with
  | [] => .nullNode
  | (k, v) :: rest => if k = key then v else firstFieldMatch rest key

/-- `JsonNode::operator[](const std::string&) const` (lines 423-434): for a
non-object node the null node; otherwise the first matching pair, or the
null node when no pair matches.  This overload never throws. -/
def nodeKeyConst (n : JNode) (key : List Nat) : JNode :=
  match n with
  | .objNode fields => firstFieldMatch fields key
  | _ => .nullNode

/-! ## Helpers shared by the claim theorems -/

/-- Top-level numeric document parse: the number dispatch of `nextToken()`
applied to a standalone number. -/
def parseNumberBytes (inp : List Nat) : Except PErr NumOut :=
  match inp with
  | [] => .error .invalidTokenStart
  | c :: rest =>
    if c = 45 then parseNegativeNumber rest
    else if isDigitB c then parsePositiveNumber c rest
    else .error .invalidTokenStart

/-- Bit pattern of `(double)v` for a signed 64-bit `v`, as used by
`getDoubleValue()` on an Integer token. -/
def intToDoubleBits (v : Int) : Nat :=
  if v < 0 then (1 <<< 63) ||| roundRatBits v.natAbs 1 else roundRatBits v.toNat 1

/-- `getDoubleValue()` on a lexed number: a Float token returns the stored
bits, an Integer token casts `int64Value` to double. -/
def numDoubleBits (o : NumOut) : Nat :=
  match o.1 with
  | .valueNumberFloat => o.2.2.1
  | _ => intToDoubleBits o.2.1

/-- Serialization in compact mode after a pretty-print round trip:
generate pretty, re-parse, regenerate compact (the `uglify.cpp` pipeline). -/
def prettyThenCompact (evs : List TokEvent) : Option (List Nat) :=
  match runEvents true evs with
  | .error _ => none
  | .ok p =>
    match tokenizeBytes p with
    | .error _ => none
    | .ok t =>
      match runEvents false t with
      | .error _ => none
      | .ok c => some c

/-- Direct compact serialization. -/
def compactOf (evs : List TokEvent) : Option (List Nat) :=
  match runEvents false evs with
  | .error _ => none
  | .ok c => some c

/-! ## Reference decimal digits (proof helpers for the integer round trip) -/

/-- Value of a most-significant-first list of ASCII digit bytes folded onto
an accumulator, exactly as the integer lexing loop accumulates. -/
def digitsVal (ds : List Nat) (s : Nat) : Nat :=
  ds.foldl (fun a d => a * 10 + (d - 48)) s

/-- Reference one-digit-at-a-time decimal writer (most significant first). -/
def decDigitsAux : Nat → Nat → List Nat → List Nat
  | 0, _, acc => acc
  | f + 1, v, acc =>
    if v < 10 then (48 + v) :: acc
    else decDigitsAux f (v / 10) ((48 + v % 10) :: acc)

/-- Exact rational value denoted by an exploded floating point
(`mantissa * 2 ^ exponent`), the semantics `asDouble` rounds. -/
def qval (x : ExFP) : ℚ := (x.mantissa : ℚ) * (2 : ℚ) ^ x.exponent

/-- Truth of a generator operation having raised a structural error. -/
def isGErr : Except GErr GState → Bool
  | .error _ => true
  | .ok _ => false

/-! ## Claim theorems -/

/-- C1.  The claimed float round trip `parse(format(x)) == x` bit-for-bit
fails on the code at `x = DBL_MAX` (bit pattern `0x7FEFFFFFFFFFFFFF`, a
finite non-NaN double and an explicit test case of `numericTest.cpp`): the
encoder prints the shortest form `1.7976931348623157e308`, but the parser
passes the 17-digit lexed significand through `(double)significand` at the
call of `grisu::raiseToPowTen`, which rounds `17976931348623157` to
`17976931348623156` (a 54-bit integer does not fit in a 53-bit mantissa),
and the resulting double is the neighbour `0x7FEFFFFFFFFFFFFE`, not `x`. -/
theorem claim_C1 :
    ryuBytes 0x7FEFFFFFFFFFFFFF =
      [49, 46, 55, 57, 55, 54, 57, 51, 49, 51, 52, 56, 54, 50, 51, 49, 53, 55,
        101, 51, 48, 56] ∧
    parseNumberBytes (ryuBytes 0x7FEFFFFFFFFFFFFF) =
      .ok (.valueNumberFloat, 0, 0x7FEFFFFFFFFFFFFE, []) ∧
    (0x7FEFFFFFFFFFFFFE : Nat) ≠ 0x7FEFFFFFFFFFFFFF := by
  refine ⟨by decide, by decide, by decide⟩

/-- C3.  The encoder drops the sign of `-0.0`: the `d == 0.0` test of
`ryu()` is true for `-0.0` under IEEE comparison and precedes the
`signbit` test, so the output is `"0"`, not the specified `"-0"`.  Parsing
`"-0"` yields an Integer token with value 0 whose double coercion is `+0.0`
(bit pattern 0), not the specified `0x8000000000000000`. -/
theorem claim_C3 :
    ryuBytes 0x8000000000000000 = [48] ∧
    ([48] : List Nat) ≠ [45, 48] ∧
    parseNumberBytes [45, 48] = .ok (.valueNumberInt, 0, 1 <<< 63, []) ∧
    numDoubleBits (.valueNumberInt, 0, 1 <<< 63, []) = 0 ∧
    (0 : Nat) ≠ 0x8000000000000000 := by
  refine ⟨by decide, by decide, by decide, by decide, by decide⟩

/-- C5.  In the integer-part lexing loop, only the first discarded digit
advances `decimalExponent`; the eat-remaining-digits loop drops further
integer digits without compensation.  On the 20-digit input
`99999999999999999990` the lexer hands `(significand, decimalExponent) =
(10^18, 1)` to the converter — denoting `10^19` — although the text (with
the first dropped digit rounded) denotes `10^20`; the parsed double is
`1e19` (bits `0x43E158E460913D00`) while the correctly rounded value of
the text is `1e20` (bits `0x4415AF1D78B58C40`). -/
theorem claim_C5 :
    lexIntLoop 25 9
      [57, 57, 57, 57, 57, 57, 57, 57, 57, 57, 57, 57, 57, 57, 57, 57, 57, 57, 48] =
      (10 ^ 18, 1, true, [57, 48]) ∧
    parseNumberBytes
      [57, 57, 57, 57, 57, 57, 57, 57, 57, 57, 57, 57, 57, 57, 57, 57, 57, 57, 57, 48] =
      .ok (.valueNumberFloat, 0, 0x43E158E460913D00, []) ∧
    roundRatBits 99999999999999999990 1 = 0x4415AF1D78B58C40 ∧
    (0x43E158E460913D00 : Nat) ≠ 0x4415AF1D78B58C40 := by
  refine ⟨by decide, by decide, by decide, by decide⟩

/-- C6 (counterexample).  The claimed token sequence for
`[1012e0, {"hey": 1.2}]` has `Float(1012.0)` (bits `0x408FA00000000000`)
as its second token; the code produces an Integer token instead, because
`1012e0` lexes to significand 1012 with decimal exponent 0 and the
`decimalExponent == 0 && significand <= INT64_MAX` test yields
`VALUE_NUMBER_INT`. -/
theorem claim_C6_counterexample :
    tokenizeBytes
      [91, 49, 48, 49, 50, 101, 48, 44, 32, 123, 34, 104, 101, 121, 34, 58, 32,
        49, 46, 50, 125, 93] ≠
    .ok [.startArray, .float 0x408FA00000000000, .startObject,
      .fieldName [104, 101, 121], .float 0x3FF3333333333333, .endObject,
      .endArray, .notAvailable] := by decide

/-- C6 (amended).  Parsing `[1012e0, {"hey": 1.2}]` produces the token
sequence StartArray, Integer(1012), StartObject, FieldName("hey"),
Float(1.2), EndObject, EndArray, NotAvailable: the number `1012e0` is
yielded as an Integer token with value 1012 (its decimal exponent after
the `e0` part is 0 and it fits in `int64_t`); `1.2` is a Float token with
the bits of the double nearest 1.2. -/
theorem claim_C6 :
    tokenizeBytes
      [91, 49, 48, 49, 50, 101, 48, 44, 32, 123, 34, 104, 101, 121, 34, 58, 32,
        49, 46, 50, 125, 93] =
    .ok [.startArray, .int 1012, .startObject, .fieldName [104, 101, 121],
      .float 0x3FF3333333333333, .endObject, .endArray, .notAvailable] := by decide

/-- C8.  The claimed identity `compact(pretty(d)) == compact(d)` fails on
the code for the document `d = [DBL_MAX]`: compact serialization prints
`[1.7976931348623157e308]`, but re-parsing the pretty output loses the
last bit of the double (the C1 defect), so the re-serialized compact bytes
are `[1.7976931348623155e308]`. -/
theorem claim_C8 :
    prettyThenCompact [.startArray, .float 0x7FEFFFFFFFFFFFFF, .endArray] =
      some [91, 49, 46, 55, 57, 55, 54, 57, 51, 49, 51, 52, 56, 54, 50, 51, 49,
        53, 53, 101, 51, 48, 56, 93] ∧
    compactOf [.startArray, .float 0x7FEFFFFFFFFFFFFF, .endArray] =
      some [91, 49, 46, 55, 57, 55, 54, 57, 51, 49, 51, 52, 56, 54, 50, 51, 49,
        53, 55, 101, 51, 48, 56, 93] ∧
    prettyThenCompact [.startArray, .float 0x7FEFFFFFFFFFFFFF, .endArray] ≠
      compactOf [.startArray, .float 0x7FEFFFFFFFFFFFFF, .endArray] := by
  refine ⟨by decide, by decide, by decide⟩

/-- C9.  On a const array node of size 1, the index lookup at index 1 (one
past the end, i.e. outside the range) reaches `std::vector::at(1)` and
throws `std::out_of_range` (modelled as `none`) instead of returning the
singleton null node: the guard reads `n > size()` instead of
`n >= size()`.  Index 0 returns the element, index 2 returns the null
node, and key lookups return the first matching pair in insertion order
(duplicate keys permitted) or the null node, as claimed. -/
theorem claim_C9 :
    nodeIndexConst (JNode.arrNode [JNode.intNode 7]) 1 = none ∧
    nodeIndexConst (JNode.arrNode [JNode.intNode 7]) 0 = some (JNode.intNode 7) ∧
    nodeIndexConst (JNode.arrNode [JNode.intNode 7]) 2 = some JNode.nullNode ∧
    nodeIndexConst (JNode.intNode 7) 0 = some JNode.nullNode ∧
    nodeKeyConst
      (JNode.objNode [([107], JNode.intNode 1), ([107], JNode.intNode 2)]) [107] =
      JNode.intNode 1 ∧
    nodeKeyConst (JNode.objNode [([107], JNode.intNode 1)]) [109] = JNode.nullNode ∧
    nodeKeyConst (JNode.strNode [104]) [107] = JNode.nullNode := by
  refine ⟨rfl, rfl, rfl, rfl, rfl, rfl, rfl⟩

/-- `prepareWriteValue` raises exactly when the stack top is an object and
the previous token is not a field name. -/
theorem prepare_fails_iff (st : GState) :
    isGErr (prepareWriteValue st) = true ↔
      st.tagStack.head? = some JTok.startObject ∧ st.token ≠ JTok.fieldName := by
  unfold prepareWriteValue
  cases h : st.tagStack.head? with
  | none => simp [isGErr, h]
  | some parent =>
    by_cases hc : parent = JTok.startObject ∧ st.token ≠ JTok.fieldName
    · simp only [hc, if_pos, if_true]
      simp [isGErr, hc.1, hc.2]
    · simp only [hc, if_neg, if_false]
      constructor
      · intro hfalse
        split at hfalse <;> simp [isGErr] at hfalse
      · intro ⟨h1, h2⟩
        exact absurd ⟨Option.some.inj (h ▸ h1), h2⟩ hc

/-- C7.  Every value-writing operation of the generator (double, integer,
boolean, null, string, startObject, startArray) raises a structural error
exactly when the top of the container stack is an object and the previous
token is not `FieldName`; `writeFieldName` raises exactly when the stack is
empty or its top is not an object; `endObject` (resp. `endArray`) raises
exactly when the stack is empty or its top is not a matching `StartObject`
(resp. `StartArray`). -/
theorem claim_C7 (st : GState) (bits : Nat) (v : Int) (b : Bool)
    (s name : List Nat) :
    (isGErr (writeDoubleG st bits) = true ↔
      st.tagStack.head? = some JTok.startObject ∧ st.token ≠ JTok.fieldName) ∧
    (isGErr (writeIntG st v) = true ↔
      st.tagStack.head? = some JTok.startObject ∧ st.token ≠ JTok.fieldName) ∧
    (isGErr (writeBoolG st b) = true ↔
      st.tagStack.head? = some JTok.startObject ∧ st.token ≠ JTok.fieldName) ∧
    (isGErr (writeNullG st) = true ↔
      st.tagStack.head? = some JTok.startObject ∧ st.token ≠ JTok.fieldName) ∧
    (isGErr (writeStringG st s) = true ↔
      st.tagStack.head? = some JTok.startObject ∧ st.token ≠ JTok.fieldName) ∧
    (isGErr (startObjectG st) = true ↔
      st.tagStack.head? = some JTok.startObject ∧ st.token ≠ JTok.fieldName) ∧
    (isGErr (startArrayG st) = true ↔
      st.tagStack.head? = some JTok.startObject ∧ st.token ≠ JTok.fieldName) ∧
    (isGErr (writeFieldNameG st name) = true ↔
      st.tagStack.head? ≠ some JTok.startObject) ∧
    (isGErr (endObjectG st) = true ↔
      st.tagStack.head? ≠ some JTok.startObject) ∧
    (isGErr (endArrayG st) = true ↔
      st.tagStack.head? ≠ some JTok.startArray) := by
  have hp := prepare_fails_iff st
  refine ⟨?_, ?_, ?_, ?_, ?_, ?_, ?_, ?_, ?_, ?_⟩
  · rw [← hp]; unfold writeDoubleG
    cases h : prepareWriteValue st <;> simp [isGErr, h]
  · rw [← hp]; unfold writeIntG
    cases h : prepareWriteValue st <;> simp [isGErr, h]
  · rw [← hp]; unfold writeBoolG
    cases h : prepareWriteValue st <;> cases b <;> simp [isGErr, h]
  · rw [← hp]; unfold writeNullG
    cases h : prepareWriteValue st <;> simp [isGErr, h]
  · rw [← hp]; unfold writeStringG
    cases h : prepareWriteValue st <;> simp [isGErr, h]
  · rw [← hp]; unfold startObjectG
    cases h : prepareWriteValue st <;> simp [isGErr, h]
  · rw [← hp]; unfold startArrayG
    cases h : prepareWriteValue st <;> simp [isGErr, h]
  · unfold writeFieldNameG
    by_cases h : st.tagStack.head? = some JTok.startObject
    · rw [if_neg (by simp [h])]
      simp only [isGErr]
      simp [h]
    · rw [if_pos (by simp [h])]
      simp only [isGErr]
      simp [h]
  · unfold endObjectG
    by_cases h : st.tagStack.head? = some JTok.startObject
    · rw [if_neg (by simp [h])]
      simp only [isGErr]
      simp [h]
    · rw [if_pos (by simp [h])]
      simp only [isGErr]
      simp [h]
  · unfold endArrayG
    by_cases h : st.tagStack.head? = some JTok.startArray
    · rw [if_neg (by simp [h])]
      simp only [isGErr]
      simp [h]
    · rw [if_pos (by simp [h])]
      simp only [isGErr]
      simp [h]

/-- Run of `parseStringLoop` over a body of plain bytes followed by the
closing quote: the loop copies the body and then requires the byte after
the quote (if any) to be a delimiter. -/
theorem parseStringLoop_run (body : List Nat) :
    ∀ (f : Nat) (acc suffix : List Nat),
    (∀ b ∈ body, 32 ≤ b ∧ b ≠ 34 ∧ b ≠ 92) → body.length < f →
    parseStringLoop f acc (body ++ 34 :: suffix) =
      (if nextIsDelim suffix then .ok (acc.reverse ++ body, suffix)
       else .error .invalidString) := by
  induction body with
  | nil =>
    intro f acc suffix _ hf
    match f, hf with
    | g + 1, _ =>
      show parseStringLoop (g + 1) acc ([] ++ 34 :: suffix) = _
      rw [List.nil_append]
      rw [show parseStringLoop (g + 1) acc (34 :: suffix) =
          (if nextIsDelim suffix then .ok (acc.reverse, suffix)
           else .error .invalidString) from rfl]
      rw [List.append_nil]
  | cons b body ih =>
    intro f acc suffix hplain hf
    have hb := hplain b (by simp)
    match f, hf with
    | g + 1, hf =>
      have hrec := ih g (b :: acc) suffix
        (fun x hx => hplain x (by simp [hx])) (by simpa using hf)
      simp only [List.cons_append, parseStringLoop]
      rw [if_neg (by omega), if_neg (by omega), if_neg (by omega)]
      rw [hrec]
      simp [List.append_assoc]

/-- C10.  After the closing quote of every string (and field-name) token,
`parseString` requires the next input byte, when one exists, to be a
delimiter (comma, colon, close bracket, close brace, space, tab, carriage
return or newline) and otherwise fails with the `"Invalid string"` syntax
error; at end of stream the token is accepted. -/
theorem claim_C10 (body : List Nat) (c : Nat) (rest : List Nat)
    (hplain : ∀ b ∈ body, 32 ≤ b ∧ b ≠ 34 ∧ b ≠ 92) :
    (isDelimB c = false →
      parseString (body ++ 34 :: c :: rest) = .error .invalidString) ∧
    (isDelimB c = true →
      parseString (body ++ 34 :: c :: rest) = .ok (body, c :: rest)) ∧
    parseString (body ++ [34]) = .ok (body, []) := by
  have h1 := parseStringLoop_run body ((body ++ 34 :: c :: rest).length + 1) []
    (c :: rest) hplain (by simp only [List.length_append, List.length_cons]; omega)
  have h2 := parseStringLoop_run body ((body ++ [34]).length + 1) [] []
    hplain (by simp only [List.length_append, List.length_cons]; omega)
  refine ⟨?_, ?_, ?_⟩
  · intro hc
    unfold parseString
    rw [h1]
    simp [nextIsDelim, hc]
  · intro hc
    unfold parseString
    rw [h1]
    simp [nextIsDelim, hc]
  · unfold parseString
    rw [h2]
    simp [nextIsDelim]

/-- Witness for C10 at a concrete string: body `"h"`, non-delimiter `x`
after the quote fails, delimiter `,` succeeds. -/
theorem claim_C10_witness :
    parseString [104, 34, 120] = .error .invalidString ∧
    parseString [104, 34, 44] = .ok ([104], [44]) := by
  refine ⟨(claim_C10 [104] 120 [] (by decide)).1 (by decide),
    ((claim_C10 [104] 44 [] (by decide)).2.1 (by decide))⟩

/-! ## C2: integer round trip -/

/-- One digit of `digitsVal`. -/
theorem digitsVal_cons (d : Nat) (ds : List Nat) (s : Nat) :
    digitsVal (d :: ds) s = digitsVal ds (s * 10 + (d - 48)) := rfl

/-- Folding digits never decreases the accumulator. -/
theorem digitsVal_le (ds : List Nat) : ∀ s : Nat, s ≤ digitsVal ds s := by
  induction ds with
  | nil => intro s; exact le_refl s
  | cons d ds ih =>
    intro s
    rw [digitsVal_cons]
    exact le_trans (by omega) (ih (s * 10 + (d - 48)))

/-- Step of the reference writer below ten. -/
theorem decDigitsAux_lt10 (f v : Nat) (acc : List Nat) (h : v < 10) :
    decDigitsAux (f + 1) v acc = (48 + v) :: acc := by
  unfold decDigitsAux
  rw [if_pos h]

/-- Step of the reference writer at ten or above. -/
theorem decDigitsAux_ge10 (f v : Nat) (acc : List Nat) (h : ¬ v < 10) :
    decDigitsAux (f + 1) v acc = decDigitsAux f (v / 10) ((48 + v % 10) :: acc) := by
  show (if v < 10 then (48 + v) :: acc
        else decDigitsAux f (v / 10) ((48 + v % 10) :: acc)) = _
  rw [if_neg h]

/-- The digit-pair table stores `k % 10` at even offsets and `k / 10` at odd
offsets of pair `k`. -/
theorem tblByte_spec : ∀ k : Nat, k < 100 →
    tblByte (2 * k) = 48 + k % 10 ∧ tblByte (2 * k + 1) = 48 + k / 10 := by decide

/-- A step of `writeUnsignedIntegerToBuff` at 100 or above. -/
theorem writeUIntLoop_ge100 (f v : Nat) (acc : List Nat) (h : 100 ≤ v) :
    writeUIntLoop (f + 1) v acc =
      writeUIntLoop f (v / 100)
        (tblByte ((v % 100) * 2 + 1) :: tblByte ((v % 100) * 2) :: acc) := by
  show (if 100 ≤ v then
          writeUIntLoop f (v / 100)
            (tblByte ((v % 100) * 2 + 1) :: tblByte ((v % 100) * 2) :: acc)
        else if v < 10 then (48 + v) :: acc
        else tblByte (v * 2 + 1) :: tblByte (v * 2) :: acc) = _
  rw [if_pos h]

/-- A step of `writeUnsignedIntegerToBuff` below ten. -/
theorem writeUIntLoop_lt10 (f v : Nat) (acc : List Nat) (h : v < 10) :
    writeUIntLoop (f + 1) v acc = (48 + v) :: acc := by
  unfold writeUIntLoop
  rw [if_neg (by omega), if_pos h]

/-- A step of `writeUnsignedIntegerToBuff` between ten and ninety-nine. -/
theorem writeUIntLoop_mid (f v : Nat) (acc : List Nat) (h10 : ¬ v < 10)
    (h100 : ¬ 100 ≤ v) :
    writeUIntLoop (f + 1) v acc = tblByte (v * 2 + 1) :: tblByte (v * 2) :: acc := by
  unfold writeUIntLoop
  rw [if_neg h100, if_neg h10]

/-- The two-digit table loop writes exactly the reference decimal digits. -/
theorem writeUIntLoop_eq_dec (f : Nat) : ∀ (v : Nat) (acc : List Nat),
    v < 100 ^ f → writeUIntLoop f v acc = decDigitsAux (2 * f) v acc := by
  induction f with
  | zero =>
    intro v acc hv
    rfl
  | succ f ih =>
    intro v acc hv
    by_cases h100 : 100 ≤ v
    · have hq : v / 100 < 100 ^ f := by
        rw [Nat.div_lt_iff_lt_mul (by norm_num)]
        calc v < 100 ^ (f + 1) := hv
        _ = 100 ^ f * 100 := by ring
      rw [writeUIntLoop_ge100 f v acc h100, ih _ _ hq]
      rw [show 2 * (f + 1) = 2 * f + 1 + 1 from by ring]
      rw [decDigitsAux_ge10 _ _ _ (by omega)]
      rw [decDigitsAux_ge10 _ _ _ (by omega)]
      obtain ⟨t1, t2⟩ := tblByte_spec (v % 100) (Nat.mod_lt v (by norm_num))
      rw [show (v % 100) * 2 = 2 * (v % 100) from by ring] at *
      rw [t1, t2]
      have e1 : v % 100 % 10 = v % 10 := Nat.mod_mod_of_dvd v (by norm_num)
      have e2 : v % 100 / 10 = v / 10 % 10 := by
        have h2 := Nat.mod_mul_right_div_self v 10 10
        norm_num at h2
        exact h2
      have e3 : v / 10 / 10 = v / 100 := by
        rw [Nat.div_div_eq_div_mul]
      rw [e1, e2, e3]
    · by_cases h10 : v < 10
      · rw [writeUIntLoop_lt10 f v acc h10]
        rw [show 2 * (f + 1) = 2 * f + 1 + 1 from by ring]
        rw [decDigitsAux_lt10 _ _ _ h10]
      · rw [writeUIntLoop_mid f v acc h10 h100]
        rw [show 2 * (f + 1) = 2 * f + 1 + 1 from by ring]
        rw [decDigitsAux_ge10 _ _ _ h10]
        rw [decDigitsAux_lt10 _ _ _ (by omega)]
        obtain ⟨t1, t2⟩ := tblByte_spec v (by omega)
        rw [show v * 2 = 2 * v from by ring] at *
        rw [t1, t2]

/-- Every byte the reference writer emits on top of digit bytes is a digit. -/
theorem decDigitsAux_digits (f : Nat) : ∀ (v : Nat) (acc : List Nat),
    (∀ d ∈ acc, 48 ≤ d ∧ d ≤ 57) →
    ∀ d ∈ decDigitsAux f v acc, 48 ≤ d ∧ d ≤ 57 := by
  induction f with
  | zero => intro v acc hacc; exact hacc
  | succ f ih =>
    intro v acc hacc d hd
    by_cases h : v < 10
    · rw [decDigitsAux_lt10 _ _ _ h] at hd
      rcases List.mem_cons.mp hd with h1 | h1
      · omega
      · exact hacc d h1
    · rw [decDigitsAux_ge10 _ _ _ h] at hd
      refine ih _ _ ?_ d hd
      intro x hx
      rcases List.mem_cons.mp hx with h1 | h1
      · have := Nat.mod_lt v (show 0 < 10 by norm_num)
        omega
      · exact hacc x h1

/-- The reference writer's digits fold back to the written value. -/
theorem decDigitsAux_val (f : Nat) : ∀ (v : Nat) (acc : List Nat) (s : Nat),
    v < 10 ^ f →
    ∃ p : Nat, v < p ∧
      digitsVal (decDigitsAux f v acc) s = digitsVal acc (s * p + v) := by
  induction f with
  | zero =>
    intro v acc s hv
    refine ⟨1, by omega, ?_⟩
    have hv0 : v = 0 := by omega
    subst hv0
    show digitsVal acc s = digitsVal acc (s * 1 + 0)
    norm_num
  | succ f ih =>
    intro v acc s hv
    by_cases h : v < 10
    · refine ⟨10, h, ?_⟩
      rw [decDigitsAux_lt10 _ _ _ h, digitsVal_cons]
      congr 1
      omega
    · obtain ⟨p, hp, hval⟩ := ih (v / 10) ((48 + v % 10) :: acc) s (by
        rw [Nat.div_lt_iff_lt_mul (by norm_num)]
        calc v < 10 ^ (f + 1) := hv
        _ = 10 ^ f * 10 := by ring)
      have h1 : 10 * (v / 10) + v % 10 = v := Nat.div_add_mod v 10
      have h2 : v % 10 < 10 := Nat.mod_lt v (by norm_num)
      refine ⟨p * 10, by omega, ?_⟩
      rw [decDigitsAux_ge10 _ _ _ h, hval, digitsVal_cons]
      congr 1
      have h3 : s * (p * 10) = s * p * 10 := by ring
      have h4 : 48 + v % 10 - 48 = v % 10 := by omega
      rw [h4, h3]
      calc (s * p + v / 10) * 10 + v % 10
      = s * p * 10 + (10 * (v / 10) + v % 10) := by ring
      _ = s * p * 10 + v := by rw [h1]

/-- The reference writer never returns the empty list. -/
theorem decDigitsAux_ne_nil' (f : Nat) : ∀ (v : Nat) (acc : List Nat),
    acc ≠ [] → decDigitsAux f v acc ≠ [] := by
  induction f with
  | zero => intro v acc h; exact h
  | succ f ih =>
    intro v acc h
    by_cases hv : v < 10
    · rw [decDigitsAux_lt10 _ _ _ hv]
      exact List.cons_ne_nil _ _
    · rw [decDigitsAux_ge10 _ _ _ hv]
      exact ih _ _ (List.cons_ne_nil _ _)

/-- With fuel available the reference writer emits at least one byte. -/
theorem decDigitsAux_ne_nil (f v : Nat) (acc : List Nat) :
    decDigitsAux (f + 1) v acc ≠ [] := by
  by_cases hv : v < 10
  · rw [decDigitsAux_lt10 _ _ _ hv]
    exact List.cons_ne_nil _ _
  · rw [decDigitsAux_ge10 _ _ _ hv]
    exact decDigitsAux_ne_nil' _ _ _ (List.cons_ne_nil _ _)

/-- The leading digit byte of a positive value is not the zero digit. -/
theorem decDigitsAux_head (f : Nat) : ∀ (v : Nat) (acc : List Nat),
    0 < v → v < 10 ^ f → (decDigitsAux f v acc).headD 0 ≠ 48 := by
  induction f with
  | zero =>
    intro v acc hv hvf
    omega
  | succ f ih =>
    intro v acc hv hvf
    by_cases h : v < 10
    · rw [decDigitsAux_lt10 _ _ _ h]
      show 48 + v ≠ 48
      omega
    · rw [decDigitsAux_ge10 _ _ _ h]
      refine ih _ _ (by omega) ?_
      rw [Nat.div_lt_iff_lt_mul (by norm_num)]
      calc v < 10 ^ (f + 1) := hvf
      _ = 10 ^ f * 10 := by ring

/-- The integer lexing loop at end of input. -/
theorem lexIntLoop_nil (f s : Nat) : lexIntLoop f s [] = (s, 0, false, []) := by
  cases f <;> rfl

/-- A non-overflowing step of the integer lexing loop. -/
theorem lexIntLoop_step (g s d : Nat) (rest : List Nat)
    (hd : isDigitB d = true)
    (hno : ¬ (bigIntC ≤ s ∧ (s ≠ bigIntC ∨ 55 < d))) :
    lexIntLoop (g + 1) s (d :: rest) = lexIntLoop g (s * 10 + (d - 48)) rest := by
  show (if isDigitB d = true then
          if bigIntC ≤ s ∧ (s ≠ bigIntC ∨ 55 < d) then
            ((if 53 < d ∨ (d = 53 ∧ s % 2 = 1) then s + 1 else s), 1, true, d :: rest)
          else lexIntLoop g (s * 10 + (d - 48)) rest
        else (s, 0, false, d :: rest)) = _
  rw [if_pos hd, if_neg hno]

/-- The integer lexing loop accumulates a run of digit bytes whose value
stays within `INT64_MAX` without ever triggering the overflow rounding. -/
theorem lexIntLoop_digits : ∀ (ds : List Nat) (f s : Nat) (tail : List Nat),
    (∀ d ∈ ds, 48 ≤ d ∧ d ≤ 57) → digitsVal ds s ≤ I64MAX → ds.length ≤ f →
    lexIntLoop f s (ds ++ tail) = lexIntLoop (f - ds.length) (digitsVal ds s) tail := by
  intro ds
  induction ds with
  | nil =>
    intro f s tail _ _ _
    rfl
  | cons d ds ih =>
    intro f s tail hdig hval hlen
    match f, hlen with
    | g + 1, hlen =>
      have hd := hdig d (by simp)
      have hmono : s * 10 + (d - 48) ≤ digitsVal (d :: ds) s := by
        rw [digitsVal_cons]
        exact digitsVal_le ds _
      have hno : ¬ (bigIntC ≤ s ∧ (s ≠ bigIntC ∨ 55 < d)) := by
        have hb : bigIntC = 922337203685477580 := by norm_num [bigIntC]
        have hI : I64MAX = 9223372036854775807 := by norm_num [I64MAX]
        rintro ⟨h1, h2 | h2⟩ <;> omega
      show lexIntLoop (g + 1) s (d :: (ds ++ tail)) = _
      rw [lexIntLoop_step g s d (ds ++ tail) (by simp [isDigitB]; omega) hno]
      rw [ih g (s * 10 + (d - 48)) tail (fun x hx => hdig x (by simp [hx]))
        (by rw [← digitsVal_cons]; exact hval) (by simpa using hlen)]
      rw [digitsVal_cons, List.length_cons, Nat.succ_sub_succ]

/-- Length bound for the reference writer. -/
theorem decDigitsAux_length (f : Nat) : ∀ (v : Nat) (acc : List Nat),
    (decDigitsAux f v acc).length ≤ f + acc.length := by
  induction f with
  | zero =>
    intro v acc
    show acc.length ≤ 0 + acc.length
    omega
  | succ f ih =>
    intro v acc
    by_cases h : v < 10
    · rw [decDigitsAux_lt10 _ _ _ h]
      simp only [List.length_cons]
      omega
    · rw [decDigitsAux_ge10 _ _ _ h]
      have := ih (v / 10) ((48 + v % 10) :: acc)
      simp only [List.length_cons] at this
      omega

/-- A run of digit bytes folding to `v ≤ INT64_MAX` and not starting with a
spurious zero parses as the Integer token `v`. -/
theorem parsePositive_digits (d0 : Nat) (ds : List Nat) (v : Nat)
    (hds : ∀ d ∈ ds, 48 ≤ d ∧ d ≤ 57)
    (hlen : ds.length ≤ 24)
    (hval : digitsVal ds (d0 - 48) = v) (hv : v ≤ I64MAX)
    (hlead : ¬ (d0 = 48 ∧ isDigitB (ds.headD 0) = true)) :
    parsePositiveNumber d0 ds = .ok (.valueNumberInt, (v : Int), 0, []) := by
  have hlex : lexIntLoop 25 (d0 - 48) ds = (v, 0, false, []) := by
    have h := lexIntLoop_digits ds 25 (d0 - 48) [] hds (by rw [hval]; exact hv)
      (by omega)
    rw [List.append_nil] at h
    rw [h, hval, lexIntLoop_nil]
  unfold parsePositiveNumber
  rw [if_neg hlead, hlex]
  simp only [List.dropWhile_nil, nextIsDelim]
  rw [if_neg (by simp), if_pos (show ¬false = true ∧ True ∧ v ≤ I64MAX from
    ⟨by simp, trivial, hv⟩)]

/-- Formatting any `uint64_t` value at most `INT64_MAX` yields a digit run
that re-parses through `parsePositiveNumber` to the same value. -/
theorem write_parsePositive (v : Nat) (hv : v ≤ I64MAX) :
    ∃ d0 ds, writeUIntBytes v = d0 :: ds ∧ 48 ≤ d0 ∧ d0 ≤ 57 ∧
      parsePositiveNumber d0 ds = .ok (.valueNumberInt, (v : Int), 0, []) := by
  have hI : I64MAX = 9223372036854775807 := by norm_num [I64MAX]
  have hv24 : v < 100 ^ 12 := by
    have h : (9223372036854775807 : Nat) < 100 ^ 12 := by norm_num
    omega
  have hv10 : v < 10 ^ 24 := by
    have h : (9223372036854775807 : Nat) < 10 ^ 24 := by norm_num
    omega
  have heq : writeUIntBytes v = decDigitsAux 24 v [] := by
    show writeUIntLoop 12 v [] = _
    exact writeUIntLoop_eq_dec 12 v [] hv24
  rcases hE : decDigitsAux 24 v [] with _ | ⟨d0, ds⟩
  · exact absurd hE (decDigitsAux_ne_nil 23 v [])
  have hbytes : writeUIntBytes v = d0 :: ds := heq.trans hE
  have hall : ∀ d ∈ d0 :: ds, 48 ≤ d ∧ d ≤ 57 := by
    rw [← hE]
    exact decDigitsAux_digits 24 v [] (by simp)
  have hd0 := hall d0 (by simp)
  have hds : ∀ d ∈ ds, 48 ≤ d ∧ d ≤ 57 := fun d hd => hall d (by simp [hd])
  have hv2 : digitsVal (d0 :: ds) 0 = v := by
    obtain ⟨p, hp, hval⟩ := decDigitsAux_val 24 v [] 0 hv10
    rw [hE] at hval
    simpa [digitsVal] using hval
  have hval2 : digitsVal ds (d0 - 48) = v := by
    rw [digitsVal_cons] at hv2
    simpa using hv2
  have hlentot := decDigitsAux_length 24 v []
  rw [hE] at hlentot
  simp only [List.length_cons, List.length_nil] at hlentot
  have hlen : ds.length ≤ 24 := by omega
  have hlead : ¬ (d0 = 48 ∧ isDigitB (ds.headD 0) = true) := by
    by_cases h10 : v < 10
    · have hone : decDigitsAux 24 v [] = [48 + v] := decDigitsAux_lt10 23 v [] h10
      rw [hone] at hE
      injection hE with e1 e2
      subst e2
      simp [isDigitB]
    · have hhead := decDigitsAux_head 24 v [] (by omega) hv10
      rw [hE] at hhead
      simp only [List.headD_cons] at hhead
      rintro ⟨h1, _⟩
      exact hhead h1
  exact ⟨d0, ds, hbytes, hd0.1, hd0.2,
    parsePositive_digits d0 ds v hds hlen hval2 hv hlead⟩

/-- Round trip of a non-negative `int64_t` written as decimal text. -/
theorem parseNumber_uint (v : Nat) (hv : v ≤ I64MAX) :
    parseNumberBytes (writeUIntBytes v) = .ok (.valueNumberInt, (v : Int), 0, []) := by
  obtain ⟨d0, ds, hb, h48, h57, hp⟩ := write_parsePositive v hv
  rw [hb]
  show (if d0 = 45 then parseNegativeNumber ds
        else if isDigitB d0 = true then parsePositiveNumber d0 ds
        else .error .invalidTokenStart) = _
  rw [if_neg (by omega), if_pos (by simp only [isDigitB]; simp; omega)]
  exact hp

/-- Round trip of a negative magnitude written with a leading minus sign:
the parsed Integer payload is negated and the stale `doubleValue` sign bit
is flipped. -/
theorem parseNumber_negint (v : Nat) (hv : v ≤ I64MAX) :
    parseNumberBytes (45 :: writeUIntBytes v) =
      .ok (.valueNumberInt, -(v : Int), 1 <<< 63, []) := by
  obtain ⟨d0, ds, hb, h48, h57, hp⟩ := write_parsePositive v hv
  rw [hb]
  show parseNegativeNumber (d0 :: ds) = _
  show (if ¬ isDigitB d0 = true then (.error .invalidNumber : Except PErr NumOut)
        else match parsePositiveNumber d0 ds with
          | .error e => .error e
          | .ok (t, iv, db, r) => .ok (t, -iv, db ^^^ (1 <<< 63), r)) = _
  rw [if_neg (by simp only [isDigitB]; simp; omega), hp]
  rfl

/-- C2.  The signed integer round trip `parse(format(n)) == n` with token
kind Integer holds for every `int64_t` except `INT64_MIN`.  For
`INT64_MIN` itself the claim fails twice over: `writeIntegerToBuff`
computes the magnitude as `(uint64_t)(0 - value)` where `0 - value` is
*signed* 64-bit arithmetic that overflows (undefined behaviour; the model
takes the two-complement wrap, which yields the correct digits
`9223372036854775808`), and parsing that magnitude back overflows
`INT64_MAX`, so the parser returns a *Float* token holding
`-9.223372036854776e18` (bits `0xC3E0000000000000`), not an Integer. -/
theorem claim_C2 :
    (∀ n : Int, -(2 ^ 63) ≤ n → n < 2 ^ 63 → n ≠ -(2 ^ 63) →
      parseNumberBytes (writeIntBytes n) =
        .ok (.valueNumberInt, n, if n < 0 then 1 <<< 63 else 0, [])) ∧
    parseNumberBytes (writeIntBytes (-(2 ^ 63))) =
      .ok (.valueNumberFloat, 0, 0xC3E0000000000000, []) := by
  constructor
  · intro n h1 h2 h3
    by_cases hneg : n < 0
    · have hv : ((0 - n).emod (2 ^ 64)).toNat = n.natAbs := by
        have h64 : (2 : Int) ^ 64 = 18446744073709551616 := by norm_num
        rw [h64]
        rw [show (0 - n).emod 18446744073709551616 =
          (0 - n) % 18446744073709551616 from rfl]
        omega
      have hw : writeIntBytes n =
          45 :: writeUIntBytes (((0 - n).emod (2 ^ 64)).toNat) := by
        unfold writeIntBytes
        rw [if_neg (by omega)]
      rw [hw, hv, parseNumber_negint n.natAbs (by norm_num [I64MAX]; omega)]
      rw [if_pos hneg]
      rw [show -(n.natAbs : Int) = n from by omega]
    · have hw : writeIntBytes n = writeUIntBytes n.toNat := by
        unfold writeIntBytes
        rw [if_pos (by omega)]
      rw [hw, parseNumber_uint n.toNat (by norm_num [I64MAX]; omega)]
      rw [if_neg hneg]
      rw [show ((n.toNat : Int)) = n from by omega]
  · decide

/-! ## C4: the exploded floating point pipeline of `raiseToPowTen` -/

/-- A shifting step of the normalization loop. -/
theorem normLoop_step_shift (f m : Nat) (e : Int)
    (hc : m &&& (1 <<< 63) = 0 ∧ 0 < m) :
    normLoop (f + 1) m e = normLoop f ((m <<< 1) % M64) (e - 1) := by
  show (if m &&& (1 <<< 63) = 0 ∧ 0 < m then normLoop f ((m <<< 1) % M64) (e - 1)
        else (m, e)) = _
  rw [if_pos hc]

/-- A terminating step of the normalization loop. -/
theorem normLoop_step_stop (f m : Nat) (e : Int)
    (hc : ¬ (m &&& (1 <<< 63) = 0 ∧ 0 < m)) :
    normLoop (f + 1) m e = (m, e) := by
  show (if m &&& (1 <<< 63) = 0 ∧ 0 < m then normLoop f ((m <<< 1) % M64) (e - 1)
        else (m, e)) = _
  rw [if_neg hc]

/-- Bit 63 of a 64-bit word read through the loop's masking test. -/
theorem and_bit63 (m : Nat) : m &&& (1 <<< 63) = m / 2 ^ 63 % 2 * 2 ^ 63 := by
  rw [Nat.one_shiftLeft, Nat.and_two_pow, Nat.testBit_to_div_mod]
  rcases Nat.mod_two_eq_zero_or_one (m / 2 ^ 63) with h | h <;>
    · norm_num at h ⊢
      simp [h]

/-- The normalization loop, given enough fuel, yields a mantissa with bit 63
set, stays below `2^64`, and preserves the denoted rational value. -/
theorem normLoop_spec (f : Nat) : ∀ (m : Nat) (e : Int), 0 < m → m < M64 →
    2 ^ 63 ≤ m * 2 ^ f →
    2 ^ 63 ≤ (normLoop f m e).1 ∧ (normLoop f m e).1 < M64 ∧
      ((normLoop f m e).1 : ℚ) * (2 : ℚ) ^ (normLoop f m e).2 =
        (m : ℚ) * (2 : ℚ) ^ e := by
  induction f with
  | zero =>
    intro m e h0 hM hshift
    exact ⟨by simpa using hshift, hM, rfl⟩
  | succ f ih =>
    intro m e h0 hM hshift
    have h63 : (2 : Nat) ^ 63 = 9223372036854775808 := by norm_num
    have h64 : M64 = 18446744073709551616 := by norm_num [M64]
    by_cases hc : m &&& (1 <<< 63) = 0 ∧ 0 < m
    · have hmlt : m < 2 ^ 63 := by
        have hb := and_bit63 m
        rw [hc.1] at hb
        omega
      have hm2 : (m <<< 1) % M64 = m * 2 := by
        rw [Nat.shiftLeft_eq, pow_one, Nat.mod_eq_of_lt (by omega)]
      rw [normLoop_step_shift f m e hc, hm2]
      have hrec := ih (m * 2) (e - 1) (by omega) (by omega) (by
        calc (2 : Nat) ^ 63 ≤ m * 2 ^ (f + 1) := hshift
        _ = m * 2 * 2 ^ f := by ring)
      refine ⟨hrec.1, hrec.2.1, ?_⟩
      rw [hrec.2.2]
      have h2 : (2 : ℚ) ^ e = (2 : ℚ) ^ (e - 1) * 2 := by
        rw [← zpow_add_one₀ (two_ne_zero), sub_add_cancel]
      push_cast
      rw [h2]
      ring
    · have hstay : 2 ^ 63 ≤ m := by
        have hb := and_bit63 m
        rcases Nat.mod_two_eq_zero_or_one (m / 2 ^ 63) with h | h
        · exfalso
          apply hc
          refine ⟨?_, h0⟩
          rw [hb, h]
          ring
        · omega
      rw [normLoop_step_stop f m e hc]
      exact ⟨hstay, hM, rfl⟩

/-- `normalize(11)` of a nonzero sub-`2^64` mantissa: bit 63 set, below
`2^64`, value preserved. -/
theorem normalize11_spec (m : Nat) (e : Int) (h0 : 0 < m) (hM : m < M64) :
    2 ^ 63 ≤ (normalize11 ⟨m, e⟩).mantissa ∧
      (normalize11 ⟨m, e⟩).mantissa < M64 ∧
      qval (normalize11 ⟨m, e⟩) = qval ⟨m, e⟩ := by
  have h := normLoop_spec 64 m e h0 hM (by
    calc (2 : Nat) ^ 63 ≤ 1 * 2 ^ 64 := by norm_num
    _ ≤ m * 2 ^ 64 := by exact Nat.mul_le_mul_right _ h0)
  exact ⟨h.1, h.2.1, h.2.2⟩

/-- The mantissa of a product is always below `2^64`. -/
theorem emul_mantissa_lt (a b : ExFP) : (emul a b).mantissa < M64 := by
  show _ % M64 < M64
  exact Nat.mod_lt _ (by norm_num [M64])

/-- `ExplodedFloatingPoint::operator*` computes exactly the rounded top
64 bits `⌊(a*b + 2^63) / 2^64⌋` of the 128-bit product. -/
theorem emul_eq (a b : ExFP) (ha : a.mantissa < M64) (hb : b.mantissa < M64) :
    emul a b = ⟨(a.mantissa * b.mantissa + 2 ^ 63) / 2 ^ 64,
      a.exponent + b.exponent + 64⟩ := by
  obtain ⟨A, ea⟩ := a
  obtain ⟨B, eb⟩ := b
  simp only [M64] at ha hb
  norm_num at ha hb
  have hand : ∀ x : Nat, x &&& 4294967295 = x % 4294967296 := by
    intro x
    have h := Nat.and_pow_two_sub_one_eq_mod x 32
    norm_num at h
    exact h
  have hshr : ∀ x : Nat, x >>> 32 = x / 4294967296 := by
    intro x
    have h := Nat.shiftRight_eq_div_pow x 32
    norm_num at h
    exact h
  simp only [emul]
  congr 1
  simp only [hand, hshr]
  rw [show ((1 : Nat) <<< 31) = 2147483648 from by decide]
  rw [show M64 = 18446744073709551616 from by norm_num [M64]]
  rw [show ((2 : Nat) ^ 63) = 9223372036854775808 from by norm_num]
  rw [show ((2 : Nat) ^ 64) = 18446744073709551616 from by norm_num]
  have hexp : A * B =
      18446744073709551616 * (A / 4294967296 * (B / 4294967296)) +
        4294967296 * (A % 4294967296 * (B / 4294967296)) +
        4294967296 * (A / 4294967296 * (B % 4294967296)) +
        A % 4294967296 * (B % 4294967296) := by
    have hA := Nat.div_add_mod A 4294967296
    have hB := Nat.div_add_mod B 4294967296
    calc A * B
    = (4294967296 * (A / 4294967296) + A % 4294967296) *
          (4294967296 * (B / 4294967296) + B % 4294967296) := by rw [hA, hB]
    _ = _ := by ring
  rw [hexp]
  have hbA : A / 4294967296 ≤ 4294967295 := by omega
  have hbB : B / 4294967296 ≤ 4294967295 := by omega
  have hmA : A % 4294967296 ≤ 4294967295 := by omega
  have hmB : B % 4294967296 ≤ 4294967295 := by omega
  obtain ⟨T, hT⟩ : ∃ T, A / 4294967296 * (B / 4294967296) = T := ⟨_, rfl⟩
  obtain ⟨P2, hP2⟩ : ∃ P, A % 4294967296 * (B / 4294967296) = P := ⟨_, rfl⟩
  obtain ⟨P3, hP3⟩ : ∃ P, A / 4294967296 * (B % 4294967296) = P := ⟨_, rfl⟩
  obtain ⟨P4, hP4⟩ : ∃ P, A % 4294967296 * (B % 4294967296) = P := ⟨_, rfl⟩
  have hbT : T ≤ 4294967295 * 4294967295 := hT ▸ Nat.mul_le_mul hbA hbB
  have hbP2 : P2 ≤ 4294967295 * 4294967295 := hP2 ▸ Nat.mul_le_mul hmA hbB
  have hbP3 : P3 ≤ 4294967295 * 4294967295 := hP3 ▸ Nat.mul_le_mul hbA hmB
  have hbP4 : P4 ≤ 4294967295 * 4294967295 := hP4 ▸ Nat.mul_le_mul hmA hmB
  rw [hT, hP2, hP3, hP4]
  omega

/-- Lower bound `2^(e+63) ≤ qval` for a normalized exploded float. -/
theorem qval_norm_lb (t : ExFP) (h63 : 2 ^ 63 ≤ t.mantissa) :
    (2 : ℚ) ^ (t.exponent + 63) ≤ qval t := by
  unfold qval
  calc (2 : ℚ) ^ (t.exponent + 63)
  = (2 : ℚ) ^ ((63 : Int)) * (2 : ℚ) ^ t.exponent := by
        rw [← zpow_add₀ (two_ne_zero)]
        ring_nf
  _ ≤ (t.mantissa : ℚ) * (2 : ℚ) ^ t.exponent := by
        have hc : ((2 : ℚ) ^ (63 : Int)) ≤ (t.mantissa : ℚ) := by
          rw [show ((63 : Int)) = ((63 : Nat) : Int) from rfl, zpow_natCast]
          exact_mod_cast h63
        exact mul_le_mul_of_nonneg_right hc (le_of_lt (zpow_pos (by norm_num) _))

/-- Upper bound `qval < 2^(e+64)` for a sub-`2^64` exploded float. -/
theorem qval_norm_ub (t : ExFP) (hM : t.mantissa < M64) :
    qval t < (2 : ℚ) ^ (t.exponent + 64) := by
  unfold qval
  calc (t.mantissa : ℚ) * (2 : ℚ) ^ t.exponent
  < (2 : ℚ) ^ ((64 : Int)) * (2 : ℚ) ^ t.exponent := by
        have hc : (t.mantissa : ℚ) < (2 : ℚ) ^ (64 : Int) := by
          rw [show ((64 : Int)) = ((64 : Nat) : Int) from rfl, zpow_natCast]
          exact_mod_cast (by norm_num [M64] at hM; exact hM : t.mantissa < 2 ^ 64)
        exact mul_lt_mul_of_pos_right hc (zpow_pos (by norm_num) _)
  _ = (2 : ℚ) ^ (t.exponent + 64) := by
        rw [← zpow_add₀ (two_ne_zero)]
        ring_nf

/-- The product mantissa underestimates the true product by at most the
`roundUp32`-style half unit: `qval (a*b) ≤ qval a * qval b + 2^(ea+eb+63)`. -/
theorem emul_qval_le (a b : ExFP) (ha : a.mantissa < M64) (hb : b.mantissa < M64) :
    qval (emul a b) ≤ qval a * qval b + (2 : ℚ) ^ (a.exponent + b.exponent + 63) := by
  rw [emul_eq a b ha hb]
  show (((a.mantissa * b.mantissa + 2 ^ 63) / 2 ^ 64 : Nat) : ℚ) *
      (2 : ℚ) ^ (a.exponent + b.exponent + 64) ≤ _
  have hcast : (((a.mantissa * b.mantissa + 2 ^ 63) / 2 ^ 64 : Nat) : ℚ) ≤
      ((a.mantissa : ℚ) * (b.mantissa : ℚ) + 2 ^ 63) / 2 ^ 64 := by
    calc (((a.mantissa * b.mantissa + 2 ^ 63) / 2 ^ 64 : Nat) : ℚ)
    ≤ ((a.mantissa * b.mantissa + 2 ^ 63 : Nat) : ℚ) / ((2 ^ 64 : Nat) : ℚ) :=
        Nat.cast_div_le
    _ = ((a.mantissa : ℚ) * (b.mantissa : ℚ) + 2 ^ 63) / 2 ^ 64 := by
        push_cast
        ring
  have hsplit : (2 : ℚ) ^ (a.exponent + b.exponent + 64) =
      (2 : ℚ) ^ a.exponent * (2 : ℚ) ^ b.exponent * 18446744073709551616 := by
    rw [zpow_add₀ (two_ne_zero) (a.exponent + b.exponent) 64,
      zpow_add₀ (two_ne_zero) a.exponent b.exponent]
    norm_num
  have hsplit63 : (2 : ℚ) ^ (a.exponent + b.exponent + 63) =
      (2 : ℚ) ^ a.exponent * (2 : ℚ) ^ b.exponent * 9223372036854775808 := by
    rw [zpow_add₀ (two_ne_zero) (a.exponent + b.exponent) 63,
      zpow_add₀ (two_ne_zero) a.exponent b.exponent]
    norm_num
  have hP : (0 : ℚ) < (2 : ℚ) ^ a.exponent * (2 : ℚ) ^ b.exponent := by positivity
  calc (((a.mantissa * b.mantissa + 2 ^ 63) / 2 ^ 64 : Nat) : ℚ) *
      (2 : ℚ) ^ (a.exponent + b.exponent + 64)
  ≤ (((a.mantissa : ℚ) * (b.mantissa : ℚ) + 2 ^ 63) / 2 ^ 64) *
      (2 : ℚ) ^ (a.exponent + b.exponent + 64) :=
        mul_le_mul_of_nonneg_right hcast (le_of_lt (zpow_pos (by norm_num) _))
  _ = qval a * qval b + (2 : ℚ) ^ (a.exponent + b.exponent + 63) := by
        rw [hsplit, hsplit63]
        unfold qval
        field_simp
        ring

/-- The product mantissa overestimates the true product by at most one unit
in the last place: `qval a * qval b - 2^(ea+eb+64) ≤ qval (a*b)`. -/
theorem emul_qval_ge (a b : ExFP) (ha : a.mantissa < M64) (hb : b.mantissa < M64) :
    qval a * qval b - (2 : ℚ) ^ (a.exponent + b.exponent + 64) ≤ qval (emul a b) := by
  rw [emul_eq a b ha hb]
  show _ ≤ (((a.mantissa * b.mantissa + 2 ^ 63) / 2 ^ 64 : Nat) : ℚ) *
      (2 : ℚ) ^ (a.exponent + b.exponent + 64)
  have hdm := Nat.div_add_mod (a.mantissa * b.mantissa + 2 ^ 63) (2 ^ 64)
  have hrem : (a.mantissa * b.mantissa + 2 ^ 63) % 2 ^ 64 < 2 ^ 64 :=
    Nat.mod_lt _ (by norm_num)
  have hcast : (18446744073709551616 : ℚ) *
        (((a.mantissa * b.mantissa + 2 ^ 63) / 2 ^ 64 : Nat) : ℚ) +
        (((a.mantissa * b.mantissa + 2 ^ 63) % 2 ^ 64 : Nat) : ℚ) =
      (a.mantissa : ℚ) * (b.mantissa : ℚ) + 9223372036854775808 := by
    exact_mod_cast congrArg (fun n : Nat => (n : ℚ)) hdm
  have hremq : (((a.mantissa * b.mantissa + 2 ^ 63) % 2 ^ 64 : Nat) : ℚ) ≤
      18446744073709551616 := by
    exact_mod_cast le_of_lt hrem
  have hkey : (a.mantissa : ℚ) * (b.mantissa : ℚ) - 18446744073709551616 ≤
      (((a.mantissa * b.mantissa + 2 ^ 63) / 2 ^ 64 : Nat) : ℚ) *
        18446744073709551616 := by
    obtain ⟨P, hP⟩ : ∃ P : ℚ, (a.mantissa : ℚ) * (b.mantissa : ℚ) = P := ⟨_, rfl⟩
    obtain ⟨X, hX⟩ : ∃ X : ℚ,
      (((a.mantissa * b.mantissa + 2 ^ 63) / 2 ^ 64 : Nat) : ℚ) = X := ⟨_, rfl⟩
    obtain ⟨Y, hY⟩ : ∃ Y : ℚ,
      (((a.mantissa * b.mantissa + 2 ^ 63) % 2 ^ 64 : Nat) : ℚ) = Y := ⟨_, rfl⟩
    rw [hP] at hcast ⊢
    rw [hX] at hcast ⊢
    rw [hY] at hcast hremq
    linarith [hcast, hremq]
  have hsplit : (2 : ℚ) ^ (a.exponent + b.exponent + 64) =
      (2 : ℚ) ^ a.exponent * (2 : ℚ) ^ b.exponent * 18446744073709551616 := by
    rw [zpow_add₀ (two_ne_zero) (a.exponent + b.exponent) 64,
      zpow_add₀ (two_ne_zero) a.exponent b.exponent]
    norm_num
  have hP0 : (0 : ℚ) ≤ (2 : ℚ) ^ a.exponent * (2 : ℚ) ^ b.exponent := by positivity
  calc qval a * qval b - (2 : ℚ) ^ (a.exponent + b.exponent + 64)
  = ((a.mantissa : ℚ) * (b.mantissa : ℚ) - 18446744073709551616) *
      ((2 : ℚ) ^ a.exponent * (2 : ℚ) ^ b.exponent) := by
        unfold qval
        rw [hsplit]
        ring
  _ ≤ ((((a.mantissa * b.mantissa + 2 ^ 63) / 2 ^ 64 : Nat) : ℚ) *
        18446744073709551616) *
      ((2 : ℚ) ^ a.exponent * (2 : ℚ) ^ b.exponent) :=
        mul_le_mul_of_nonneg_right hkey hP0
  _ = (((a.mantissa * b.mantissa + 2 ^ 63) / 2 ^ 64 : Nat) : ℚ) *
        (2 : ℚ) ^ (a.exponent + b.exponent + 64) := by
        rw [hsplit]
        ring

/-- `asDouble` returns the bit pattern of `+0.0` whenever the denoted value
is below `2^(-1075)`, half the smallest subnormal. -/
theorem asDouble_eq_zero (x : ExFP) (hM : x.mantissa < M64)
    (hq : qval x < (2 : ℚ) ^ (-1075 : Int)) : asDouble x = 0 := by
  by_cases h0 : x.mantissa = 0
  · unfold asDouble
    rw [if_pos h0]
  · obtain ⟨hge, hlt, hqeq⟩ :=
      normalize11_spec x.mantissa x.exponent (Nat.pos_of_ne_zero h0) hM
    have hqeq' : qval (normalize11 x) = qval x := hqeq
    have hlb := qval_norm_lb (normalize11 x) hge
    have hexp : (normalize11 x).exponent + 63 < -1075 := by
      by_contra hcon
      push_neg at hcon
      have hmono := zpow_le_zpow_right₀ (show (1 : ℚ) ≤ 2 by norm_num) hcon
      rw [hqeq'] at hlb
      linarith
    have hcond : (normalize11 x).exponent + 1075 + 11 ≤ -53 := by omega
    unfold asDouble
    rw [if_neg h0]
    simp only []
    rw [if_neg (by omega), if_pos (by omega)]

/-- `asDouble` returns the bit pattern of `+∞` whenever the denoted value is
at least `2^1025`. -/
theorem asDouble_eq_inf (x : ExFP) (hM : x.mantissa < M64)
    (hq : (2 : ℚ) ^ (1025 : Int) ≤ qval x) : asDouble x = infBits := by
  have h0 : x.mantissa ≠ 0 := by
    intro h
    unfold qval at hq
    rw [h] at hq
    simp at hq
    have hp := zpow_pos (show (0 : ℚ) < 2 by norm_num) (1025 : Int)
    linarith
  obtain ⟨hge, hlt, hqeq⟩ :=
    normalize11_spec x.mantissa x.exponent (Nat.pos_of_ne_zero h0) hM
  have hqeq' : qval (normalize11 x) = qval x := hqeq
  have hub := qval_norm_ub (normalize11 x) hlt
  have hexp : (1025 : Int) < (normalize11 x).exponent + 64 := by
    by_contra hcon
    push_neg at hcon
    have hmono := zpow_le_zpow_right₀ (show (1 : ℚ) ≤ 2 by norm_num) hcon
    rw [hqeq'] at hub
    linarith
  have hbig : (2048 : Int) ≤ (normalize11 x).exponent + 1075 + 11 := by omega
  have hcond : ∀ (c : Prop) (inst : Decidable c), (2047 : Int) ≤
      (if c then ((normalize11 x).exponent + 1075 + 11) + 1
       else ((normalize11 x).exponent + 1075 + 11)) := by
    intro c inst
    split <;> omega
  unfold asDouble
  rw [if_neg h0]
  simp only []
  rw [if_pos (by omega), if_pos (hcond _ _)]

/-- Value of the notional input to a slow-path multiply: a normalized
nonzero significand denotes itself. -/
theorem qval_norm_base (s : Nat) (hs : 0 < s) (hsM : s < M64) :
    qval (normalize11 ⟨s, 0⟩) = (s : ℚ) := by
  rw [(normalize11_spec s 0 hs hsM).2.2]
  unfold qval
  norm_num

/-- One slow-path multiply against a cache entry `⟨W, -k⟩` rounds to zero
whenever the bound `S * (W + 1) ≤ 2 ^ (k - 1075)` holds for the significand
range `s < S`. -/
theorem zeroSingle (S W : Nat) (E : Int) (k : Nat)
    (hS : S ≤ M64) (hW : W < M64) (hE : E = -(k : Int))
    (hkey : S * (W + 1) * 2 ^ 1075 ≤ 2 ^ k) :
    ∀ s : Nat, 0 < s → s < S →
      asDouble (emul (normalize11 ⟨s, 0⟩) ⟨W, E⟩) = 0 := by
  intro s hs hsS
  have hsM : s < M64 := lt_of_lt_of_le hsS hS
  obtain ⟨hp63, hpM, _⟩ := normalize11_spec s 0 hs hsM
  have hps : qval (normalize11 ⟨s, 0⟩) = (s : ℚ) := qval_norm_base s hs hsM
  have hperr : (2 : ℚ) ^ ((normalize11 ⟨s, 0⟩).exponent + 63) ≤ (s : ℚ) := by
    rw [← hps]
    exact qval_norm_lb _ hp63
  have hEpos : (0 : ℚ) < (2 : ℚ) ^ E := zpow_pos (by norm_num) _
  have hq2 : qval (emul (normalize11 ⟨s, 0⟩) ⟨W, E⟩) ≤
      (s : ℚ) * ((W : ℚ) + 1) * (2 : ℚ) ^ E := by
    have hsplit : (2 : ℚ) ^ ((normalize11 ⟨s, 0⟩).exponent + E + 63) =
        (2 : ℚ) ^ ((normalize11 ⟨s, 0⟩).exponent + 63) * (2 : ℚ) ^ E := by
      rw [show (normalize11 ⟨s, 0⟩).exponent + E + 63 =
        ((normalize11 ⟨s, 0⟩).exponent + 63) + E from by ring]
      rw [zpow_add₀ (two_ne_zero)]
    have hstep : (2 : ℚ) ^ ((normalize11 ⟨s, 0⟩).exponent + 63) * (2 : ℚ) ^ E ≤
        (s : ℚ) * (2 : ℚ) ^ E :=
      mul_le_mul_of_nonneg_right hperr (le_of_lt hEpos)
    calc qval (emul (normalize11 ⟨s, 0⟩) ⟨W, E⟩)
    ≤ qval (normalize11 ⟨s, 0⟩) * qval ⟨W, E⟩ +
        (2 : ℚ) ^ ((normalize11 ⟨s, 0⟩).exponent + E + 63) :=
          emul_qval_le _ _ hpM hW
    _ = (s : ℚ) * ((W : ℚ) * (2 : ℚ) ^ E) +
        (2 : ℚ) ^ ((normalize11 ⟨s, 0⟩).exponent + 63) * (2 : ℚ) ^ E := by
          rw [hps, hsplit]
          rfl
    _ ≤ (s : ℚ) * ((W : ℚ) * (2 : ℚ) ^ E) + (s : ℚ) * (2 : ℚ) ^ E :=
          add_le_add_left hstep _
    _ = (s : ℚ) * ((W : ℚ) + 1) * (2 : ℚ) ^ E := by ring
  have hnat : s * (W + 1) * 2 ^ 1075 < 2 ^ k := by
    have h1 : s * ((W + 1) * 2 ^ 1075) < S * ((W + 1) * 2 ^ 1075) :=
      (Nat.mul_lt_mul_right (by positivity)).mpr hsS
    rw [← Nat.mul_assoc, ← Nat.mul_assoc] at h1
    exact lt_of_lt_of_le h1 hkey
  have hfin : (s : ℚ) * ((W : ℚ) + 1) * (2 : ℚ) ^ E < (2 : ℚ) ^ (-1075 : Int) := by
    rw [hE]
    have hq : ((s * (W + 1) * 2 ^ 1075 : Nat) : ℚ) < ((2 ^ k : Nat) : ℚ) := by
      exact_mod_cast hnat
    push_cast at hq
    have h2k : (0 : ℚ) < (2 : ℚ) ^ (k : Nat) := by positivity
    have h75 : (0 : ℚ) < (2 : ℚ) ^ (1075 : Nat) := by positivity
    rw [zpow_neg, zpow_natCast]
    rw [show ((-1075 : Int)) = -((1075 : Nat) : Int) from by norm_num, zpow_neg,
      zpow_natCast]
    rw [← div_eq_mul_inv, ← one_div, div_lt_div_iff₀ h2k h75, one_mul]
    linarith [hq]
  exact asDouble_eq_zero _ (emul_mantissa_lt _ _) (lt_of_le_of_lt hq2 hfin)

/-- Two slow-path multiplies (small power, then cache entry) round to zero
whenever `S * (w + 1) * (W + 1) ≤ 2 ^ (k - 1075)` for `s < S`. -/
theorem zeroDouble (S w W : Nat) (eps E : Int) (k : Nat)
    (hS : S ≤ M64) (hw63 : 2 ^ 63 ≤ w) (hw : w < M64) (hW : W < M64)
    (hE : eps + E = -(k : Int))
    (hkey : S * (w + 1) * (W + 1) * 2 ^ 1075 ≤ 2 ^ k) :
    ∀ s : Nat, 0 < s → s < S →
      asDouble (emul (normalize11 (emul (normalize11 ⟨s, 0⟩) ⟨w, eps⟩))
        ⟨W, E⟩) = 0 := by
  intro s hs hsS
  have hsM : s < M64 := lt_of_lt_of_le hsS hS
  obtain ⟨hp63, hpM, _⟩ := normalize11_spec s 0 hs hsM
  have hps : qval (normalize11 ⟨s, 0⟩) = (s : ℚ) := qval_norm_base s hs hsM
  have hperr : (2 : ℚ) ^ ((normalize11 ⟨s, 0⟩).exponent + 63) ≤ (s : ℚ) := by
    rw [← hps]
    exact qval_norm_lb _ hp63
  have hepos : (0 : ℚ) < (2 : ℚ) ^ eps := zpow_pos (by norm_num) _
  have hEpos : (0 : ℚ) < (2 : ℚ) ^ E := zpow_pos (by norm_num) _
  -- the inner product
  have hV1 : qval (emul (normalize11 ⟨s, 0⟩) ⟨w, eps⟩) ≤
      (s : ℚ) * ((w : ℚ) + 1) * (2 : ℚ) ^ eps := by
    have hsplit : (2 : ℚ) ^ ((normalize11 ⟨s, 0⟩).exponent + eps + 63) =
        (2 : ℚ) ^ ((normalize11 ⟨s, 0⟩).exponent + 63) * (2 : ℚ) ^ eps := by
      rw [show (normalize11 ⟨s, 0⟩).exponent + eps + 63 =
        ((normalize11 ⟨s, 0⟩).exponent + 63) + eps from by ring]
      rw [zpow_add₀ (two_ne_zero)]
    have hstep : (2 : ℚ) ^ ((normalize11 ⟨s, 0⟩).exponent + 63) * (2 : ℚ) ^ eps ≤
        (s : ℚ) * (2 : ℚ) ^ eps :=
      mul_le_mul_of_nonneg_right hperr (le_of_lt hepos)
    calc qval (emul (normalize11 ⟨s, 0⟩) ⟨w, eps⟩)
    ≤ qval (normalize11 ⟨s, 0⟩) * qval ⟨w, eps⟩ +
        (2 : ℚ) ^ ((normalize11 ⟨s, 0⟩).exponent + eps + 63) :=
          emul_qval_le _ _ hpM hw
    _ = (s : ℚ) * ((w : ℚ) * (2 : ℚ) ^ eps) +
        (2 : ℚ) ^ ((normalize11 ⟨s, 0⟩).exponent + 63) * (2 : ℚ) ^ eps := by
          rw [hps, hsplit]
          rfl
    _ ≤ (s : ℚ) * ((w : ℚ) * (2 : ℚ) ^ eps) + (s : ℚ) * (2 : ℚ) ^ eps :=
          add_le_add_left hstep _
    _ = (s : ℚ) * ((w : ℚ) + 1) * (2 : ℚ) ^ eps := by ring
  -- the inner product is a nonzero sub-2^64 mantissa
  have hm1 : (emul (normalize11 ⟨s, 0⟩) ⟨w, eps⟩).mantissa < M64 :=
    emul_mantissa_lt _ _
  have hm1pos : 0 < (emul (normalize11 ⟨s, 0⟩) ⟨w, eps⟩).mantissa := by
    rw [emul_eq _ _ hpM hw]
    show 0 < ((normalize11 ⟨s, 0⟩).mantissa * w + 2 ^ 63) / 2 ^ 64
    have hprod : 2 ^ 63 * 2 ^ 63 ≤ (normalize11 ⟨s, 0⟩).mantissa * w :=
      Nat.mul_le_mul hp63 hw63
    have : (2 : Nat) ^ 126 / 2 ^ 64 ≤
        ((normalize11 ⟨s, 0⟩).mantissa * w + 2 ^ 63) / 2 ^ 64 := by
      apply Nat.div_le_div_right
      calc (2 : Nat) ^ 126 = 2 ^ 63 * 2 ^ 63 := by norm_num
      _ ≤ (normalize11 ⟨s, 0⟩).mantissa * w := hprod
      _ ≤ _ := Nat.le_add_right _ _
    omega
  obtain ⟨hq63, hqM, hqval⟩ := normalize11_spec
    (emul (normalize11 ⟨s, 0⟩) ⟨w, eps⟩).mantissa
    (emul (normalize11 ⟨s, 0⟩) ⟨w, eps⟩).exponent hm1pos hm1
  have hqval' : qval (normalize11 (emul (normalize11 ⟨s, 0⟩) ⟨w, eps⟩)) =
      qval (emul (normalize11 ⟨s, 0⟩) ⟨w, eps⟩) := hqval
  have hV1' : qval (normalize11 (emul (normalize11 ⟨s, 0⟩) ⟨w, eps⟩)) ≤
      (s : ℚ) * ((w : ℚ) + 1) * (2 : ℚ) ^ eps := by
    rw [hqval']
    exact hV1
  have hmerr : (2 : ℚ) ^
      ((normalize11 (emul (normalize11 ⟨s, 0⟩) ⟨w, eps⟩)).exponent + 63) ≤
      qval (normalize11 (emul (normalize11 ⟨s, 0⟩) ⟨w, eps⟩)) :=
    qval_norm_lb _ hq63
  -- the outer product
  have hq2 : qval (emul (normalize11 (emul (normalize11 ⟨s, 0⟩) ⟨w, eps⟩))
      ⟨W, E⟩) ≤ (s : ℚ) * ((w : ℚ) + 1) * ((W : ℚ) + 1) *
        (2 : ℚ) ^ (eps + E) := by
    have hsplit : (2 : ℚ) ^
        ((normalize11 (emul (normalize11 ⟨s, 0⟩) ⟨w, eps⟩)).exponent + E + 63) =
        (2 : ℚ) ^
          ((normalize11 (emul (normalize11 ⟨s, 0⟩) ⟨w, eps⟩)).exponent + 63) *
          (2 : ℚ) ^ E := by
      rw [show (normalize11 (emul (normalize11 ⟨s, 0⟩) ⟨w, eps⟩)).exponent + E + 63 =
        ((normalize11 (emul (normalize11 ⟨s, 0⟩) ⟨w, eps⟩)).exponent + 63) + E
        from by ring]
      rw [zpow_add₀ (two_ne_zero)]
    have hstep : (2 : ℚ) ^
        ((normalize11 (emul (normalize11 ⟨s, 0⟩) ⟨w, eps⟩)).exponent + 63) *
          (2 : ℚ) ^ E ≤
        qval (normalize11 (emul (normalize11 ⟨s, 0⟩) ⟨w, eps⟩)) * (2 : ℚ) ^ E :=
      mul_le_mul_of_nonneg_right hmerr (le_of_lt hEpos)
    have hWpos : (0 : ℚ) ≤ (W : ℚ) * (2 : ℚ) ^ E := by positivity
    calc qval (emul (normalize11 (emul (normalize11 ⟨s, 0⟩) ⟨w, eps⟩)) ⟨W, E⟩)
    ≤ qval (normalize11 (emul (normalize11 ⟨s, 0⟩) ⟨w, eps⟩)) * qval ⟨W, E⟩ +
        (2 : ℚ) ^
          ((normalize11 (emul (normalize11 ⟨s, 0⟩) ⟨w, eps⟩)).exponent + E + 63) :=
          emul_qval_le _ _ hqM hW
    _ ≤ qval (normalize11 (emul (normalize11 ⟨s, 0⟩) ⟨w, eps⟩)) *
          ((W : ℚ) * (2 : ℚ) ^ E) +
        qval (normalize11 (emul (normalize11 ⟨s, 0⟩) ⟨w, eps⟩)) * (2 : ℚ) ^ E := by
          rw [hsplit]
          exact add_le_add_left hstep _
    _ = qval (normalize11 (emul (normalize11 ⟨s, 0⟩) ⟨w, eps⟩)) *
          (((W : ℚ) + 1) * (2 : ℚ) ^ E) := by ring
    _ ≤ (s : ℚ) * ((w : ℚ) + 1) * (2 : ℚ) ^ eps *
          (((W : ℚ) + 1) * (2 : ℚ) ^ E) := by
          apply mul_le_mul_of_nonneg_right hV1'
          positivity
    _ = (s : ℚ) * ((w : ℚ) + 1) * ((W : ℚ) + 1) * (2 : ℚ) ^ (eps + E) := by
          rw [zpow_add₀ (two_ne_zero)]
          ring
  have hnat : s * (w + 1) * (W + 1) * 2 ^ 1075 < 2 ^ k := by
    have h1 : s * ((w + 1) * ((W + 1) * 2 ^ 1075)) <
        S * ((w + 1) * ((W + 1) * 2 ^ 1075)) :=
      (Nat.mul_lt_mul_right (by positivity)).mpr hsS
    calc s * (w + 1) * (W + 1) * 2 ^ 1075
    = s * ((w + 1) * ((W + 1) * 2 ^ 1075)) := by ring
    _ < S * ((w + 1) * ((W + 1) * 2 ^ 1075)) := h1
    _ = S * (w + 1) * (W + 1) * 2 ^ 1075 := by ring
    _ ≤ 2 ^ k := hkey
  have hfin : (s : ℚ) * ((w : ℚ) + 1) * ((W : ℚ) + 1) * (2 : ℚ) ^ (eps + E) <
      (2 : ℚ) ^ (-1075 : Int) := by
    rw [hE]
    have hq : ((s * (w + 1) * (W + 1) * 2 ^ 1075 : Nat) : ℚ) <
        ((2 ^ k : Nat) : ℚ) := by
      exact_mod_cast hnat
    push_cast at hq
    have h2k : (0 : ℚ) < (2 : ℚ) ^ (k : Nat) := by positivity
    have h75 : (0 : ℚ) < (2 : ℚ) ^ (1075 : Nat) := by positivity
    rw [zpow_neg, zpow_natCast]
    rw [show ((-1075 : Int)) = -((1075 : Nat) : Int) from by norm_num, zpow_neg,
      zpow_natCast]
    rw [← div_eq_mul_inv, ← one_div, div_lt_div_iff₀ h2k h75, one_mul]
    linarith [hq]
  exact asDouble_eq_zero _ (emul_mantissa_lt _ _) (lt_of_le_of_lt hq2 hfin)

/-- One slow-path multiply against a cache entry `⟨W, k⟩` overflows to
infinity whenever `2 ^ (1025 - k) ≤ Smin * (W - 2)` for `Smin ≤ s`. -/
theorem infSingle (Smin W : Nat) (E : Int) (k : Nat)
    (hSmin : 0 < Smin) (hW2 : 2 ≤ W) (hW : W < M64) (hE : E = (k : Int))
    (hkey : 2 ^ 1025 ≤ Smin * (W - 2) * 2 ^ k) :
    ∀ s : Nat, Smin ≤ s → s < M64 →
      asDouble (emul (normalize11 ⟨s, 0⟩) ⟨W, E⟩) = infBits := by
  intro s hsmin hsM
  have hs : 0 < s := lt_of_lt_of_le hSmin hsmin
  obtain ⟨hp63, hpM, _⟩ := normalize11_spec s 0 hs hsM
  have hps : qval (normalize11 ⟨s, 0⟩) = (s : ℚ) := qval_norm_base s hs hsM
  have hperr : (2 : ℚ) ^ ((normalize11 ⟨s, 0⟩).exponent + 63) ≤ (s : ℚ) := by
    rw [← hps]
    exact qval_norm_lb _ hp63
  have hEpos : (0 : ℚ) < (2 : ℚ) ^ E := zpow_pos (by norm_num) _
  have hq2 : (s : ℚ) * ((W : ℚ) - 2) * (2 : ℚ) ^ E ≤
      qval (emul (normalize11 ⟨s, 0⟩) ⟨W, E⟩) := by
    have hsplit : (2 : ℚ) ^ ((normalize11 ⟨s, 0⟩).exponent + E + 64) =
        (2 : ℚ) ^ ((normalize11 ⟨s, 0⟩).exponent + 63) * ((2 : ℚ) ^ E * 2) := by
      rw [show (normalize11 ⟨s, 0⟩).exponent + E + 64 =
        ((normalize11 ⟨s, 0⟩).exponent + 63) + (E + 1) from by ring]
      rw [zpow_add₀ (two_ne_zero), zpow_add_one₀ (two_ne_zero)]
    have hstep : (2 : ℚ) ^ ((normalize11 ⟨s, 0⟩).exponent + E + 64) ≤
        (s : ℚ) * ((2 : ℚ) ^ E * 2) := by
      rw [hsplit]
      exact mul_le_mul_of_nonneg_right hperr (by positivity)
    calc (s : ℚ) * ((W : ℚ) - 2) * (2 : ℚ) ^ E
    = (s : ℚ) * ((W : ℚ) * (2 : ℚ) ^ E) - (s : ℚ) * ((2 : ℚ) ^ E * 2) := by ring
    _ ≤ (s : ℚ) * ((W : ℚ) * (2 : ℚ) ^ E) -
        (2 : ℚ) ^ ((normalize11 ⟨s, 0⟩).exponent + E + 64) :=
          sub_le_sub_left hstep _
    _ = qval (normalize11 ⟨s, 0⟩) * qval ⟨W, E⟩ -
        (2 : ℚ) ^ ((normalize11 ⟨s, 0⟩).exponent + E + 64) := by
          rw [hps]
          rfl
    _ ≤ qval (emul (normalize11 ⟨s, 0⟩) ⟨W, E⟩) := emul_qval_ge _ _ hpM hW
  have hfin : (2 : ℚ) ^ (1025 : Int) ≤ (s : ℚ) * ((W : ℚ) - 2) * (2 : ℚ) ^ E := by
    rw [hE]
    have hq : ((2 ^ 1025 : Nat) : ℚ) ≤ ((Smin * (W - 2) * 2 ^ k : Nat) : ℚ) := by
      exact_mod_cast hkey
    push_cast [Nat.cast_sub hW2] at hq
    have hmono : (Smin : ℚ) * ((W : ℚ) - 2) * (2 : ℚ) ^ (k : Nat) ≤
        (s : ℚ) * ((W : ℚ) - 2) * (2 : ℚ) ^ (k : Nat) := by
      have hW2q : (0 : ℚ) ≤ (W : ℚ) - 2 := by
        have : (2 : ℚ) ≤ (W : ℚ) := by exact_mod_cast hW2
        linarith
      have hsq : (Smin : ℚ) ≤ (s : ℚ) := by exact_mod_cast hsmin
      apply mul_le_mul_of_nonneg_right _ (by positivity)
      exact mul_le_mul_of_nonneg_right hsq hW2q
    rw [show ((1025 : Int)) = ((1025 : Nat) : Int) from rfl, zpow_natCast,
      zpow_natCast]
    linarith [hq, hmono]
  exact asDouble_eq_inf _ (emul_mantissa_lt _ _) (le_trans hfin hq2)

/-- Two slow-path multiplies overflow to infinity whenever
`2 ^ (1025 - k) ≤ Smin * (w - 2) * (W - 2)` for `Smin ≤ s`. -/
theorem infDouble (Smin w W : Nat) (eps E : Int) (k : Nat)
    (hSmin : 0 < Smin) (hw63 : 2 ^ 63 ≤ w) (hw : w < M64)
    (hW2 : 2 ≤ W) (hW : W < M64) (hE : eps + E = (k : Int))
    (hkey : 2 ^ 1025 ≤ Smin * (w - 2) * (W - 2) * 2 ^ k) :
    ∀ s : Nat, Smin ≤ s → s < M64 →
      asDouble (emul (normalize11 (emul (normalize11 ⟨s, 0⟩) ⟨w, eps⟩))
        ⟨W, E⟩) = infBits := by
  intro s hsmin hsM
  have hs : 0 < s := lt_of_lt_of_le hSmin hsmin
  obtain ⟨hp63, hpM, _⟩ := normalize11_spec s 0 hs hsM
  have hps : qval (normalize11 ⟨s, 0⟩) = (s : ℚ) := qval_norm_base s hs hsM
  have hperr : (2 : ℚ) ^ ((normalize11 ⟨s, 0⟩).exponent + 63) ≤ (s : ℚ) := by
    rw [← hps]
    exact qval_norm_lb _ hp63
  have hepos : (0 : ℚ) < (2 : ℚ) ^ eps := zpow_pos (by norm_num) _
  have hEpos : (0 : ℚ) < (2 : ℚ) ^ E := zpow_pos (by norm_num) _
  have hw2q : (0 : ℚ) ≤ (w : ℚ) - 2 := by
    have h2w : (2 : Nat) ≤ w := le_trans (by norm_num) hw63
    have : (2 : ℚ) ≤ (w : ℚ) := by exact_mod_cast h2w
    linarith
  have hV1 : (s : ℚ) * ((w : ℚ) - 2) * (2 : ℚ) ^ eps ≤
      qval (emul (normalize11 ⟨s, 0⟩) ⟨w, eps⟩) := by
    have hsplit : (2 : ℚ) ^ ((normalize11 ⟨s, 0⟩).exponent + eps + 64) =
        (2 : ℚ) ^ ((normalize11 ⟨s, 0⟩).exponent + 63) * ((2 : ℚ) ^ eps * 2) := by
      rw [show (normalize11 ⟨s, 0⟩).exponent + eps + 64 =
        ((normalize11 ⟨s, 0⟩).exponent + 63) + (eps + 1) from by ring]
      rw [zpow_add₀ (two_ne_zero), zpow_add_one₀ (two_ne_zero)]
    have hstep : (2 : ℚ) ^ ((normalize11 ⟨s, 0⟩).exponent + eps + 64) ≤
        (s : ℚ) * ((2 : ℚ) ^ eps * 2) := by
      rw [hsplit]
      exact mul_le_mul_of_nonneg_right hperr (by positivity)
    calc (s : ℚ) * ((w : ℚ) - 2) * (2 : ℚ) ^ eps
    = (s : ℚ) * ((w : ℚ) * (2 : ℚ) ^ eps) - (s : ℚ) * ((2 : ℚ) ^ eps * 2) := by
          ring
    _ ≤ (s : ℚ) * ((w : ℚ) * (2 : ℚ) ^ eps) -
        (2 : ℚ) ^ ((normalize11 ⟨s, 0⟩).exponent + eps + 64) :=
          sub_le_sub_left hstep _
    _ = qval (normalize11 ⟨s, 0⟩) * qval ⟨w, eps⟩ -
        (2 : ℚ) ^ ((normalize11 ⟨s, 0⟩).exponent + eps + 64) := by
          rw [hps]
          rfl
    _ ≤ qval (emul (normalize11 ⟨s, 0⟩) ⟨w, eps⟩) := emul_qval_ge _ _ hpM hw
  have hm1 : (emul (normalize11 ⟨s, 0⟩) ⟨w, eps⟩).mantissa < M64 :=
    emul_mantissa_lt _ _
  have hm1pos : 0 < (emul (normalize11 ⟨s, 0⟩) ⟨w, eps⟩).mantissa := by
    rw [emul_eq _ _ hpM hw]
    show 0 < ((normalize11 ⟨s, 0⟩).mantissa * w + 2 ^ 63) / 2 ^ 64
    have hprod : 2 ^ 63 * 2 ^ 63 ≤ (normalize11 ⟨s, 0⟩).mantissa * w :=
      Nat.mul_le_mul hp63 hw63
    have : (2 : Nat) ^ 126 / 2 ^ 64 ≤
        ((normalize11 ⟨s, 0⟩).mantissa * w + 2 ^ 63) / 2 ^ 64 := by
      apply Nat.div_le_div_right
      calc (2 : Nat) ^ 126 = 2 ^ 63 * 2 ^ 63 := by norm_num
      _ ≤ (normalize11 ⟨s, 0⟩).mantissa * w := hprod
      _ ≤ _ := Nat.le_add_right _ _
    omega
  obtain ⟨hq63, hqM, hqval⟩ := normalize11_spec
    (emul (normalize11 ⟨s, 0⟩) ⟨w, eps⟩).mantissa
    (emul (normalize11 ⟨s, 0⟩) ⟨w, eps⟩).exponent hm1pos hm1
  have hqval' : qval (normalize11 (emul (normalize11 ⟨s, 0⟩) ⟨w, eps⟩)) =
      qval (emul (normalize11 ⟨s, 0⟩) ⟨w, eps⟩) := hqval
  have hV1' : (s : ℚ) * ((w : ℚ) - 2) * (2 : ℚ) ^ eps ≤
      qval (normalize11 (emul (normalize11 ⟨s, 0⟩) ⟨w, eps⟩)) := by
    rw [hqval']
    exact hV1
  have hmerr : (2 : ℚ) ^
      ((normalize11 (emul (normalize11 ⟨s, 0⟩) ⟨w, eps⟩)).exponent + 63) ≤
      qval (normalize11 (emul (normalize11 ⟨s, 0⟩) ⟨w, eps⟩)) :=
    qval_norm_lb _ hq63
  have hVpos : (0 : ℚ) ≤ qval (normalize11 (emul (normalize11 ⟨s, 0⟩) ⟨w, eps⟩)) :=
    le_trans (le_of_lt (zpow_pos (by norm_num) _)) hmerr
  have hq2 : qval (normalize11 (emul (normalize11 ⟨s, 0⟩) ⟨w, eps⟩)) *
      (((W : ℚ) - 2) * (2 : ℚ) ^ E) ≤
      qval (emul (normalize11 (emul (normalize11 ⟨s, 0⟩) ⟨w, eps⟩)) ⟨W, E⟩) := by
    have hsplit : (2 : ℚ) ^
        ((normalize11 (emul (normalize11 ⟨s, 0⟩) ⟨w, eps⟩)).exponent + E + 64) =
        (2 : ℚ) ^
          ((normalize11 (emul (normalize11 ⟨s, 0⟩) ⟨w, eps⟩)).exponent + 63) *
          ((2 : ℚ) ^ E * 2) := by
      rw [show (normalize11 (emul (normalize11 ⟨s, 0⟩) ⟨w, eps⟩)).exponent + E + 64 =
        ((normalize11 (emul (normalize11 ⟨s, 0⟩) ⟨w, eps⟩)).exponent + 63) + (E + 1)
        from by ring]
      rw [zpow_add₀ (two_ne_zero), zpow_add_one₀ (two_ne_zero)]
    have hstep : (2 : ℚ) ^
        ((normalize11 (emul (normalize11 ⟨s, 0⟩) ⟨w, eps⟩)).exponent + E + 64) ≤
        qval (normalize11 (emul (normalize11 ⟨s, 0⟩) ⟨w, eps⟩)) *
          ((2 : ℚ) ^ E * 2) := by
      rw [hsplit]
      exact mul_le_mul_of_nonneg_right hmerr (by positivity)
    calc qval (normalize11 (emul (normalize11 ⟨s, 0⟩) ⟨w, eps⟩)) *
        (((W : ℚ) - 2) * (2 : ℚ) ^ E)
    = qval (normalize11 (emul (normalize11 ⟨s, 0⟩) ⟨w, eps⟩)) *
          ((W : ℚ) * (2 : ℚ) ^ E) -
        qval (normalize11 (emul (normalize11 ⟨s, 0⟩) ⟨w, eps⟩)) *
          ((2 : ℚ) ^ E * 2) := by ring
    _ ≤ qval (normalize11 (emul (normalize11 ⟨s, 0⟩) ⟨w, eps⟩)) *
          ((W : ℚ) * (2 : ℚ) ^ E) -
        (2 : ℚ) ^
          ((normalize11 (emul (normalize11 ⟨s, 0⟩) ⟨w, eps⟩)).exponent + E + 64) :=
          sub_le_sub_left hstep _
    _ = qval (normalize11 (emul (normalize11 ⟨s, 0⟩) ⟨w, eps⟩)) * qval ⟨W, E⟩ -
        (2 : ℚ) ^
          ((normalize11 (emul (normalize11 ⟨s, 0⟩) ⟨w, eps⟩)).exponent + E + 64) :=
          rfl
    _ ≤ qval (emul (normalize11 (emul (normalize11 ⟨s, 0⟩) ⟨w, eps⟩)) ⟨W, E⟩) :=
          emul_qval_ge _ _ hqM hW
  have hW2q : (0 : ℚ) ≤ (W : ℚ) - 2 := by
    have : (2 : ℚ) ≤ (W : ℚ) := by exact_mod_cast hW2
    linarith
  have hchain : (s : ℚ) * ((w : ℚ) - 2) * (2 : ℚ) ^ eps *
      (((W : ℚ) - 2) * (2 : ℚ) ^ E) ≤
      qval (emul (normalize11 (emul (normalize11 ⟨s, 0⟩) ⟨w, eps⟩)) ⟨W, E⟩) :=
    le_trans (mul_le_mul_of_nonneg_right hV1' (by positivity)) hq2
  have hfin : (2 : ℚ) ^ (1025 : Int) ≤ (s : ℚ) * ((w : ℚ) - 2) * (2 : ℚ) ^ eps *
      (((W : ℚ) - 2) * (2 : ℚ) ^ E) := by
    have hq : ((2 ^ 1025 : Nat) : ℚ) ≤
        ((Smin * (w - 2) * (W - 2) * 2 ^ k : Nat) : ℚ) := by
      exact_mod_cast hkey
    have h2w : (2 : Nat) ≤ w := le_trans (by norm_num) hw63
    push_cast [Nat.cast_sub h2w, Nat.cast_sub hW2] at hq
    have hsq : (Smin : ℚ) ≤ (s : ℚ) := by exact_mod_cast hsmin
    have hepsE : (2 : ℚ) ^ eps * (2 : ℚ) ^ E = (2 : ℚ) ^ (k : Nat) := by
      rw [← zpow_add₀ (two_ne_zero), hE, zpow_natCast]
    have hmono : (Smin : ℚ) * ((w : ℚ) - 2) * ((W : ℚ) - 2) * (2 : ℚ) ^ (k : Nat) ≤
        (s : ℚ) * ((w : ℚ) - 2) * ((W : ℚ) - 2) * (2 : ℚ) ^ (k : Nat) := by
      apply mul_le_mul_of_nonneg_right _ (by positivity)
      apply mul_le_mul_of_nonneg_right _ hW2q
      exact mul_le_mul_of_nonneg_right hsq hw2q
    have hshape : (s : ℚ) * ((w : ℚ) - 2) * ((W : ℚ) - 2) * (2 : ℚ) ^ (k : Nat) =
        (s : ℚ) * ((w : ℚ) - 2) * (2 : ℚ) ^ eps *
          (((W : ℚ) - 2) * (2 : ℚ) ^ E) := by
      rw [← hepsE]
      ring
    rw [show ((1025 : Int)) = ((1025 : Nat) : Int) from rfl, zpow_natCast,
      ← hshape]
    linarith [hq, hmono]
  exact asDouble_eq_inf _ (emul_mantissa_lt _ _) (le_trans hfin hchain)

/-- Slow path of `raiseToPowTen` with a negative short index: one multiply
against the cache entry. -/
theorem raiseToPow_slow_single (s : Nat) (e : Int)
    (hfast : ¬ (e.natAbs ≤ 22 ∧ (s ≤ 2 ^ 53 ∨ s &&& 0xFFF = 0)))
    (h0 : ¬ e = 0)
    (hidx : ¬ ((e + 348).tdiv 8 < 0 ∨ 87 ≤ (e + 348).tdiv 8))
    (hshort : (e + 348).tmod 8 - 1 < 0) :
    raiseToPowTen s e = asDouble (emul (normalize11 ⟨s, 0⟩)
      (List.getD powerCache ((e + 348).tdiv 8).toNat ⟨0, 0⟩)) := by
  simp only [raiseToPowTen]
  rw [if_neg hfast, if_neg h0, if_neg hidx, if_pos hshort]

/-- Slow path of `raiseToPowTen` with a nonnegative short index: a multiply
against the small power cache, renormalization, then the cache entry. -/
theorem raiseToPow_slow_double (s : Nat) (e : Int)
    (hfast : ¬ (e.natAbs ≤ 22 ∧ (s ≤ 2 ^ 53 ∨ s &&& 0xFFF = 0)))
    (h0 : ¬ e = 0)
    (hidx : ¬ ((e + 348).tdiv 8 < 0 ∨ 87 ≤ (e + 348).tdiv 8))
    (hshort : ¬ ((e + 348).tmod 8 - 1 < 0)) :
    raiseToPowTen s e = asDouble (emul (normalize11 (emul (normalize11 ⟨s, 0⟩)
      (List.getD smallPowerCache ((e + 348).tmod 8 - 1).toNat ⟨0, 0⟩)))
      (List.getD powerCache ((e + 348).tdiv 8).toNat ⟨0, 0⟩)) := by
  simp only [raiseToPowTen]
  rw [if_neg hfast, if_neg h0, if_neg hidx, if_neg hshort]

/-- Core of the amended C4 zero clause: for every slow-path exponent in
`[-355, -325]` and every 64-bit significand small enough that the denoted
value is below every representable double, the result is `+0.0`. -/
theorem zero_core : ∀ e : Int, -355 ≤ e → e ≤ -325 → ∀ s : Nat,
    0 < s → s < M64 → s < 10 ^ ((-324 - e).toNat) → raiseToPowTen s e = 0 := by
  intro e he1 he2 s hs hsM hsP
  interval_cases e
  · rw [raiseToPow_slow_single s (-355) (by rintro ⟨h1, h2⟩; exact absurd h1 (by decide))
      (by decide) (by decide) (by decide)]
    exact zeroSingle M64 0xfa8fd5a0081c0288 (-1220) 1220 (le_refl M64) (by decide)
      (by decide) (by decide) s hs hsM
  · rw [raiseToPow_slow_single s (-354) (by rintro ⟨h1, h2⟩; exact absurd h1 (by decide))
      (by decide) (by decide) (by decide)]
    exact zeroSingle M64 0xfa8fd5a0081c0288 (-1220) 1220 (le_refl M64) (by decide)
      (by decide) (by decide) s hs hsM
  · rw [raiseToPow_slow_single s (-353) (by rintro ⟨h1, h2⟩; exact absurd h1 (by decide))
      (by decide) (by decide) (by decide)]
    exact zeroSingle M64 0xfa8fd5a0081c0288 (-1220) 1220 (le_refl M64) (by decide)
      (by decide) (by decide) s hs hsM
  · rw [raiseToPow_slow_single s (-352) (by rintro ⟨h1, h2⟩; exact absurd h1 (by decide))
      (by decide) (by decide) (by decide)]
    exact zeroSingle M64 0xfa8fd5a0081c0288 (-1220) 1220 (le_refl M64) (by decide)
      (by decide) (by decide) s hs hsM
  · rw [raiseToPow_slow_single s (-351) (by rintro ⟨h1, h2⟩; exact absurd h1 (by decide))
      (by decide) (by decide) (by decide)]
    exact zeroSingle M64 0xfa8fd5a0081c0288 (-1220) 1220 (le_refl M64) (by decide)
      (by decide) (by decide) s hs hsM
  · rw [raiseToPow_slow_single s (-350) (by rintro ⟨h1, h2⟩; exact absurd h1 (by decide))
      (by decide) (by decide) (by decide)]
    exact zeroSingle M64 0xfa8fd5a0081c0288 (-1220) 1220 (le_refl M64) (by decide)
      (by decide) (by decide) s hs hsM
  · rw [raiseToPow_slow_single s (-349) (by rintro ⟨h1, h2⟩; exact absurd h1 (by decide))
      (by decide) (by decide) (by decide)]
    exact zeroSingle M64 0xfa8fd5a0081c0288 (-1220) 1220 (le_refl M64) (by decide)
      (by decide) (by decide) s hs hsM
  · rw [raiseToPow_slow_single s (-348) (by rintro ⟨h1, h2⟩; exact absurd h1 (by decide))
      (by decide) (by decide) (by decide)]
    exact zeroSingle M64 0xfa8fd5a0081c0288 (-1220) 1220 (le_refl M64) (by decide)
      (by decide) (by decide) s hs hsM
  · rw [raiseToPow_slow_double s (-347) (by rintro ⟨h1, h2⟩; exact absurd h1 (by decide))
      (by decide) (by decide) (by decide)]
    exact zeroDouble M64 0xa000000000000000 0xfa8fd5a0081c0288 (-60) (-1220) 1280 (le_refl M64)
      (by decide) (by decide) (by decide) (by decide) (by decide) s hs hsM
  · rw [raiseToPow_slow_double s (-346) (by rintro ⟨h1, h2⟩; exact absurd h1 (by decide))
      (by decide) (by decide) (by decide)]
    exact zeroDouble M64 0xc800000000000000 0xfa8fd5a0081c0288 (-57) (-1220) 1277 (le_refl M64)
      (by decide) (by decide) (by decide) (by decide) (by decide) s hs hsM
  · rw [raiseToPow_slow_double s (-345) (by rintro ⟨h1, h2⟩; exact absurd h1 (by decide))
      (by decide) (by decide) (by decide)]
    exact zeroDouble M64 0xfa00000000000000 0xfa8fd5a0081c0288 (-54) (-1220) 1274 (le_refl M64)
      (by decide) (by decide) (by decide) (by decide) (by decide) s hs hsM
  · rw [raiseToPow_slow_double s (-344) (by rintro ⟨h1, h2⟩; exact absurd h1 (by decide))
      (by decide) (by decide) (by decide)]
    exact zeroDouble M64 0x9c40000000000000 0xfa8fd5a0081c0288 (-50) (-1220) 1270 (le_refl M64)
      (by decide) (by decide) (by decide) (by decide) (by decide) s hs hsM
  · rw [raiseToPow_slow_double s (-343) (by rintro ⟨h1, h2⟩; exact absurd h1 (by decide))
      (by decide) (by decide) (by decide)]
    exact zeroDouble (10 ^ 19) 0xc350000000000000 0xfa8fd5a0081c0288 (-47) (-1220) 1267 (by decide)
      (by decide) (by decide) (by decide) (by decide) (by decide) s hs hsP
  · rw [raiseToPow_slow_double s (-342) (by rintro ⟨h1, h2⟩; exact absurd h1 (by decide))
      (by decide) (by decide) (by decide)]
    exact zeroDouble (10 ^ 18) 0xf424000000000000 0xfa8fd5a0081c0288 (-44) (-1220) 1264 (by decide)
      (by decide) (by decide) (by decide) (by decide) (by decide) s hs hsP
  · rw [raiseToPow_slow_double s (-341) (by rintro ⟨h1, h2⟩; exact absurd h1 (by decide))
      (by decide) (by decide) (by decide)]
    exact zeroDouble (10 ^ 17) 0x9896800000000000 0xfa8fd5a0081c0288 (-40) (-1220) 1260 (by decide)
      (by decide) (by decide) (by decide) (by decide) (by decide) s hs hsP
  · rw [raiseToPow_slow_single s (-340) (by rintro ⟨h1, h2⟩; exact absurd h1 (by decide))
      (by decide) (by decide) (by decide)]
    exact zeroSingle (10 ^ 16) 0xbaaee17fa23ebf76 (-1193) 1193 (by decide) (by decide)
      (by decide) (by decide) s hs hsP
  · rw [raiseToPow_slow_double s (-339) (by rintro ⟨h1, h2⟩; exact absurd h1 (by decide))
      (by decide) (by decide) (by decide)]
    exact zeroDouble (10 ^ 15) 0xa000000000000000 0xbaaee17fa23ebf76 (-60) (-1193) 1253 (by decide)
      (by decide) (by decide) (by decide) (by decide) (by decide) s hs hsP
  · rw [raiseToPow_slow_double s (-338) (by rintro ⟨h1, h2⟩; exact absurd h1 (by decide))
      (by decide) (by decide) (by decide)]
    exact zeroDouble (10 ^ 14) 0xc800000000000000 0xbaaee17fa23ebf76 (-57) (-1193) 1250 (by decide)
      (by decide) (by decide) (by decide) (by decide) (by decide) s hs hsP
  · rw [raiseToPow_slow_double s (-337) (by rintro ⟨h1, h2⟩; exact absurd h1 (by decide))
      (by decide) (by decide) (by decide)]
    exact zeroDouble (10 ^ 13) 0xfa00000000000000 0xbaaee17fa23ebf76 (-54) (-1193) 1247 (by decide)
      (by decide) (by decide) (by decide) (by decide) (by decide) s hs hsP
  · rw [raiseToPow_slow_double s (-336) (by rintro ⟨h1, h2⟩; exact absurd h1 (by decide))
      (by decide) (by decide) (by decide)]
    exact zeroDouble (10 ^ 12) 0x9c40000000000000 0xbaaee17fa23ebf76 (-50) (-1193) 1243 (by decide)
      (by decide) (by decide) (by decide) (by decide) (by decide) s hs hsP
  · rw [raiseToPow_slow_double s (-335) (by rintro ⟨h1, h2⟩; exact absurd h1 (by decide))
      (by decide) (by decide) (by decide)]
    exact zeroDouble (10 ^ 11) 0xc350000000000000 0xbaaee17fa23ebf76 (-47) (-1193) 1240 (by decide)
      (by decide) (by decide) (by decide) (by decide) (by decide) s hs hsP
  · rw [raiseToPow_slow_double s (-334) (by rintro ⟨h1, h2⟩; exact absurd h1 (by decide))
      (by decide) (by decide) (by decide)]
    exact zeroDouble (10 ^ 10) 0xf424000000000000 0xbaaee17fa23ebf76 (-44) (-1193) 1237 (by decide)
      (by decide) (by decide) (by decide) (by decide) (by decide) s hs hsP
  · rw [raiseToPow_slow_double s (-333) (by rintro ⟨h1, h2⟩; exact absurd h1 (by decide))
      (by decide) (by decide) (by decide)]
    exact zeroDouble (10 ^ 9) 0x9896800000000000 0xbaaee17fa23ebf76 (-40) (-1193) 1233 (by decide)
      (by decide) (by decide) (by decide) (by decide) (by decide) s hs hsP
  · rw [raiseToPow_slow_single s (-332) (by rintro ⟨h1, h2⟩; exact absurd h1 (by decide))
      (by decide) (by decide) (by decide)]
    exact zeroSingle (10 ^ 8) 0x8b16fb203055ac76 (-1166) 1166 (by decide) (by decide)
      (by decide) (by decide) s hs hsP
  · rw [raiseToPow_slow_double s (-331) (by rintro ⟨h1, h2⟩; exact absurd h1 (by decide))
      (by decide) (by decide) (by decide)]
    exact zeroDouble (10 ^ 7) 0xa000000000000000 0x8b16fb203055ac76 (-60) (-1166) 1226 (by decide)
      (by decide) (by decide) (by decide) (by decide) (by decide) s hs hsP
  · rw [raiseToPow_slow_double s (-330) (by rintro ⟨h1, h2⟩; exact absurd h1 (by decide))
      (by decide) (by decide) (by decide)]
    exact zeroDouble (10 ^ 6) 0xc800000000000000 0x8b16fb203055ac76 (-57) (-1166) 1223 (by decide)
      (by decide) (by decide) (by decide) (by decide) (by decide) s hs hsP
  · rw [raiseToPow_slow_double s (-329) (by rintro ⟨h1, h2⟩; exact absurd h1 (by decide))
      (by decide) (by decide) (by decide)]
    exact zeroDouble (10 ^ 5) 0xfa00000000000000 0x8b16fb203055ac76 (-54) (-1166) 1220 (by decide)
      (by decide) (by decide) (by decide) (by decide) (by decide) s hs hsP
  · rw [raiseToPow_slow_double s (-328) (by rintro ⟨h1, h2⟩; exact absurd h1 (by decide))
      (by decide) (by decide) (by decide)]
    exact zeroDouble (10 ^ 4) 0x9c40000000000000 0x8b16fb203055ac76 (-50) (-1166) 1216 (by decide)
      (by decide) (by decide) (by decide) (by decide) (by decide) s hs hsP
  · rw [raiseToPow_slow_double s (-327) (by rintro ⟨h1, h2⟩; exact absurd h1 (by decide))
      (by decide) (by decide) (by decide)]
    exact zeroDouble (10 ^ 3) 0xc350000000000000 0x8b16fb203055ac76 (-47) (-1166) 1213 (by decide)
      (by decide) (by decide) (by decide) (by decide) (by decide) s hs hsP
  · rw [raiseToPow_slow_double s (-326) (by rintro ⟨h1, h2⟩; exact absurd h1 (by decide))
      (by decide) (by decide) (by decide)]
    exact zeroDouble (10 ^ 2) 0xf424000000000000 0x8b16fb203055ac76 (-44) (-1166) 1210 (by decide)
      (by decide) (by decide) (by decide) (by decide) (by decide) s hs hsP
  · rw [raiseToPow_slow_double s (-325) (by rintro ⟨h1, h2⟩; exact absurd h1 (by decide))
      (by decide) (by decide) (by decide)]
    exact zeroDouble (10 ^ 1) 0x9896800000000000 0x8b16fb203055ac76 (-40) (-1166) 1206 (by decide)
      (by decide) (by decide) (by decide) (by decide) (by decide) s hs hsP

/-- Core of the amended C4 infinity clause: for every slow-path exponent in
`[290, 347]` and every 64-bit significand large enough that the denoted
value is at least `10^309`, the result is `+∞`. -/
theorem inf_core : ∀ e : Int, 290 ≤ e → e ≤ 347 → ∀ s : Nat,
    10 ^ ((309 - e).toNat) ≤ s → s < M64 → raiseToPowTen s e = infBits := by
  intro e he1 he2 s hsmin hsM
  interval_cases e
  · rw [raiseToPow_slow_double s (290) (by rintro ⟨h1, h2⟩; exact absurd h1 (by decide))
      (by decide) (by decide) (by decide)]
    exact infDouble (10 ^ 19) 0xf424000000000000 0xac2820d9623bf429 (-44) (880) 836 (by decide)
      (by decide) (by decide) (by decide) (by decide) (by decide) (by decide) s hsmin hsM
  · rw [raiseToPow_slow_double s (291) (by rintro ⟨h1, h2⟩; exact absurd h1 (by decide))
      (by decide) (by decide) (by decide)]
    exact infDouble (10 ^ 18) 0x9896800000000000 0xac2820d9623bf429 (-40) (880) 840 (by decide)
      (by decide) (by decide) (by decide) (by decide) (by decide) (by decide) s hsmin hsM
  · rw [raiseToPow_slow_single s (292) (by rintro ⟨h1, h2⟩; exact absurd h1 (by decide))
      (by decide) (by decide) (by decide)]
    exact infSingle (10 ^ 17) 0x80444b5e7aa7cf85 (907) 907 (by decide) (by decide)
      (by decide) (by decide) (by decide) s hsmin hsM
  · rw [raiseToPow_slow_double s (293) (by rintro ⟨h1, h2⟩; exact absurd h1 (by decide))
      (by decide) (by decide) (by decide)]
    exact infDouble (10 ^ 16) 0xa000000000000000 0x80444b5e7aa7cf85 (-60) (907) 847 (by decide)
      (by decide) (by decide) (by decide) (by decide) (by decide) (by decide) s hsmin hsM
  · rw [raiseToPow_slow_double s (294) (by rintro ⟨h1, h2⟩; exact absurd h1 (by decide))
      (by decide) (by decide) (by decide)]
    exact infDouble (10 ^ 15) 0xc800000000000000 0x80444b5e7aa7cf85 (-57) (907) 850 (by decide)
      (by decide) (by decide) (by decide) (by decide) (by decide) (by decide) s hsmin hsM
  · rw [raiseToPow_slow_double s (295) (by rintro ⟨h1, h2⟩; exact absurd h1 (by decide))
      (by decide) (by decide) (by decide)]
    exact infDouble (10 ^ 14) 0xfa00000000000000 0x80444b5e7aa7cf85 (-54) (907) 853 (by decide)
      (by decide) (by decide) (by decide) (by decide) (by decide) (by decide) s hsmin hsM
  · rw [raiseToPow_slow_double s (296) (by rintro ⟨h1, h2⟩; exact absurd h1 (by decide))
      (by decide) (by decide) (by decide)]
    exact infDouble (10 ^ 13) 0x9c40000000000000 0x80444b5e7aa7cf85 (-50) (907) 857 (by decide)
      (by decide) (by decide) (by decide) (by decide) (by decide) (by decide) s hsmin hsM
  · rw [raiseToPow_slow_double s (297) (by rintro ⟨h1, h2⟩; exact absurd h1 (by decide))
      (by decide) (by decide) (by decide)]
    exact infDouble (10 ^ 12) 0xc350000000000000 0x80444b5e7aa7cf85 (-47) (907) 860 (by decide)
      (by decide) (by decide) (by decide) (by decide) (by decide) (by decide) s hsmin hsM
  · rw [raiseToPow_slow_double s (298) (by rintro ⟨h1, h2⟩; exact absurd h1 (by decide))
      (by decide) (by decide) (by decide)]
    exact infDouble (10 ^ 11) 0xf424000000000000 0x80444b5e7aa7cf85 (-44) (907) 863 (by decide)
      (by decide) (by decide) (by decide) (by decide) (by decide) (by decide) s hsmin hsM
  · rw [raiseToPow_slow_double s (299) (by rintro ⟨h1, h2⟩; exact absurd h1 (by decide))
      (by decide) (by decide) (by decide)]
    exact infDouble (10 ^ 10) 0x9896800000000000 0x80444b5e7aa7cf85 (-40) (907) 867 (by decide)
      (by decide) (by decide) (by decide) (by decide) (by decide) (by decide) s hsmin hsM
  · rw [raiseToPow_slow_single s (300) (by rintro ⟨h1, h2⟩; exact absurd h1 (by decide))
      (by decide) (by decide) (by decide)]
    exact infSingle (10 ^ 9) 0xbf21e44003acdd2d (933) 933 (by decide) (by decide)
      (by decide) (by decide) (by decide) s hsmin hsM
  · rw [raiseToPow_slow_double s (301) (by rintro ⟨h1, h2⟩; exact absurd h1 (by decide))
      (by decide) (by decide) (by decide)]
    exact infDouble (10 ^ 8) 0xa000000000000000 0xbf21e44003acdd2d (-60) (933) 873 (by decide)
      (by decide) (by decide) (by decide) (by decide) (by decide) (by decide) s hsmin hsM
  · rw [raiseToPow_slow_double s (302) (by rintro ⟨h1, h2⟩; exact absurd h1 (by decide))
      (by decide) (by decide) (by decide)]
    exact infDouble (10 ^ 7) 0xc800000000000000 0xbf21e44003acdd2d (-57) (933) 876 (by decide)
      (by decide) (by decide) (by decide) (by decide) (by decide) (by decide) s hsmin hsM
  · rw [raiseToPow_slow_double s (303) (by rintro ⟨h1, h2⟩; exact absurd h1 (by decide))
      (by decide) (by decide) (by decide)]
    exact infDouble (10 ^ 6) 0xfa00000000000000 0xbf21e44003acdd2d (-54) (933) 879 (by decide)
      (by decide) (by decide) (by decide) (by decide) (by decide) (by decide) s hsmin hsM
  · rw [raiseToPow_slow_double s (304) (by rintro ⟨h1, h2⟩; exact absurd h1 (by decide))
      (by decide) (by decide) (by decide)]
    exact infDouble (10 ^ 5) 0x9c40000000000000 0xbf21e44003acdd2d (-50) (933) 883 (by decide)
      (by decide) (by decide) (by decide) (by decide) (by decide) (by decide) s hsmin hsM
  · rw [raiseToPow_slow_double s (305) (by rintro ⟨h1, h2⟩; exact absurd h1 (by decide))
      (by decide) (by decide) (by decide)]
    exact infDouble (10 ^ 4) 0xc350000000000000 0xbf21e44003acdd2d (-47) (933) 886 (by decide)
      (by decide) (by decide) (by decide) (by decide) (by decide) (by decide) s hsmin hsM
  · rw [raiseToPow_slow_double s (306) (by rintro ⟨h1, h2⟩; exact absurd h1 (by decide))
      (by decide) (by decide) (by decide)]
    exact infDouble (10 ^ 3) 0xf424000000000000 0xbf21e44003acdd2d (-44) (933) 889 (by decide)
      (by decide) (by decide) (by decide) (by decide) (by decide) (by decide) s hsmin hsM
  · rw [raiseToPow_slow_double s (307) (by rintro ⟨h1, h2⟩; exact absurd h1 (by decide))
      (by decide) (by decide) (by decide)]
    exact infDouble (10 ^ 2) 0x9896800000000000 0xbf21e44003acdd2d (-40) (933) 893 (by decide)
      (by decide) (by decide) (by decide) (by decide) (by decide) (by decide) s hsmin hsM
  · rw [raiseToPow_slow_single s (308) (by rintro ⟨h1, h2⟩; exact absurd h1 (by decide))
      (by decide) (by decide) (by decide)]
    exact infSingle (10 ^ 1) 0x8e679c2f5e44ff8f (960) 960 (by decide) (by decide)
      (by decide) (by decide) (by decide) s hsmin hsM
  · rw [raiseToPow_slow_double s (309) (by rintro ⟨h1, h2⟩; exact absurd h1 (by decide))
      (by decide) (by decide) (by decide)]
    exact infDouble (10 ^ 0) 0xa000000000000000 0x8e679c2f5e44ff8f (-60) (960) 900 (by decide)
      (by decide) (by decide) (by decide) (by decide) (by decide) (by decide) s hsmin hsM
  · rw [raiseToPow_slow_double s (310) (by rintro ⟨h1, h2⟩; exact absurd h1 (by decide))
      (by decide) (by decide) (by decide)]
    exact infDouble (10 ^ 0) 0xc800000000000000 0x8e679c2f5e44ff8f (-57) (960) 903 (by decide)
      (by decide) (by decide) (by decide) (by decide) (by decide) (by decide) s hsmin hsM
  · rw [raiseToPow_slow_double s (311) (by rintro ⟨h1, h2⟩; exact absurd h1 (by decide))
      (by decide) (by decide) (by decide)]
    exact infDouble (10 ^ 0) 0xfa00000000000000 0x8e679c2f5e44ff8f (-54) (960) 906 (by decide)
      (by decide) (by decide) (by decide) (by decide) (by decide) (by decide) s hsmin hsM
  · rw [raiseToPow_slow_double s (312) (by rintro ⟨h1, h2⟩; exact absurd h1 (by decide))
      (by decide) (by decide) (by decide)]
    exact infDouble (10 ^ 0) 0x9c40000000000000 0x8e679c2f5e44ff8f (-50) (960) 910 (by decide)
      (by decide) (by decide) (by decide) (by decide) (by decide) (by decide) s hsmin hsM
  · rw [raiseToPow_slow_double s (313) (by rintro ⟨h1, h2⟩; exact absurd h1 (by decide))
      (by decide) (by decide) (by decide)]
    exact infDouble (10 ^ 0) 0xc350000000000000 0x8e679c2f5e44ff8f (-47) (960) 913 (by decide)
      (by decide) (by decide) (by decide) (by decide) (by decide) (by decide) s hsmin hsM
  · rw [raiseToPow_slow_double s (314) (by rintro ⟨h1, h2⟩; exact absurd h1 (by decide))
      (by decide) (by decide) (by decide)]
    exact infDouble (10 ^ 0) 0xf424000000000000 0x8e679c2f5e44ff8f (-44) (960) 916 (by decide)
      (by decide) (by decide) (by decide) (by decide) (by decide) (by decide) s hsmin hsM
  · rw [raiseToPow_slow_double s (315) (by rintro ⟨h1, h2⟩; exact absurd h1 (by decide))
      (by decide) (by decide) (by decide)]
    exact infDouble (10 ^ 0) 0x9896800000000000 0x8e679c2f5e44ff8f (-40) (960) 920 (by decide)
      (by decide) (by decide) (by decide) (by decide) (by decide) (by decide) s hsmin hsM
  · rw [raiseToPow_slow_single s (316) (by rintro ⟨h1, h2⟩; exact absurd h1 (by decide))
      (by decide) (by decide) (by decide)]
    exact infSingle (10 ^ 0) 0xd433179d9c8cb841 (986) 986 (by decide) (by decide)
      (by decide) (by decide) (by decide) s hsmin hsM
  · rw [raiseToPow_slow_double s (317) (by rintro ⟨h1, h2⟩; exact absurd h1 (by decide))
      (by decide) (by decide) (by decide)]
    exact infDouble (10 ^ 0) 0xa000000000000000 0xd433179d9c8cb841 (-60) (986) 926 (by decide)
      (by decide) (by decide) (by decide) (by decide) (by decide) (by decide) s hsmin hsM
  · rw [raiseToPow_slow_double s (318) (by rintro ⟨h1, h2⟩; exact absurd h1 (by decide))
      (by decide) (by decide) (by decide)]
    exact infDouble (10 ^ 0) 0xc800000000000000 0xd433179d9c8cb841 (-57) (986) 929 (by decide)
      (by decide) (by decide) (by decide) (by decide) (by decide) (by decide) s hsmin hsM
  · rw [raiseToPow_slow_double s (319) (by rintro ⟨h1, h2⟩; exact absurd h1 (by decide))
      (by decide) (by decide) (by decide)]
    exact infDouble (10 ^ 0) 0xfa00000000000000 0xd433179d9c8cb841 (-54) (986) 932 (by decide)
      (by decide) (by decide) (by decide) (by decide) (by decide) (by decide) s hsmin hsM
  · rw [raiseToPow_slow_double s (320) (by rintro ⟨h1, h2⟩; exact absurd h1 (by decide))
      (by decide) (by decide) (by decide)]
    exact infDouble (10 ^ 0) 0x9c40000000000000 0xd433179d9c8cb841 (-50) (986) 936 (by decide)
      (by decide) (by decide) (by decide) (by decide) (by decide) (by decide) s hsmin hsM
  · rw [raiseToPow_slow_double s (321) (by rintro ⟨h1, h2⟩; exact absurd h1 (by decide))
      (by decide) (by decide) (by decide)]
    exact infDouble (10 ^ 0) 0xc350000000000000 0xd433179d9c8cb841 (-47) (986) 939 (by decide)
      (by decide) (by decide) (by decide) (by decide) (by decide) (by decide) s hsmin hsM
  · rw [raiseToPow_slow_double s (322) (by rintro ⟨h1, h2⟩; exact absurd h1 (by decide))
      (by decide) (by decide) (by decide)]
    exact infDouble (10 ^ 0) 0xf424000000000000 0xd433179d9c8cb841 (-44) (986) 942 (by decide)
      (by decide) (by decide) (by decide) (by decide) (by decide) (by decide) s hsmin hsM
  · rw [raiseToPow_slow_double s (323) (by rintro ⟨h1, h2⟩; exact absurd h1 (by decide))
      (by decide) (by decide) (by decide)]
    exact infDouble (10 ^ 0) 0x9896800000000000 0xd433179d9c8cb841 (-40) (986) 946 (by decide)
      (by decide) (by decide) (by decide) (by decide) (by decide) (by decide) s hsmin hsM
  · rw [raiseToPow_slow_single s (324) (by rintro ⟨h1, h2⟩; exact absurd h1 (by decide))
      (by decide) (by decide) (by decide)]
    exact infSingle (10 ^ 0) 0x9e19db92b4e31ba9 (1013) 1013 (by decide) (by decide)
      (by decide) (by decide) (by decide) s hsmin hsM
  · rw [raiseToPow_slow_double s (325) (by rintro ⟨h1, h2⟩; exact absurd h1 (by decide))
      (by decide) (by decide) (by decide)]
    exact infDouble (10 ^ 0) 0xa000000000000000 0x9e19db92b4e31ba9 (-60) (1013) 953 (by decide)
      (by decide) (by decide) (by decide) (by decide) (by decide) (by decide) s hsmin hsM
  · rw [raiseToPow_slow_double s (326) (by rintro ⟨h1, h2⟩; exact absurd h1 (by decide))
      (by decide) (by decide) (by decide)]
    exact infDouble (10 ^ 0) 0xc800000000000000 0x9e19db92b4e31ba9 (-57) (1013) 956 (by decide)
      (by decide) (by decide) (by decide) (by decide) (by decide) (by decide) s hsmin hsM
  · rw [raiseToPow_slow_double s (327) (by rintro ⟨h1, h2⟩; exact absurd h1 (by decide))
      (by decide) (by decide) (by decide)]
    exact infDouble (10 ^ 0) 0xfa00000000000000 0x9e19db92b4e31ba9 (-54) (1013) 959 (by decide)
      (by decide) (by decide) (by decide) (by decide) (by decide) (by decide) s hsmin hsM
  · rw [raiseToPow_slow_double s (328) (by rintro ⟨h1, h2⟩; exact absurd h1 (by decide))
      (by decide) (by decide) (by decide)]
    exact infDouble (10 ^ 0) 0x9c40000000000000 0x9e19db92b4e31ba9 (-50) (1013) 963 (by decide)
      (by decide) (by decide) (by decide) (by decide) (by decide) (by decide) s hsmin hsM
  · rw [raiseToPow_slow_double s (329) (by rintro ⟨h1, h2⟩; exact absurd h1 (by decide))
      (by decide) (by decide) (by decide)]
    exact infDouble (10 ^ 0) 0xc350000000000000 0x9e19db92b4e31ba9 (-47) (1013) 966 (by decide)
      (by decide) (by decide) (by decide) (by decide) (by decide) (by decide) s hsmin hsM
  · rw [raiseToPow_slow_double s (330) (by rintro ⟨h1, h2⟩; exact absurd h1 (by decide))
      (by decide) (by decide) (by decide)]
    exact infDouble (10 ^ 0) 0xf424000000000000 0x9e19db92b4e31ba9 (-44) (1013) 969 (by decide)
      (by decide) (by decide) (by decide) (by decide) (by decide) (by decide) s hsmin hsM
  · rw [raiseToPow_slow_double s (331) (by rintro ⟨h1, h2⟩; exact absurd h1 (by decide))
      (by decide) (by decide) (by decide)]
    exact infDouble (10 ^ 0) 0x9896800000000000 0x9e19db92b4e31ba9 (-40) (1013) 973 (by decide)
      (by decide) (by decide) (by decide) (by decide) (by decide) (by decide) s hsmin hsM
  · rw [raiseToPow_slow_single s (332) (by rintro ⟨h1, h2⟩; exact absurd h1 (by decide))
      (by decide) (by decide) (by decide)]
    exact infSingle (10 ^ 0) 0xeb96bf6ebadf77d9 (1039) 1039 (by decide) (by decide)
      (by decide) (by decide) (by decide) s hsmin hsM
  · rw [raiseToPow_slow_double s (333) (by rintro ⟨h1, h2⟩; exact absurd h1 (by decide))
      (by decide) (by decide) (by decide)]
    exact infDouble (10 ^ 0) 0xa000000000000000 0xeb96bf6ebadf77d9 (-60) (1039) 979 (by decide)
      (by decide) (by decide) (by decide) (by decide) (by decide) (by decide) s hsmin hsM
  · rw [raiseToPow_slow_double s (334) (by rintro ⟨h1, h2⟩; exact absurd h1 (by decide))
      (by decide) (by decide) (by decide)]
    exact infDouble (10 ^ 0) 0xc800000000000000 0xeb96bf6ebadf77d9 (-57) (1039) 982 (by decide)
      (by decide) (by decide) (by decide) (by decide) (by decide) (by decide) s hsmin hsM
  · rw [raiseToPow_slow_double s (335) (by rintro ⟨h1, h2⟩; exact absurd h1 (by decide))
      (by decide) (by decide) (by decide)]
    exact infDouble (10 ^ 0) 0xfa00000000000000 0xeb96bf6ebadf77d9 (-54) (1039) 985 (by decide)
      (by decide) (by decide) (by decide) (by decide) (by decide) (by decide) s hsmin hsM
  · rw [raiseToPow_slow_double s (336) (by rintro ⟨h1, h2⟩; exact absurd h1 (by decide))
      (by decide) (by decide) (by decide)]
    exact infDouble (10 ^ 0) 0x9c40000000000000 0xeb96bf6ebadf77d9 (-50) (1039) 989 (by decide)
      (by decide) (by decide) (by decide) (by decide) (by decide) (by decide) s hsmin hsM
  · rw [raiseToPow_slow_double s (337) (by rintro ⟨h1, h2⟩; exact absurd h1 (by decide))
      (by decide) (by decide) (by decide)]
    exact infDouble (10 ^ 0) 0xc350000000000000 0xeb96bf6ebadf77d9 (-47) (1039) 992 (by decide)
      (by decide) (by decide) (by decide) (by decide) (by decide) (by decide) s hsmin hsM
  · rw [raiseToPow_slow_double s (338) (by rintro ⟨h1, h2⟩; exact absurd h1 (by decide))
      (by decide) (by decide) (by decide)]
    exact infDouble (10 ^ 0) 0xf424000000000000 0xeb96bf6ebadf77d9 (-44) (1039) 995 (by decide)
      (by decide) (by decide) (by decide) (by decide) (by decide) (by decide) s hsmin hsM
  · rw [raiseToPow_slow_double s (339) (by rintro ⟨h1, h2⟩; exact absurd h1 (by decide))
      (by decide) (by decide) (by decide)]
    exact infDouble (10 ^ 0) 0x9896800000000000 0xeb96bf6ebadf77d9 (-40) (1039) 999 (by decide)
      (by decide) (by decide) (by decide) (by decide) (by decide) (by decide) s hsmin hsM
  · rw [raiseToPow_slow_single s (340) (by rintro ⟨h1, h2⟩; exact absurd h1 (by decide))
      (by decide) (by decide) (by decide)]
    exact infSingle (10 ^ 0) 0xaf87023b9bf0ee6b (1066) 1066 (by decide) (by decide)
      (by decide) (by decide) (by decide) s hsmin hsM
  · rw [raiseToPow_slow_double s (341) (by rintro ⟨h1, h2⟩; exact absurd h1 (by decide))
      (by decide) (by decide) (by decide)]
    exact infDouble (10 ^ 0) 0xa000000000000000 0xaf87023b9bf0ee6b (-60) (1066) 1006 (by decide)
      (by decide) (by decide) (by decide) (by decide) (by decide) (by decide) s hsmin hsM
  · rw [raiseToPow_slow_double s (342) (by rintro ⟨h1, h2⟩; exact absurd h1 (by decide))
      (by decide) (by decide) (by decide)]
    exact infDouble (10 ^ 0) 0xc800000000000000 0xaf87023b9bf0ee6b (-57) (1066) 1009 (by decide)
      (by decide) (by decide) (by decide) (by decide) (by decide) (by decide) s hsmin hsM
  · rw [raiseToPow_slow_double s (343) (by rintro ⟨h1, h2⟩; exact absurd h1 (by decide))
      (by decide) (by decide) (by decide)]
    exact infDouble (10 ^ 0) 0xfa00000000000000 0xaf87023b9bf0ee6b (-54) (1066) 1012 (by decide)
      (by decide) (by decide) (by decide) (by decide) (by decide) (by decide) s hsmin hsM
  · rw [raiseToPow_slow_double s (344) (by rintro ⟨h1, h2⟩; exact absurd h1 (by decide))
      (by decide) (by decide) (by decide)]
    exact infDouble (10 ^ 0) 0x9c40000000000000 0xaf87023b9bf0ee6b (-50) (1066) 1016 (by decide)
      (by decide) (by decide) (by decide) (by decide) (by decide) (by decide) s hsmin hsM
  · rw [raiseToPow_slow_double s (345) (by rintro ⟨h1, h2⟩; exact absurd h1 (by decide))
      (by decide) (by decide) (by decide)]
    exact infDouble (10 ^ 0) 0xc350000000000000 0xaf87023b9bf0ee6b (-47) (1066) 1019 (by decide)
      (by decide) (by decide) (by decide) (by decide) (by decide) (by decide) s hsmin hsM
  · rw [raiseToPow_slow_double s (346) (by rintro ⟨h1, h2⟩; exact absurd h1 (by decide))
      (by decide) (by decide) (by decide)]
    exact infDouble (10 ^ 0) 0xf424000000000000 0xaf87023b9bf0ee6b (-44) (1066) 1022 (by decide)
      (by decide) (by decide) (by decide) (by decide) (by decide) (by decide) s hsmin hsM
  · rw [raiseToPow_slow_double s (347) (by rintro ⟨h1, h2⟩; exact absurd h1 (by decide))
      (by decide) (by decide) (by decide)]
    exact infDouble (10 ^ 0) 0x9896800000000000 0xaf87023b9bf0ee6b (-40) (1066) 1026 (by decide)
      (by decide) (by decide) (by decide) (by decide) (by decide) (by decide) s hsmin hsM

/-- Multiplying a zero mantissa yields a zero mantissa (the `roundUp32`
addend `2^31` vanishes under the final 32-bit shift). -/
theorem emul_zero_left (e : Int) (b : ExFP) :
    emul ⟨0, e⟩ b = ⟨0, e + b.exponent + 64⟩ := by
  unfold emul
  have h1 : ((1 <<< 31 : Nat) >>> 32) = 0 := by decide
  simp [Nat.zero_shiftRight, Nat.zero_and, Nat.zero_mul, h1]

/-- Normalizing a zero mantissa is the identity (the loop guard requires a
positive mantissa). -/
theorem normalize11_zero (x : Int) : normalize11 ⟨0, x⟩ = ⟨0, x⟩ := by
  show (⟨(normLoop 64 0 x).1, (normLoop 64 0 x).2⟩ : ExFP) = ⟨0, x⟩
  rw [show (64 : Nat) = 63 + 1 from rfl, normLoop_step_stop 63 0 x (by decide)]

/-- A biased power within `[-7, 695]` yields a cache index in range. -/
theorem tdiv8_bounds (b : Int) (h1 : -7 ≤ b) (h2 : b ≤ 695) :
    ¬ (b.tdiv 8 < 0 ∨ 87 ≤ b.tdiv 8) := by
  rcases le_or_lt 0 b with hp | hn
  · rw [Int.tdiv_eq_ediv hp (by norm_num)]
    omega
  · have hb : b.tdiv 8 = -((-b).tdiv 8) := by
      rw [← Int.neg_tdiv, neg_neg]
    rw [hb, Int.tdiv_eq_zero_of_lt (by omega) (by omega)]
    norm_num

/-- A biased power outside `[-7, 695]` yields a cache index out of range. -/
theorem tdiv8_out (b : Int) (h : b ≤ -8 ∨ 696 ≤ b) :
    b.tdiv 8 < 0 ∨ 87 ≤ b.tdiv 8 := by
  rcases h with h | h
  · left
    have hb : b.tdiv 8 = -((-b).tdiv 8) := by
      rw [← Int.neg_tdiv, neg_neg]
    rw [hb]
    have hpos : 0 < (-b).tdiv 8 := by
      rw [Int.tdiv_eq_ediv (by omega) (by norm_num)]
      omega
    omega
  · right
    rw [Int.tdiv_eq_ediv (by omega) (by norm_num)]
    omega

/-- A zero significand converts to `+0.0` at every exponent the power cache
covers, through either the fast path or the slow path. -/
theorem zero_sig : ∀ e : Int, -355 ≤ e → e ≤ 347 → raiseToPowTen 0 e = 0 := by
  intro e he1 he2
  by_cases hf : e.natAbs ≤ 22
  · simp only [raiseToPowTen]
    rw [if_pos (show e.natAbs ≤ 22 ∧ ((0 : Nat) ≤ 2 ^ 53 ∨ (0 : Nat) &&& 0xFFF = 0)
      from ⟨hf, Or.inl (by norm_num)⟩)]
    by_cases hneg : e < 0
    · rw [if_pos hneg]
      unfold roundRatBits
      rw [if_pos (Or.inl rfl)]
    · rw [if_neg hneg]
      rw [show (0 : Nat) * 10 ^ e.toNat = 0 from by ring]
      unfold roundRatBits
      rw [if_pos (Or.inl rfl)]
  · have h0 : ¬ e = 0 := by
      intro h
      rw [h] at hf
      exact hf (by decide)
    have hidx := tdiv8_bounds (e + 348) (by omega) (by omega)
    by_cases hshort : (e + 348).tmod 8 - 1 < 0
    · rw [raiseToPow_slow_single 0 e (fun hc => hf hc.1) h0 hidx hshort]
      rw [normalize11_zero, emul_zero_left]
      unfold asDouble
      rw [if_pos rfl]
    · rw [raiseToPow_slow_double 0 e (fun hc => hf hc.1) h0 hidx hshort]
      rw [normalize11_zero, emul_zero_left, normalize11_zero, emul_zero_left]
      unfold asDouble
      rw [if_pos rfl]

/-- Any exponent outside the cache range returns the quiet NaN bit pattern,
for every significand. -/
theorem nan_out : ∀ (s : Nat) (e : Int), (e ≤ -356 ∨ 348 ≤ e) →
    raiseToPowTen s e = nanBits := by
  intro s e he
  have hf : ¬ (e.natAbs ≤ 22 ∧ (s ≤ 2 ^ 53 ∨ s &&& 0xFFF = 0)) := by
    rintro ⟨h1, _⟩
    omega
  have h0 : ¬ e = 0 := by omega
  simp only [raiseToPowTen]
  rw [if_neg hf, if_neg h0, if_pos (tdiv8_out (e + 348) (by omega))]

/-- C4 counterexample.  The claim promises `0.0` whenever `e + n ≤ -324`
and `+∞` whenever `e + n ≥ 310`, but any exponent whose biased cache index
falls outside the 87-entry `powerCache` (`e ≤ -356` or `e ≥ 348`) returns
quiet NaN instead: `s = 1, n = 1, e = -356` has `e + n = -355 ≤ -324` yet
yields NaN, and `s = 1, n = 1, e = 400` has `e + n = 401 ≥ 310` yet also
yields NaN. -/
theorem claim_C4_counterexample :
    raiseToPowTen 1 (-356) = nanBits ∧
    raiseToPowTen 1 400 = nanBits ∧
    nanBits ≠ 0 ∧ nanBits ≠ infBits := by
  refine ⟨by decide, by decide, by decide, by decide⟩

/-- C4 (amended).  Within the cache range `-355 ≤ e ≤ 347` the claimed
behaviour holds: a zero significand yields `+0.0`; a nonzero `s < 2^64`
with `n` digits and `n + e ≤ -324` yields `+0.0`; and `s` with exactly `n`
digits and `n + e ≥ 310` yields `+∞`.  Outside that range (`e ≤ -356` or
`e ≥ 348`) the converter returns quiet NaN for every significand, contrary
to the claim's "never NaN". -/
theorem claim_C4 :
    (∀ e : Int, -355 ≤ e → e ≤ 347 → raiseToPowTen 0 e = 0) ∧
    (∀ (s : Nat) (e : Int), (e ≤ -356 ∨ 348 ≤ e) →
      raiseToPowTen s e = nanBits) ∧
    (∀ (s n : Nat) (e : Int), 0 < s → s < M64 → s < 10 ^ n →
      (n : Int) + e ≤ -324 → -355 ≤ e → raiseToPowTen s e = 0) ∧
    (∀ (s n : Nat) (e : Int), s < M64 → 10 ^ (n - 1) ≤ s → s < 10 ^ n →
      310 ≤ (n : Int) + e → e ≤ 347 → raiseToPowTen s e = infBits) := by
  refine ⟨zero_sig, fun s e he => nan_out s e he, ?_, ?_⟩
  · intro s n e hs hsM hsn hne he1
    have hn1 : 1 ≤ n := by
      rcases Nat.eq_zero_or_pos n with h | h
      · subst h
        norm_num at hsn
        omega
      · exact h
    have he2 : e ≤ -325 := by omega
    apply zero_core e he1 he2 s hs hsM
    calc s < 10 ^ n := hsn
    _ ≤ 10 ^ ((-324 - e).toNat) := Nat.pow_le_pow_right (by norm_num) (by omega)
  · intro s n e hsM hlo hhi hne he2
    have h20 : (10 : Nat) ^ 20 = 100000000000000000000 := by norm_num
    have hM : M64 = 18446744073709551616 := by norm_num [M64]
    have hn20 : n ≤ 20 := by
      by_contra hc
      push_neg at hc
      have hp : (10 : Nat) ^ 20 ≤ 10 ^ (n - 1) :=
        Nat.pow_le_pow_right (by norm_num) (by omega)
      omega
    have he1 : (290 : Int) ≤ e := by omega
    apply inf_core e he1 he2 s _ hsM
    calc (10 : Nat) ^ ((309 - e).toNat)
    ≤ 10 ^ (n - 1) := Nat.pow_le_pow_right (by norm_num) (by omega)
    _ ≤ s := hlo

/-- Witness for C4 at concrete inputs: a zero significand, an exponent
outside the cache (NaN), a tiny value rounding to zero, and a huge value
overflowing to infinity. -/
theorem claim_C4_witness :
    raiseToPowTen 0 (-100) = 0 ∧
    raiseToPowTen 5 (-400) = nanBits ∧
    raiseToPowTen 5 (-330) = 0 ∧
    raiseToPowTen 5 340 = infBits := by
  have h := claim_C4
  exact ⟨h.1 (-100) (by decide) (by decide),
    h.2.1 5 (-400) (Or.inl (by decide)),
    h.2.2.1 5 1 (-330) (by decide) (by decide) (by decide) (by decide) (by decide),
    h.2.2.2 5 1 340 (by decide) (by decide) (by decide) (by decide) (by decide)⟩

/-- Witness for C2 at `n = -120`: the text `-120` parses back to the
Integer token `-120`. -/
theorem claim_C2_witness :
    parseNumberBytes (writeIntBytes (-120)) =
      .ok (.valueNumberInt, -120, if (-120 : Int) < 0 then 1 <<< 63 else 0, []) :=
  claim_C2.1 (-120) (by decide) (by decide) (by decide)

end Jaxup
